import Mathlib

/-!
# chaos-operator: the ChaosEngine reconciler

A shallow embedding of `pkg/controller/chaosengine/chaosengine_controller.go`.

* Go `error` values are `Option GoError` (`none` is `nil`).
* The object store client, the event recorder, the process environment and the
  collaborators living in other packages are gathered in a `World`; every answer
  of the world may depend on the calls issued so far in the pass (`St.log`).
* The in-memory `engine *chaosTypes.EngineInfo` that the handlers mutate is
  threaded explicitly through `St`.
* A Go `map[string]string` is an association list; the order of the list is the
  order in which `range` happens to visit the map.
-/

namespace ChaosOperator

/-! ## Errors -/

/-- The `metav1.StatusReason` of an API error, as far as the controller inspects it. -/
inductive StatusReason
  | NotFound
  | AlreadyExists
  | Conflict
  | Unknown
deriving DecidableEq, Repr

/-- A Go `error`: the reason the `k8serrors.Is...` predicates look at and the text of `Error()`. -/
structure GoError where
  Reason : StatusReason
  Msg : String
deriving DecidableEq, Repr

/-- The predicate `k8serrors.IsNotFound`. -/
def IsNotFound (e : GoError) : Bool := decide (e.Reason = StatusReason.NotFound)

/-- An error built by `fmt.Errorf`, `errors.New` or `errors.Errorf`: a plain text, no API status. -/
def Errorf (msg : String) : GoError := { Reason := StatusReason.Unknown, Msg := msg }

/-! ## Constants of `pkg/apis/litmuschaos/v1alpha1` and `pkg/controller/types` -/

/-- The guard token: `const finalizer` of the controller. -/
def finalizer : String := "chaosengine.litmuschaos.io/finalizer"

/-- Modelled from the spec: the constant `EngineStateActive` is declared in
`pkg/apis/litmuschaos/v1alpha1`; it is the DesiredState the spec calls Active. -/
def EngineStateActive : String := "active"

/-- Modelled from the spec: the constant `EngineStateStop` is declared in
`pkg/apis/litmuschaos/v1alpha1`; it is the DesiredState the spec calls Stopped. -/
def EngineStateStop : String := "stop"

/-- Modelled from the spec: the constant `EngineStatusInitialized` is declared in
`pkg/apis/litmuschaos/v1alpha1`; it is the ObservedPhase the spec calls Initialized. -/
def EngineStatusInitialized : String := "initialized"

/-- Modelled from the spec: the constant `EngineStatusCompleted` is declared in
`pkg/apis/litmuschaos/v1alpha1`; it is the ObservedPhase the spec calls Completed. -/
def EngineStatusCompleted : String := "completed"

/-- Modelled from the spec: the constant `EngineStatusStopped` is declared in
`pkg/apis/litmuschaos/v1alpha1`; it is the ObservedPhase the spec calls Stopped. -/
def EngineStatusStopped : String := "stopped"

/-- Modelled from the spec: the constant `ExperimentStatusRunning` is declared in
`pkg/apis/litmuschaos/v1alpha1`; it is the experiment status the spec calls Running. -/
def ExperimentStatusRunning : String := "Running"

/-- Modelled from the spec: the constant `ExperimentStatusWaiting` is declared in
`pkg/apis/litmuschaos/v1alpha1`; it is the experiment status the spec calls Waiting. -/
def ExperimentStatusWaiting : String := "Waiting for Job Creation"

/-- Modelled from the spec: the constant `ExperimentStatusAborted` is declared in
`pkg/apis/litmuschaos/v1alpha1`; it is the experiment status the spec calls Aborted. -/
def ExperimentStatusAborted : String := "Forcefully Aborted"

/-- Modelled from the spec: the constant `CleanUpPolicyDelete` is declared in
`pkg/apis/litmuschaos/v1alpha1`; it is the CleanupPolicy the spec calls Delete. -/
def CleanUpPolicyDelete : String := "delete"

/-- Modelled from the spec: the constant `DefaultAnnotationCheck` is declared in
`pkg/controller/types`; the spec gives the default of AnnotationCheck as "true". -/
def DefaultAnnotationCheck : String := "true"

/-! ## Data model -/

/-- One entry of `Status.Experiments`, with the fields the spec lists. -/
structure ExperimentStatuses where
  Name : String
  Status : String
  Verdict : String
  LastUpdateTime : Nat
deriving DecidableEq, Repr

/-- The part of `metav1.ObjectMeta` the controller reads or writes. `Finalizers` is a Go
slice: `none` is the nil slice the controller tests for. -/
structure ObjectMeta where
  Name : String
  Namespace : String
  UID : String
  DeletionTimestamp : Option Nat
  Finalizers : Option (List String)
deriving DecidableEq, Repr

/-- The target selector `Spec.Appinfo`. -/
structure ApplicationParams where
  Appns : String
  Applabel : String
  AppKind : String
deriving DecidableEq, Repr

/-- The part of `ChaosEngineSpec` that decides the control flow. `Experiments` keeps the
names of the experiment list, `RunnerImage` is `Components.Runner.Image`. -/
structure ChaosEngineSpec where
  Appinfo : ApplicationParams
  AnnotationCheck : String
  EngineState : String
  Experiments : List String
  JobCleanUpPolicy : String
  TerminationGracePeriodSeconds : Int
  RunnerImage : String
deriving DecidableEq, Repr

/-- The controller-owned status of a campaign. -/
structure ChaosEngineStatus where
  EngineStatus : String
  Experiments : List ExperimentStatuses
deriving DecidableEq, Repr

/-- The campaign resource. -/
structure ChaosEngine where
  ObjectMeta : ObjectMeta
  Spec : ChaosEngineSpec
  Status : ChaosEngineStatus
deriving DecidableEq, Repr

/-- The record `chaosTypes.ApplicationInfo`. -/
structure ApplicationInfo where
  Namespace : String
  Label : String
  Kind : String
  ExperimentList : List String
deriving DecidableEq, Repr

/-- The record `chaosTypes.EngineInfo` the handlers pass around and mutate. -/
structure EngineInfo where
  Instance : ChaosEngine
  AppInfo : ApplicationInfo
  AppExperiments : List String
deriving DecidableEq, Repr

/-- One entry of `Status.History.Targets` of a companion result. -/
structure TargetDetails where
  Name : String
  Kind : String
  ChaosStatus : String
deriving DecidableEq, Repr

/-- The companion result resource. -/
structure ChaosResult where
  Name : String
  Labels : List (String × String)
  Annotations : List (String × String)
  Targets : List TargetDetails
deriving DecidableEq, Repr

/-- One entry of `Status.ContainerStatuses`; `Terminated` holds the reason of
`State.Terminated` when that pointer is set. -/
structure ContainerStatus where
  Name : String
  Ready : Bool
  Terminated : Option String
deriving DecidableEq, Repr

/-- A pod, as far as the controller builds or inspects it. -/
structure Pod where
  Name : String
  Namespace : String
  Labels : List (String × String)
  Phase : String
  ContainerStatuses : List ContainerStatus
deriving DecidableEq, Repr

/-- The key `types.NamespacedName`. -/
structure NamespacedName where
  Namespace : String
  Name : String
deriving DecidableEq, Repr

/-- The request `reconcile.Request`. -/
structure Request where
  NamespacedName : NamespacedName
deriving DecidableEq, Repr

/-- The two kinds of child resources forced teardown deletes. -/
inductive ChildKind
  | Job
  | Pod
deriving DecidableEq, Repr

/-- The values of `metav1.DeletionPropagation`. -/
inductive DeletionPropagation
  | Orphan
  | Background
  | Foreground
deriving DecidableEq, Repr

/-- The options of `sigs.k8s.io/controller-runtime/pkg/client` the controller passes to
`List` and `DeleteAllOf`. -/
inductive ClientOption
  | InNamespace (ns : String)
  | MatchingLabels (labels : List (String × String))
  | PropagationPolicy (p : DeletionPropagation)
  | GracePeriodSeconds (seconds : Int)
deriving DecidableEq, Repr

/-! ## Strings -/

/-- The function `strings.Split` for a one-character separator, on the characters of
the string. -/
def splitChars (sep : Char) : List Char → List (List Char)
  | [] => [[]]
  | c :: cs =>
    match splitChars sep cs with
    | [] => [[]]
    | p :: ps => if c = sep then [] :: p :: ps else (c :: p) :: ps

/-- The call `strings.Split(s, "/")`. -/
def Split (s : String) (sep : Char) : List String :=
  (splitChars sep s.data).map String.mk

/-- The predicate `unicode.IsSpace`. -/
def IsSpace (c : Char) : Bool :=
  let n := c.toNat
  (9 ≤ n ∧ n ≤ 13) || n = 32 || n = 0x85 || n = 0xA0 || n = 0x1680 ||
  (0x2000 ≤ n ∧ n ≤ 0x200A) || n = 0x2028 || n = 0x2029 || n = 0x202F ||
  n = 0x205F || n = 0x3000

/-- The function `strings.TrimSpace`. -/
def TrimSpace (s : String) : String :=
  String.mk ((s.data.dropWhile IsSpace).reverse.dropWhile IsSpace).reverse

/-! ## Status Synchronizer: merging outcome annotations -/

/-- The function `updateTargets`: sets the status of the first entry called `name`; the
boolean tells whether there was one. -/
def updateTargets (name status : String) : List TargetDetails → Bool × List TargetDetails
  | [] => (false, [])
  | t :: ts =>
    if t.Name = name then (true, { t with ChaosStatus := status } :: ts)
    else ((updateTargets name status ts).1, t :: (updateTargets name status ts).2)

/-- The cases of the `switch` of `getChaosStatus`. -/
def isOutcome (lowered : String) : Bool :=
  lowered = "injected" || lowered = "reverted" || lowered = "targeted"

/-- The statement `delete(annotations, k)`. -/
def deleteKey (annotations : List (String × String)) (k : String) : List (String × String) :=
  annotations.filter (fun kv => kv.1 ≠ k)

/-- The body of the `range` loop of `getChaosStatus`, over the entries still to visit.
`ToLower` is `strings.ToLower`. The result is `none` when `strings.Split(k, "/")[1]`
is out of range, where the Go code panics. -/
def getChaosStatusLoop (ToLower : String → String) :
    List (String × String) → List TargetDetails → List (String × String) →
    Option (List TargetDetails × List (String × String))
  | [], targetsList, annotations => some (targetsList, annotations)
  | (k, v) :: rest, targetsList, annotations =>
    if isOutcome (ToLower v) then
      match (Split k '/')[0]?, (Split k '/')[1]? with
      | some kind0, some name1 =>
        let kind := TrimSpace kind0
        let name := TrimSpace name1
        let upd := updateTargets name v targetsList
        let targetsList1 :=
          if !upd.1 then upd.2 ++ [{ Name := name, Kind := kind, ChaosStatus := v }] else upd.2
        getChaosStatusLoop ToLower rest targetsList1 (deleteKey annotations k)
      | _, _ => none
    else getChaosStatusLoop ToLower rest targetsList annotations

/-- The function `getChaosStatus`. -/
def getChaosStatus (ToLower : String → String) (result : ChaosResult) :
    Option (List TargetDetails × List (String × String)) :=
  getChaosStatusLoop ToLower result.Annotations result.Targets result.Annotations

/-! ## Abort marking -/

/-- The function `updateExperimentStatusesForStop`, on `Status.Experiments`; `now` is the
value of `v1.Now()`, the clock being taken not to advance within the loop. -/
def updateExperimentStatusesForStop (now : Nat) :
    List ExperimentStatuses → List ExperimentStatuses
  | [] => []
  | e :: es =>
    (if e.Status = ExperimentStatusRunning ∨ e.Status = ExperimentStatusWaiting then
      { e with Status := ExperimentStatusAborted, Verdict := "Stopped", LastUpdateTime := now }
    else e) :: updateExperimentStatusesForStop now es

/-! ## The world outside the controller -/

/-- A call the controller issues on the object store client, on the dynamic client, on the
annotation validator or on the event recorder. -/
inductive Call
  | GetEngine (key : NamespacedName)
  | Update (obj : ChaosEngine)
  | Patch (obj base : ChaosEngine)
  | ListPods (opts : List ClientOption)
  | DeleteAllOf (kind : ChildKind) (opts : List ClientOption)
  | GetPod (key : NamespacedName)
  | CreatePod (pod : Pod)
  | DeletePod (pod : Pod)
  | ListResults (opts : List ClientOption)
  | UpdateResult (result : ChaosResult)
  | ListCRDs
  | CheckChaosAnnotation (engine : EngineInfo)
  | Eventf (eventtype reason message : String)
deriving DecidableEq, Repr

/-- Everything the controller consumes: the answers of the object store (each may depend on
the calls issued so far), the collaborators of other packages, the process environment, the
clock and `strings.ToLower`. An update or patch is taken to leave the submitted object as
it is. -/
structure World where
  GetEngine : List Call → NamespacedName → Except GoError ChaosEngine
  Update : List Call → ChaosEngine → Option GoError
  Patch : List Call → ChaosEngine → ChaosEngine → Option GoError
  ListPods : List Call → List ClientOption → Except GoError (List Pod)
  DeleteAllOf : List Call → ChildKind → List ClientOption → Option GoError
  GetPod : List Call → NamespacedName → Except GoError Pod
  CreatePod : List Call → Pod → Option GoError
  DeletePod : List Call → Pod → Option GoError
  ListResults : List Call → List ClientOption → Except GoError (List ChaosResult)
  UpdateResult : List Call → ChaosResult → Option GoError
  ListCRDs : List Call → Except GoError (List String)
  CheckChaosAnnotation : List Call → EngineInfo → ApplicationInfo × Option GoError
  Build : Pod → Option GoError
  CreateClientSet : Option GoError
  CreateDynamicClientSet : Option GoError
  Getenv : String → String
  Now : List Call → Nat
  ToLower : String → String
  DefaultChaosRunnerImage : String
  ResultCRDName : String

/-- The state of one pass: the in-memory engine and the calls issued so far, oldest first. -/
structure St where
  engine : EngineInfo
  log : List Call
deriving DecidableEq, Repr

/-- Appends a call to the log. -/
def St.emit (st : St) (c : Call) : St := { st with log := st.log ++ [c] }

/-- Replaces `engine.Instance`. -/
def St.setInstance (st : St) (inst : ChaosEngine) : St :=
  { st with engine := { st.engine with Instance := inst } }

/-- The call `r.recorder.Eventf(engine.Instance, eventtype, reason, message)`. -/
def Eventf (st : St) (eventtype reason message : String) : St :=
  st.emit (Call.Eventf eventtype reason message)

/-- The call `r.client.Update(ctx, engine.Instance, &client.UpdateOptions{})`. -/
def clientUpdate (w : World) (st : St) : Option GoError × St :=
  (w.Update st.log st.engine.Instance, st.emit (Call.Update st.engine.Instance))

/-- The call `r.client.Patch(ctx, engine.Instance, patch)` where `patch` is
`client.MergeFrom(base)`. -/
def clientPatch (w : World) (base : ChaosEngine) (st : St) : Option GoError × St :=
  (w.Patch st.log st.engine.Instance base, st.emit (Call.Patch st.engine.Instance base))

/-- The call `r.client.List(ctx, &corev1.PodList{}, opts...)`. -/
def clientListPods (w : World) (opts : List ClientOption) (st : St) :
    Except GoError (List Pod) × St :=
  (w.ListPods st.log opts, st.emit (Call.ListPods opts))

/-- The call `r.client.DeleteAllOf(ctx, kind, opts...)`. -/
def clientDeleteAllOf (w : World) (kind : ChildKind) (opts : List ClientOption) (st : St) :
    Option GoError × St :=
  (w.DeleteAllOf st.log kind opts, st.emit (Call.DeleteAllOf kind opts))

/-- Modelled from the spec: the helper `utils.RemoveString` of `pkg/controller/utils` is
not among the sources; the spec has the handlers clear the deletion guard with it, so it
drops every occurrence of the token and keeps the other tokens in order. -/
def RemoveString (slice : List String) (s : String) : List String :=
  slice.filter (fun item => item ≠ s)

/-! ## Initialization -/

/-- The function `initEngine`. -/
def initEngine (w : World) (st : St) : Option GoError × St :=
  let inst := st.engine.Instance
  let inst1 : ChaosEngine :=
    if inst.Spec.EngineState = "" then
      { inst with Spec := { inst.Spec with EngineState := EngineStateActive } }
    else inst
  let inst2 : ChaosEngine :=
    if inst1.Spec.EngineState = EngineStateActive ∧ inst1.Status.EngineStatus = "" then
      { inst1 with Status := { inst1.Status with EngineStatus := EngineStatusInitialized } }
    else inst1
  if inst2.Status.EngineStatus = EngineStatusInitialized then
    match inst2.ObjectMeta.Finalizers with
    | none =>
      let inst3 : ChaosEngine :=
        { inst2 with ObjectMeta := { inst2.ObjectMeta with Finalizers := some [finalizer] } }
      let r := clientUpdate w (st.setInstance inst3)
      match r.1 with
      | some err =>
        (some (Errorf ("unable to initialize ChaosEngine, because of Update Error: " ++ err.Msg)),
          r.2)
      | none =>
        (none, Eventf r.2 "Normal" "ChaosEngineInitialized"
          ("Identifying app under test & launching " ++ inst3.ObjectMeta.Name ++ "-runner"))
    | some _ => (none, st.setInstance inst2)
  else (none, st.setInstance inst2)

/-! ## Teardown Engine -/

/-- The function `forceRemoveAllChaosPods`. The text of `%v` on the collected `[]error` is
the bracketed, space-separated list of the error texts. -/
def forceRemoveAllChaosPods (w : World) (request : Request) (st : St) : Option GoError × St :=
  let optsDelete0 : List ClientOption :=
    [ClientOption.InNamespace request.NamespacedName.Namespace,
     ClientOption.MatchingLabels [("chaosUID", st.engine.Instance.ObjectMeta.UID)],
     ClientOption.PropagationPolicy DeletionPropagation.Background]
  let optsDelete : List ClientOption :=
    if st.engine.Instance.Spec.TerminationGracePeriodSeconds ≠ 0 then
      optsDelete0 ++
        [ClientOption.GracePeriodSeconds st.engine.Instance.Spec.TerminationGracePeriodSeconds]
    else optsDelete0
  let rJob := clientDeleteAllOf w ChildKind.Job optsDelete st
  let err1 : List GoError := match rJob.1 with | some errJob => [errJob] | none => []
  let deleteEvent1 : List String := match rJob.1 with | some _ => ["Jobs, "] | none => []
  let rPod := clientDeleteAllOf w ChildKind.Pod optsDelete rJob.2
  let err2 : List GoError := match rPod.1 with | some errPod => err1 ++ [errPod] | none => err1
  let deleteEvent2 : List String :=
    match rPod.1 with | some _ => deleteEvent1 ++ ["Pods, "] | none => deleteEvent1
  if err2 ≠ [] then
    (some (Errorf ("unable to delete ChaosResources due to [" ++
        " ".intercalate (err2.map (fun e => e.Msg)) ++ "]")),
      Eventf rPod.2 "Warning" "ChaosResourcesOperationFailed"
        ("(chaos stop) Unable to delete chaos resources: " ++ String.join deleteEvent2 ++
          " allocated to chaosengine"))
  else (none, rPod.2)

/-- The function `forceRemoveChaosResources`. -/
def forceRemoveChaosResources (w : World) (request : Request) (st : St) : Option GoError × St :=
  match (forceRemoveAllChaosPods w request st).1 with
  | some err => (some err, (forceRemoveAllChaosPods w request st).2)
  | none => (none, (forceRemoveAllChaosPods w request st).2)

/-- The loop of `Try` in the package `pkg/util/retry` of `github.com/openebs/maya`, a
dependency outside the repository:
`for attempt := uint(0); (0 == attempt || nil != err) && attempt <= model.retry; attempt++`
with the body `err = action(attempt)`, where `Times(n)` sets `model.retry` to `n`; the
action is tried once and retried up to `retry` times. The first numeric argument bounds
the iterations still to run, so that the recursion is structural; `Try` passes enough of
them. The waiting time is not modelled. -/
def retryLoop (retry : Nat) (action : Nat → St → Option GoError × St) :
    Nat → Nat → Option GoError → St → Option GoError × St
  | 0, _, err, st => (err, st)
  | remaining + 1, attempt, err, st =>
    if (attempt = 0 ∨ err.isSome) ∧ attempt ≤ retry then
      retryLoop retry action remaining (attempt + 1) (action attempt st).1 (action attempt st).2
    else (err, st)

/-- The call `retry.Times(retry).Wait(d).Try(action)`: the loop from attempt 0 with no
error; the attempts are numbered `0` to `retry`, so `retry + 1` iterations suffice. -/
def Try (retry : Nat) (action : Nat → St → Option GoError × St) (st : St) :
    Option GoError × St :=
  retryLoop retry action (retry + 1) 0 none st

/-- The function `waitForChaosPodTermination`. -/
def waitForChaosPodTermination (w : World) (request : Request) (st : St) :
    Option GoError × St :=
  let opts : List ClientOption :=
    [ClientOption.InNamespace request.NamespacedName.Namespace,
     ClientOption.MatchingLabels [("chaosUID", st.engine.Instance.ObjectMeta.UID)]]
  Try 180 (fun _ s =>
      match clientListPods w opts s with
      | (Except.error err, s1) => (some err, s1)
      | (Except.ok items, s1) =>
        if items.length ≠ 0 then (some (Errorf "chaos pods are not deleted yet"), s1)
        else (none, s1))
    st

/-- The function `isResultCRDAvailable`. -/
def isResultCRDAvailable (w : World) (st : St) : (Bool × Option GoError) × St :=
  match w.CreateDynamicClientSet with
  | some err => ((false, some err), st)
  | none =>
    match w.ListCRDs st.log with
    | Except.error err => ((false, some err), st.emit Call.ListCRDs)
    | Except.ok items =>
      if items.any (fun name => name = w.ResultCRDName) then ((true, none), st.emit Call.ListCRDs)
      else ((false, none), st.emit Call.ListCRDs)

/-- The function `updatChaosResult`; `none` when `getChaosStatus` panics. -/
def updatChaosResult (w : World) (request : Request) (st : St) :
    Option (Option GoError × St) :=
  let opts : List ClientOption :=
    [ClientOption.InNamespace request.NamespacedName.Namespace, ClientOption.MatchingLabels []]
  match w.ListResults st.log opts with
  | Except.error err => some (some err, st.emit (Call.ListResults opts))
  | Except.ok items =>
    let st1 := st.emit (Call.ListResults opts)
    match items.find? (fun result =>
        (result.Labels.lookup "chaosUID").getD "" = st.engine.Instance.ObjectMeta.UID) with
    | none => some (none, st1)
    | some result =>
      match getChaosStatus w.ToLower result with
      | none => none
      | some (targetsList, annotations) =>
        let result1 : ChaosResult :=
          { result with Targets := targetsList, Annotations := annotations }
        some (w.UpdateResult st1.log result1, st1.emit (Call.UpdateResult result1))

/-- The function `updateChaosStatus`. -/
def updateChaosStatus (w : World) (request : Request) (st : St) :
    Option (Option GoError × St) :=
  match waitForChaosPodTermination w request st with
  | (some err, st1) => some (some err, st1)
  | (none, st1) =>
    if w.Getenv "WATCH_NAMESPACE" = "" then
      match isResultCRDAvailable w st1 with
      | ((_, some err), st2) => some (some err, st2)
      | ((found, none), st2) =>
        if !found then some (none, st2) else updatChaosResult w request st2
    else updatChaosResult w request st1

/-- The function `reconcileForDelete`; `none` when the status synchronizer panics. -/
def reconcileForDelete (w : World) (request : Request) (st : St) :
    Option (Option GoError × St) :=
  let base := st.engine.Instance
  let opts : List ClientOption :=
    [ClientOption.InNamespace request.NamespacedName.Namespace,
     ClientOption.MatchingLabels [("chaosUID", st.engine.Instance.ObjectMeta.UID)]]
  match clientListPods w opts st with
  | (Except.error err, st1) =>
    some (some err, Eventf st1 "Warning" "ChaosResourcesOperationFailed"
      "(chaos stop) Unable to list chaos experiment pods")
  | (Except.ok items, st1) =>
    let forced : Option GoError × St :=
      if items.length ≠ 0 then forceRemoveChaosResources w request st1 else (none, st1)
    match forced with
    | (some err, st2) =>
      some (some err, Eventf st2 "Warning" "ChaosResourcesOperationFailed"
        "(chaos stop) Unable to delete chaos experiment pods")
    | (none, st2) =>
      match updateChaosStatus w request st2 with
      | none => none
      | some (some err, st3) => some (some err, st3)
      | some (none, st3) =>
        let inst := st3.engine.Instance
        let inst1 : ChaosEngine :=
          match inst.ObjectMeta.Finalizers with
          | some fs =>
            { inst with ObjectMeta :=
                { inst.ObjectMeta with Finalizers := some (RemoveString fs finalizer) } }
          | none => inst
        let inst2 : ChaosEngine :=
          { inst1 with Status :=
              { EngineStatus := EngineStatusStopped,
                Experiments :=
                  updateExperimentStatusesForStop (w.Now st3.log) inst1.Status.Experiments } }
        match clientPatch w base (st3.setInstance inst2) with
        | (some err, st4) =>
          if !IsNotFound err then
            some (some (Errorf
                ("unable to remove finalizer from chaosEngine Resource, due to error: " ++
                  err.Msg)),
              Eventf st4 "Warning" "ChaosResourcesOperationFailed"
                "(chaos stop) Unable to update chaosengine")
          else if items.length ≠ 0 then
            some (none, Eventf st4 "Normal" "ChaosEngineStopped"
              "Chaos resources deleted successfully")
          else
            some (none, Eventf st4 "Warning" "ChaosEngineStopped"
              "Chaos stopped due to failed app identification")
        | (none, st4) =>
          if items.length ≠ 0 then
            some (none, Eventf st4 "Normal" "ChaosEngineStopped"
              "Chaos resources deleted successfully")
          else
            some (none, Eventf st4 "Warning" "ChaosEngineStopped"
              "Chaos stopped due to failed app identification")

/-- The function `updateEngineState`. -/
def updateEngineState (w : World) (state : String) (st : St) : Option GoError × St :=
  let base := st.engine.Instance
  let inst1 : ChaosEngine := { base with Spec := { base.Spec with EngineState := state } }
  match clientPatch w base (st.setInstance inst1) with
  | (some err, st1) =>
    (some (Errorf ("unable to patch state of chaosEngine Resource, due to error: " ++ err.Msg)),
      st1)
  | (none, st1) => (none, st1)

/-- The `for` loop of `gracefullyRemoveChaosPods`: the deletions of the listed pods, in
order, up to the first that fails. -/
def deletePodsInOrder (w : World) : List Pod → St → Option GoError × St
  | [], st => (none, st)
  | v :: rest, st =>
    match w.DeletePod st.log v with
    | some errDel => (some errDel, st.emit (Call.DeletePod v))
    | none => deletePodsInOrder w rest (st.emit (Call.DeletePod v))

/-- The function `gracefullyRemoveChaosPods`. -/
def gracefullyRemoveChaosPods (w : World) (request : Request) (st : St) : Option GoError × St :=
  let optsList : List ClientOption :=
    [ClientOption.InNamespace request.NamespacedName.Namespace,
     ClientOption.MatchingLabels
       [("app", st.engine.Instance.ObjectMeta.Name),
        ("chaosUID", st.engine.Instance.ObjectMeta.UID)]]
  match clientListPods w optsList st with
  | (Except.error errList, st1) => (some errList, st1)
  | (Except.ok items, st1) => deletePodsInOrder w items st1

/-- The function `gracefullyRemoveDefaultChaosResources`. -/
def gracefullyRemoveDefaultChaosResources (w : World) (request : Request) (st : St) :
    Option GoError × St :=
  if st.engine.Instance.Spec.JobCleanUpPolicy = CleanUpPolicyDelete then
    match gracefullyRemoveChaosPods w request st with
    | (some err, st1) => (some err, st1)
    | (none, st1) => (none, st1)
  else (none, st)

/-- The function `reconcileForComplete`. -/
def reconcileForComplete (w : World) (request : Request) (st : St) : Option GoError × St :=
  match gracefullyRemoveDefaultChaosResources w request st with
  | (some err, st1) =>
    (some err, Eventf st1 "Warning" "ChaosResourcesOperationFailed"
      "(chaos completion) Unable to delete chaos pods upon chaos completion")
  | (none, st1) =>
    match updateEngineState w EngineStateStop st1 with
    | (some err, st2) =>
      (some (Errorf ("unable to Update Engine State: " ++ err.Msg)),
        Eventf st2 "Warning" "ChaosResourcesOperationFailed"
          "(chaos completion) Unable to update chaosengine")
    | (none, st2) => (none, st2)

/-! ## Restart Handlers -/

/-- The function `updateEngineForRestart`. -/
def updateEngineForRestart (w : World) (st : St) : Option GoError × St :=
  let st1 := Eventf st "Normal" "RestartInProgress" "ChaosEngine is restarted"
  let inst := st1.engine.Instance
  let inst1 : ChaosEngine :=
    { inst with Status := { EngineStatus := EngineStatusInitialized, Experiments := [] } }
  match clientUpdate w (st1.setInstance inst1) with
  | (some err, st2) =>
    (some (Errorf ("unable to restart ChaosEngine, due to update error: " ++ err.Msg)), st2)
  | (none, st2) => (none, st2)

/-- The function `reconcileForRestartAfterAbort`. -/
def reconcileForRestartAfterAbort (w : World) (request : Request) (st : St) :
    Option GoError × St :=
  match forceRemoveChaosResources w request st with
  | (some err, st1) => (some err, st1)
  | (none, st1) =>
    match updateEngineForRestart w st1 with
    | (some _, st2) => (none, st2)
    | (none, st2) => (none, st2)

/-- The function `reconcileForRestartAfterComplete`. -/
def reconcileForRestartAfterComplete (w : World) (request : Request) (st : St) :
    Option GoError × St :=
  let base := st.engine.Instance
  match forceRemoveChaosResources w request st with
  | (some err, st1) => (some err, st1)
  | (none, st1) =>
    let inst := st1.engine.Instance
    let inst1 : ChaosEngine :=
      { inst with Status := { EngineStatus := EngineStatusInitialized, Experiments := [] } }
    let inst2 : ChaosEngine :=
      match inst1.ObjectMeta.Finalizers with
      | some fs =>
        { inst1 with ObjectMeta :=
            { inst1.ObjectMeta with Finalizers := some (RemoveString fs finalizer) } }
      | none => inst1
    match clientPatch w base (st1.setInstance inst2) with
    | (some err, st2) =>
      (some (Errorf
          ("unable to patch state & remove stale finalizer in chaosEngine Resource, due to error: "
            ++ err.Msg)),
        Eventf st2 "Warning" "ChaosResourcesOperationFailed"
          "(chaos restart) Unable to update chaosengine")
    | (none, st2) => (none, st2)

/-! ## Provisioning Handler -/

/-- The function `setChaosResourceImage`. -/
def setChaosResourceImage (w : World) (inst : ChaosEngine) : ChaosEngine :=
  let ChaosRunnerImage := w.Getenv "CHAOS_RUNNER_IMAGE"
  if inst.Spec.RunnerImage = "" ∧ ChaosRunnerImage = "" then
    { inst with Spec := { inst.Spec with RunnerImage := w.DefaultChaosRunnerImage } }
  else if inst.Spec.RunnerImage = "" then
    { inst with Spec := { inst.Spec with RunnerImage := ChaosRunnerImage } }
  else inst

/-- The function `getAnnotationCheck`. -/
def getAnnotationCheck (inst : ChaosEngine) : Option GoError × ChaosEngine :=
  let inst1 : ChaosEngine :=
    if inst.Spec.AnnotationCheck = "" then
      { inst with Spec := { inst.Spec with AnnotationCheck := DefaultAnnotationCheck } }
    else inst
  if inst1.Spec.AnnotationCheck ≠ "true" ∧ inst1.Spec.AnnotationCheck ≠ "false" then
    (some (Errorf ("annotationCheck \x27" ++ inst1.Spec.AnnotationCheck ++
      "\x27, is not supported it should be true or false")), inst1)
  else (none, inst1)

/-- The function `initializeApplicationInfo`, on a fresh `ApplicationInfo`. -/
def initializeApplicationInfo (inst : ChaosEngine) : ApplicationInfo :=
  { Label := inst.Spec.Appinfo.Applabel,
    Namespace :=
      if inst.Spec.Appinfo.Appns ≠ "" then inst.Spec.Appinfo.Appns
      else inst.ObjectMeta.Namespace,
    Kind := inst.Spec.Appinfo.AppKind,
    ExperimentList := inst.Spec.Experiments }

/-- The function `getApplicationDetail`; with a loaded instance it cannot fail. -/
def getApplicationDetail (engine : EngineInfo) : EngineInfo :=
  { engine with
    AppInfo := initializeApplicationInfo engine.Instance,
    AppExperiments := (initializeApplicationInfo engine.Instance).ExperimentList }

/-- Modelled from the spec: the function `resource.CheckChaosAnnotation` of
`pkg/controller/resource` is not among the sources; the spec gives the Annotation
Validator as `validate(selector, policyFlag) -> (applicationInfo, ok) | Error`, so the
call answers with an application info, which replaces `engine.AppInfo`, and an error. -/
def CheckChaosAnnotation (w : World) (st : St) : Option GoError × St :=
  (( World.CheckChaosAnnotation w st.log st.engine).2,
    { engine :=
        { st.engine with AppInfo := ( World.CheckChaosAnnotation w st.log st.engine).1 },
      log := st.log ++ [ Call.CheckChaosAnnotation st.engine] })

/-- The function `validateAnnontatedApplication`. -/
def validateAnnontatedApplication (w : World) (st : St) : Option GoError × St :=
  let st1 := st.setInstance (setChaosResourceImage w st.engine.Instance)
  match w.CreateClientSet with
  | some err => (some err, st1)
  | none =>
    match w.CreateDynamicClientSet with
    | some err => (some err, st1)
    | none =>
      match getAnnotationCheck st1.engine.Instance with
      | (some err, inst) => (some err, st1.setInstance inst)
      | (none, inst) =>
        let st2 : St := { st1 with engine := getApplicationDetail (st1.setInstance inst).engine }
        if st2.engine.Instance.Spec.AnnotationCheck = "true" then
          if st2.engine.AppInfo.Label = "" ∨ st2.engine.AppInfo.Namespace = "" ∨
              st2.engine.AppInfo.Kind = "" then
            (some (Errorf "incomplete AppInfo inside chaosengine"), st2)
          else
            match CheckChaosAnnotation w st2 with
            | (some err, st3) =>
              (some err, Eventf st3 "Warning" "ChaosResourcesOperationFailed"
                "(app indentification) Unable to filter app by specified info")
            | (none, st3) => (none, st3)
        else (none, st2)

/-- The function `getChaosRunnerLabels`. -/
def getChaosRunnerLabels (cr : ChaosEngine) : List (String × String) :=
  [("app", cr.ObjectMeta.Name),
   ("chaosUID", cr.ObjectMeta.UID),
   ("app.kubernetes.io/component", "chaos-runner"),
   ("app.kubernetes.io/part-of", "litmus")]

/-- The function `newGoRunnerPodForCR`: the runner descriptor, reduced to its name,
namespace and labels; `World.Build` is the validation of the pod builder. -/
def newGoRunnerPodForCR (w : World) (engine : EngineInfo) : Except GoError Pod :=
  let podObj : Pod :=
    { Name := engine.Instance.ObjectMeta.Name ++ "-runner",
      Namespace := engine.Instance.ObjectMeta.Namespace,
      Labels := getChaosRunnerLabels engine.Instance,
      Phase := "",
      ContainerStatuses := [] }
  match w.Build podObj with
  | some err => Except.error err
  | none => Except.ok podObj

/-- The function `engineRunnerPod`. -/
def engineRunnerPod (w : World) (engineRunner : Pod) (st : St) : Option GoError × St :=
  let key : NamespacedName := { Name := engineRunner.Name, Namespace := engineRunner.Namespace }
  let st1 := st.emit (Call.GetPod key)
  match w.GetPod st.log key with
  | Except.error err =>
    if IsNotFound err then
      match w.CreatePod st1.log engineRunner with
      | some err1 => (some err1, st1.emit (Call.CreatePod engineRunner))
      | none => (none, st1.emit (Call.CreatePod engineRunner))
    else (some err, st1)
  | Except.ok _ => (none, st1)

/-- The function `checkEngineRunnerPod`. -/
def checkEngineRunnerPod (w : World) (st : St) : Option GoError × St :=
  if st.engine.AppExperiments.length = 0 then
    (some (Errorf "application experiment list is empty"), st)
  else
    match newGoRunnerPodForCR w st.engine with
    | Except.error err => (some err, st)
    | Except.ok engineRunner =>
      match engineRunnerPod w engineRunner st with
      | (some err, st1) => (some err, st1)
      | (none, st1) => (none, st1)

/-- The loop of `checkRunnerContainerCompletedStatus` over the container statuses. -/
def runnerContainerCompleted (statuses : List ContainerStatus) : Bool :=
  statuses.foldl (fun isCompleted container =>
    if container.Name = "chaos-runner" then
      match container.Terminated with
      | some reason => if reason = "Completed" then !container.Ready else isCompleted
      | none => isCompleted
    else isCompleted) false

/-- The function `checkRunnerContainerCompletedStatus`; a failed lookup leaves the zero pod. -/
def checkRunnerContainerCompletedStatus (w : World) (st : St) : Bool × St :=
  let key : NamespacedName :=
    { Name := st.engine.Instance.ObjectMeta.Name ++ "-runner",
      Namespace := st.engine.Instance.ObjectMeta.Namespace }
  let runnerPod : Pod :=
    match w.GetPod st.log key with
    | Except.ok pod => pod
    | Except.error _ =>
      { Name := "", Namespace := "", Labels := [], Phase := "", ContainerStatuses := [] }
  (if runnerPod.Phase = "Running" ∨ runnerPod.Phase = "Succeeded" then
      runnerContainerCompleted runnerPod.ContainerStatuses
    else false,
   st.emit (Call.GetPod key))

/-- The function `updateEngineForComplete`. -/
def updateEngineForComplete (w : World) (st : St) : Option GoError × St :=
  if st.engine.Instance.Status.EngineStatus ≠ EngineStatusCompleted then
    let inst := st.engine.Instance
    let inst1 : ChaosEngine :=
      { inst with
        Status := { inst.Status with EngineStatus := EngineStatusCompleted },
        Spec := { inst.Spec with EngineState := EngineStateStop } }
    match clientUpdate w (st.setInstance inst1) with
    | (some err, st1) =>
      (some (Errorf ("unable to update ChaosEngine Status, due to update error: " ++ err.Msg)),
        st1)
    | (none, st1) =>
      (none, Eventf st1 "Normal" "ChaosEngineCompleted"
        "ChaosEngine completed, will delete or retain the resources according to jobCleanUpPolicy")
  else (none, st)

/-- The function `reconcileForCreationAndRunning`. -/
def reconcileForCreationAndRunning (w : World) (st : St) : Option GoError × St :=
  match validateAnnontatedApplication w st with
  | (some err, st1) =>
    match updateEngineState w EngineStateStop st1 with
    | (some _, st2) =>
      (some (Errorf ("unable to Update Engine State: " ++ err.Msg)),
        Eventf st2 "Warning" "ChaosResourcesOperationFailed"
          "(chaos stop) Unable to update chaosengine")
    | (none, st2) => (some err, st2)
  | (none, st1) =>
    match checkEngineRunnerPod w st1 with
    | (some err, st2) =>
      (some err, Eventf st2 "Warning" "ChaosResourcesOperationFailed"
        "(chaos start) Unable to get chaos resources")
    | (none, st2) =>
      match checkRunnerContainerCompletedStatus w st2 with
      | (true, st3) =>
        match updateEngineForComplete w st3 with
        | (some err, st4) => (some err, st4)
        | (none, st4) => (none, st4)
      | (false, st3) => (none, st3)

/-! ## Phase Resolver & Dispatcher -/

/-- The zero value `&chaosTypes.EngineInfo{}` a pass starts from. -/
def zeroEngineInfo : EngineInfo :=
  { Instance :=
      { ObjectMeta :=
          { Name := "", Namespace := "", UID := "", DeletionTimestamp := none,
            Finalizers := none },
        Spec :=
          { Appinfo := { Appns := "", Applabel := "", AppKind := "" }, AnnotationCheck := "",
            EngineState := "", Experiments := [], JobCleanUpPolicy := "",
            TerminationGracePeriodSeconds := 0, RunnerImage := "" },
        Status := { EngineStatus := "", Experiments := [] } },
    AppInfo := { Namespace := "", Label := "", Kind := "", ExperimentList := [] },
    AppExperiments := [] }

/-- The function `Reconcile`. The result is `none` when the pass panics; otherwise it is
the returned error and the state the pass ends in. Every return carries the empty
`reconcile.Result`, which is left out. -/
def Reconcile (w : World) (request : Request) : Option (Option GoError × St) :=
  let st0 : St := { engine := zeroEngineInfo, log := [Call.GetEngine request.NamespacedName] }
  match w.GetEngine [] request.NamespacedName with
  | Except.error err => if IsNotFound err then some (none, st0) else some (some err, st0)
  | Except.ok inst =>
    let st : St := st0.setInstance inst
    if inst.ObjectMeta.DeletionTimestamp.isSome then reconcileForDelete w request st
    else
      match initEngine w st with
      | (some err, st1) => some (some err, st1)
      | (none, st1) =>
        if st1.engine.Instance.Spec.EngineState = EngineStateActive ∧
            st1.engine.Instance.Status.EngineStatus = EngineStatusInitialized then
          some (reconcileForCreationAndRunning w st1)
        else if st1.engine.Instance.Spec.EngineState = EngineStateStop ∧
            st1.engine.Instance.Status.EngineStatus = EngineStatusCompleted then
          some (reconcileForComplete w request st1)
        else if st1.engine.Instance.Spec.EngineState = EngineStateStop ∧
            st1.engine.Instance.Status.EngineStatus = EngineStatusInitialized then
          reconcileForDelete w request st1
        else if st1.engine.Instance.Spec.EngineState = EngineStateActive ∧
            st1.engine.Instance.Status.EngineStatus = EngineStatusStopped then
          some (reconcileForRestartAfterAbort w request st1)
        else if st1.engine.Instance.Spec.EngineState = EngineStateActive ∧
            st1.engine.Instance.Status.EngineStatus = EngineStatusCompleted then
          some (reconcileForRestartAfterComplete w request st1)
        else some (none, st1)

/-! ## Worlds and campaigns used in the examples -/

/-- An API error with the given reason. -/
def apiError (reason : StatusReason) (msg : String) : GoError := { Reason := reason, Msg := msg }

/-- A world in which the store holds nothing and every write succeeds. -/
def quietWorld : World :=
  { GetEngine := fun _ _ => Except.error (apiError StatusReason.NotFound "not found"),
    Update := fun _ _ => none,
    Patch := fun _ _ _ => none,
    ListPods := fun _ _ => Except.ok [],
    DeleteAllOf := fun _ _ _ => none,
    GetPod := fun _ _ => Except.error (apiError StatusReason.NotFound "not found"),
    CreatePod := fun _ _ => none,
    DeletePod := fun _ _ => none,
    ListResults := fun _ _ => Except.ok [],
    UpdateResult := fun _ _ => none,
    ListCRDs := fun _ => Except.ok [],
    CheckChaosAnnotation := fun _ e => (e.AppInfo, none),
    Build := fun _ => none,
    CreateClientSet := none,
    CreateDynamicClientSet := none,
    Getenv := fun _ => "",
    Now := fun _ => 0,
    ToLower := fun s => String.mk (s.data.map Char.toLower),
    DefaultChaosRunnerImage := "litmuschaos/chaos-runner:latest",
    ResultCRDName := "chaosresults.litmuschaos.io" }

/-- A campaign `engine-nginx` in namespace `default` with one experiment, the validator
switched off, and the given desired state, observed phase and guards. -/
def sampleEngine (state phase : String) (guards : Option (List String)) : ChaosEngine :=
  { ObjectMeta :=
      { Name := "engine-nginx", Namespace := "default", UID := "uid-1",
        DeletionTimestamp := none, Finalizers := guards },
    Spec :=
      { Appinfo := { Appns := "default", Applabel := "app=nginx", AppKind := "deployment" },
        AnnotationCheck := "false", EngineState := state, Experiments := ["pod-delete"],
        JobCleanUpPolicy := "delete", TerminationGracePeriodSeconds := 0,
        RunnerImage := "litmuschaos/chaos-runner:latest" },
    Status := { EngineStatus := phase, Experiments := [] } }

/-- The state of a pass that has just loaded the given campaign. -/
def loaded (inst : ChaosEngine) : St :=
  { engine := { zeroEngineInfo with Instance := inst }, log := [] }

/-- The request for `default/engine-nginx`. -/
def sampleRequest : Request := { NamespacedName := { Namespace := "default", Name := "engine-nginx" } }

/-- The option list of forced teardown, for stating results. -/
def forcedDeleteOptions (request : Request) (st : St) : List ClientOption :=
  [ClientOption.InNamespace request.NamespacedName.Namespace,
   ClientOption.MatchingLabels [("chaosUID", st.engine.Instance.ObjectMeta.UID)],
   ClientOption.PropagationPolicy DeletionPropagation.Background] ++
  (if st.engine.Instance.Spec.TerminationGracePeriodSeconds = 0 then []
   else [ClientOption.GracePeriodSeconds st.engine.Instance.Spec.TerminationGracePeriodSeconds])

/-- The world `quietWorld`, except that deleting the children of the given kind fails. -/
def deleteFails (kind : ChildKind) : World :=
  { quietWorld with
    DeleteAllOf := fun _ k _ =>
      if k = kind then some (apiError StatusReason.Unknown "timeout") else none }

/-- The world `quietWorld`, except that the store holds the given campaign and answers
every update of it with a conflict. -/
def updateConflicts (inst : ChaosEngine) : World :=
  { quietWorld with
    GetEngine := fun _ _ => Except.ok inst,
    Update := fun _ _ => some (apiError StatusReason.Conflict "conflict") }

/-- The world `quietWorld`, except that the store holds the given campaign. -/
def holding (inst : ChaosEngine) : World :=
  { quietWorld with GetEngine := fun _ _ => Except.ok inst }

/-- The campaign after the two defaulting steps of `initEngine`, for stating results: an
empty desired state becomes Active, and an empty phase becomes Initialized when the
desired state is then Active. -/
def withDefaults (inst : ChaosEngine) : ChaosEngine :=
  { inst with
    Spec := { inst.Spec with
      EngineState :=
        if inst.Spec.EngineState = "" then EngineStateActive else inst.Spec.EngineState },
    Status := { inst.Status with
      EngineStatus :=
        if (inst.Spec.EngineState = "" ∨ inst.Spec.EngineState = EngineStateActive) ∧
            inst.Status.EngineStatus = "" then EngineStatusInitialized
        else inst.Status.EngineStatus } }

/-- The campaign `initEngine` submits to the store when it installs the guard, for stating
results. -/
def withGuard (inst : ChaosEngine) : ChaosEngine :=
  { withDefaults inst with
    ObjectMeta := { inst.ObjectMeta with Finalizers := some [finalizer] } }

/-- The state of a pass right after `getChaosEngineInstance` has loaded the campaign. -/
def fetched (request : Request) (inst : ChaosEngine) : St :=
  { engine := { zeroEngineInfo with Instance := inst },
    log := [Call.GetEngine request.NamespacedName] }

/-- Whether a call writes the campaign resource (an update or a patch), for stating
results. -/
def Call.writesCampaign : Call → Bool
  | Call.Update _ => true
  | Call.Patch _ _ => true
  | _ => false

/-- Whether a call creates a pod, for stating results. -/
def Call.createsPod : Call → Bool
  | Call.CreatePod _ => true
  | _ => false

/-- The key under which the runner workload of a campaign is looked up. -/
def runnerKey (inst : ChaosEngine) : NamespacedName :=
  { Namespace := inst.ObjectMeta.Namespace, Name := inst.ObjectMeta.Name ++ "-runner" }

/-- A runner pod that is running and whose container has not terminated. -/
def runningRunner : Pod :=
  { Name := "engine-nginx-runner", Namespace := "default",
    Labels := [("app", "engine-nginx"), ("chaosUID", "uid-1")],
    Phase := "Running",
    ContainerStatuses := [{ Name := "chaos-runner", Ready := true, Terminated := none }] }

/-- The world `quietWorld`, except that the store holds the given campaign and the
running runner pod. -/
def holdingRunner (inst : ChaosEngine) : World :=
  { quietWorld with
    GetEngine := fun _ _ => Except.ok inst,
    GetPod := fun _ _ => Except.ok runningRunner }

/-- The state `st1` continues `st` without touching the in-memory engine and without
writing the campaign resource, for stating results. -/
def St.quietlyExtends (st1 st : St) : Prop :=
  st1.engine = st.engine ∧
    ∃ added, st1.log = st.log ++ added ∧ ∀ c ∈ added, c.writesCampaign = false

/-- A campaign asked to stop while Initialized, with the known guard, a foreign guard, one
running and one completed experiment. -/
def stoppingEngine : ChaosEngine :=
  { sampleEngine EngineStateStop EngineStatusInitialized
      (some [finalizer, "foregroundDeletion"]) with
    Status :=
      { EngineStatus := EngineStatusInitialized,
        Experiments :=
          [{ Name := "pod-delete", Status := ExperimentStatusRunning, Verdict := "Awaited",
             LastUpdateTime := 7 },
           { Name := "cpu-hog", Status := "Completed", Verdict := "Pass",
             LastUpdateTime := 5 }] } }

/-- The kind `getChaosStatus` reads off an annotation key: the trimmed text before the
first "/", for stating results. -/
def targetKind (k : String) : String := TrimSpace ((Split k '/')[0]?.getD "")

/-- The name `getChaosStatus` reads off an annotation key: the trimmed text after the
first "/" (up to the second), for stating results. -/
def targetName (k : String) : String := TrimSpace ((Split k '/')[1]?.getD "")

/-- The recognized annotations of a map, in visiting order: those whose value lower-cased
is injected, reverted or targeted. -/
def outcomes (ToLower : String → String) (annotations : List (String × String)) :
    List (String × String) :=
  annotations.filter (fun kv => isOutcome (ToLower kv.2))

/-- The entry the loop appends for an annotation whose target is not in the history. -/
def newTarget (kv : String × String) : TargetDetails :=
  { Name := targetName kv.1, Kind := targetKind kv.1, ChaosStatus := kv.2 }

/-- One step of the loop of `getChaosStatus` on the history, for a recognized annotation
with a well-formed key. -/
def mergeTarget (targetsList : List TargetDetails) (kv : String × String) :
    List TargetDetails :=
  if !(updateTargets (targetName kv.1) kv.2 targetsList).1 then
    (updateTargets (targetName kv.1) kv.2 targetsList).2 ++ [newTarget kv]
  else (updateTargets (targetName kv.1) kv.2 targetsList).2

/-- The lower-casing of the ASCII letters, standing in for `strings.ToLower` in examples. -/
def asciiLower (s : String) : String := String.mk (s.data.map Char.toLower)

/-- A companion result with one target in its history, two outcome annotations and one
annotation that is not an outcome. -/
def sampleResult : ChaosResult :=
  { Name := "engine-nginx-pod-delete",
    Labels := [("chaosUID", "uid-1")],
    Annotations :=
      [("pod/nginx-1", "Injected"), ("note", "hello"), ("pod/nginx-2", "reverted")],
    Targets := [{ Name := "nginx-2", Kind := "pod", ChaosStatus := "injected" }] }

/-- The world `quietWorld`, except that every creation of a pod is answered with
AlreadyExists. -/
def createRaces : World :=
  { quietWorld with
    CreatePod := fun _ _ => some (apiError StatusReason.AlreadyExists "already exists") }

/-- The campaign a restart handler resets to, before any change of the guard list: phase
Initialized and no experiment statuses, for stating results. -/
def resetForRestart (inst : ChaosEngine) : ChaosEngine :=
  { inst with Status := { EngineStatus := EngineStatusInitialized, Experiments := [] } }

/-- The campaign `reconcileForRestartAfterComplete` submits: reset, and the guard list,
when not nil, without the known token; for stating results. -/
def resetWithoutGuard (inst : ChaosEngine) : ChaosEngine :=
  { resetForRestart inst with
    ObjectMeta :=
      { inst.ObjectMeta with
        Finalizers := inst.ObjectMeta.Finalizers.map (fun fs => RemoveString fs finalizer) } }

/-- The state of a pass that has loaded the given campaign and derived the application
details from it. -/
def prepared (inst : ChaosEngine) : St :=
  { engine := getApplicationDetail (loaded inst).engine, log := [] }

/-- Whether a call looks a pod up or creates one, for stating results. -/
def Call.touchesRunner : Call → Bool
  | Call.GetPod _ => true
  | Call.CreatePod _ => true
  | _ => false

/-- Whether a listing succeeded and is empty, for stating results. -/
def observesNoPods : Except GoError (List Pod) → Bool
  | Except.ok items => items.length = 0
  | Except.error _ => false

/-- The listing options of the convergence wait, for stating results. -/
def waitOptions (request : Request) (st : St) : List ClientOption :=
  [ClientOption.InNamespace request.NamespacedName.Namespace,
   ClientOption.MatchingLabels [("chaosUID", st.engine.Instance.ObjectMeta.UID)]]

/-- A runner pod that has succeeded and whose container has terminated as completed. -/
def completedRunner : Pod :=
  { Name := "engine-nginx-runner", Namespace := "default",
    Labels := [("app", "engine-nginx"), ("chaosUID", "uid-1")],
    Phase := "Succeeded",
    ContainerStatuses :=
      [{ Name := "chaos-runner", Ready := false, Terminated := some "Completed" }] }

/-- The world `quietWorld`, except that the store holds the completed runner pod. -/
def holdingCompletedRunner : World :=
  { quietWorld with GetPod := fun _ _ => Except.ok completedRunner }

/-- The campaign `updateEngineForComplete` submits to the store, for stating results. -/
def markedComplete (inst : ChaosEngine) : ChaosEngine :=
  { inst with
    Status := { inst.Status with EngineStatus := EngineStatusCompleted },
    Spec := { inst.Spec with EngineState := EngineStateStop } }

/-- The state of a provisioning pass on the initialized sample campaign, after its
validation step, in the world `holdingCompletedRunner`. -/
def validatedSample : St :=
  (validateAnnontatedApplication holdingCompletedRunner
    (loaded (sampleEngine EngineStateActive EngineStatusInitialized (some [finalizer])))).2

/-- The state of the same pass after its ensure-exists step. -/
def ensuredSample : St := (checkEngineRunnerPod holdingCompletedRunner validatedSample).2

/-- The world `quietWorld`, except that a listing of pods finds the running runner while
fewer than `n` calls were issued before it, and nothing afterwards. -/
def drainsAfter (n : Nat) : World :=
  { quietWorld with
    ListPods := fun log _ => if log.length < n then Except.ok [runningRunner] else Except.ok [] }

/-! # Properties -/

/-! ## Abort marking -/

/-- C5: `updateExperimentStatusesForStop` keeps the length of the sequence and the name at
every position; an entry that is Running or Waiting becomes Aborted with verdict
"Stopped", and every other entry is returned as it was. -/
theorem updateExperimentStatusesForStop_frame (now : Nat) (es : List ExperimentStatuses) :
    (updateExperimentStatusesForStop now es).length = es.length ∧
    (updateExperimentStatusesForStop now es).map (fun e => e.Name) = es.map (fun e => e.Name) ∧
    ∀ (i : Nat) (e : ExperimentStatuses), es[i]? = some e →
      ((e.Status = ExperimentStatusRunning ∨ e.Status = ExperimentStatusWaiting) →
        ∃ e1, (updateExperimentStatusesForStop now es)[i]? = some e1 ∧ e1.Name = e.Name ∧
          e1.Status = ExperimentStatusAborted ∧ e1.Verdict = "Stopped") ∧
      (¬ (e.Status = ExperimentStatusRunning ∨ e.Status = ExperimentStatusWaiting) →
        (updateExperimentStatusesForStop now es)[i]? = some e) := by
  induction es with
  | nil => simp [updateExperimentStatusesForStop]
  | cons a as ih =>
    obtain ⟨ih1, ih2, ih3⟩ := ih
    refine ⟨by simp [updateExperimentStatusesForStop, ih1], ?_, ?_⟩
    · simp only [updateExperimentStatusesForStop, List.map_cons, ih2]
      by_cases h : a.Status = ExperimentStatusRunning ∨ a.Status = ExperimentStatusWaiting
      · simp [h]
      · simp [h]
    · intro i e hi
      cases i with
      | zero =>
        simp only [List.getElem?_cons_zero, Option.some.injEq] at hi
        subst hi
        constructor
        · intro h
          simp [updateExperimentStatusesForStop, h]
        · intro h
          simp [updateExperimentStatusesForStop, h]
      | succ j =>
        simp only [List.getElem?_cons_succ] at hi
        simpa [updateExperimentStatusesForStop] using ih3 j e hi

/-! ## Forced teardown -/

theorem forceRemoveAllChaosPods_eq (w : World) (request : Request) (st : St) :
    forceRemoveAllChaosPods w request st =
      match w.DeleteAllOf st.log ChildKind.Job (forcedDeleteOptions request st),
        w.DeleteAllOf
          (st.log ++ [Call.DeleteAllOf ChildKind.Job (forcedDeleteOptions request st)])
          ChildKind.Pod (forcedDeleteOptions request st) with
      | none, none =>
        (none, { engine := st.engine,
                 log := st.log ++
                   [Call.DeleteAllOf ChildKind.Job (forcedDeleteOptions request st),
                    Call.DeleteAllOf ChildKind.Pod (forcedDeleteOptions request st)] })
      | some errJob, none =>
        (some (Errorf ("unable to delete ChaosResources due to [" ++ errJob.Msg ++ "]")),
          { engine := st.engine,
            log := st.log ++
              [Call.DeleteAllOf ChildKind.Job (forcedDeleteOptions request st),
               Call.DeleteAllOf ChildKind.Pod (forcedDeleteOptions request st),
               Call.Eventf "Warning" "ChaosResourcesOperationFailed"
                 "(chaos stop) Unable to delete chaos resources: Jobs,  allocated to chaosengine"] })
      | none, some errPod =>
        (some (Errorf ("unable to delete ChaosResources due to [" ++ errPod.Msg ++ "]")),
          { engine := st.engine,
            log := st.log ++
              [Call.DeleteAllOf ChildKind.Job (forcedDeleteOptions request st),
               Call.DeleteAllOf ChildKind.Pod (forcedDeleteOptions request st),
               Call.Eventf "Warning" "ChaosResourcesOperationFailed"
                 "(chaos stop) Unable to delete chaos resources: Pods,  allocated to chaosengine"] })
      | some errJob, some errPod =>
        (some (Errorf ("unable to delete ChaosResources due to [" ++ errJob.Msg ++ " " ++
            errPod.Msg ++ "]")),
          { engine := st.engine,
            log := st.log ++
              [Call.DeleteAllOf ChildKind.Job (forcedDeleteOptions request st),
               Call.DeleteAllOf ChildKind.Pod (forcedDeleteOptions request st),
               Call.Eventf "Warning" "ChaosResourcesOperationFailed"
                 "(chaos stop) Unable to delete chaos resources: Jobs, Pods,  allocated to chaosengine"] }) := by
  have hopts : (if st.engine.Instance.Spec.TerminationGracePeriodSeconds ≠ 0 then
      [ClientOption.InNamespace request.NamespacedName.Namespace,
       ClientOption.MatchingLabels [("chaosUID", st.engine.Instance.ObjectMeta.UID)],
       ClientOption.PropagationPolicy DeletionPropagation.Background] ++
        [ClientOption.GracePeriodSeconds st.engine.Instance.Spec.TerminationGracePeriodSeconds]
      else
      [ClientOption.InNamespace request.NamespacedName.Namespace,
       ClientOption.MatchingLabels [("chaosUID", st.engine.Instance.ObjectMeta.UID)],
       ClientOption.PropagationPolicy DeletionPropagation.Background]) =
      forcedDeleteOptions request st := by
    unfold forcedDeleteOptions
    by_cases hg : st.engine.Instance.Spec.TerminationGracePeriodSeconds = 0 <;> simp [hg]
  simp only [forceRemoveAllChaosPods, clientDeleteAllOf, St.emit, Eventf, hopts]
  cases h1 : w.DeleteAllOf st.log ChildKind.Job (forcedDeleteOptions request st) <;>
    cases h2 : w.DeleteAllOf
      (st.log ++ [Call.DeleteAllOf ChildKind.Job (forcedDeleteOptions request st)])
      ChildKind.Pod (forcedDeleteOptions request st) <;>
    simp [String.intercalate, String.intercalate.go, String.join, Errorf, String.append_assoc]

/-- C10: forced teardown issues its two `DeleteAllOf` calls, jobs first, with one and the
same option list: the namespace of the request, the label selector with the single label
chaosUID = the UID of the campaign, background propagation, and a grace-period option
carrying `TerminationGracePeriodSeconds` exactly when that field is not zero; nothing
else it issues is a deletion. -/
theorem forceRemoveAllChaosPods_options (w : World) (request : Request) (st : St) :
    ∃ tail : List Call,
      (forceRemoveAllChaosPods w request st).2.log =
        st.log ++
          Call.DeleteAllOf ChildKind.Job
              ([ClientOption.InNamespace request.NamespacedName.Namespace,
                ClientOption.MatchingLabels [("chaosUID", st.engine.Instance.ObjectMeta.UID)],
                ClientOption.PropagationPolicy DeletionPropagation.Background] ++
               (if st.engine.Instance.Spec.TerminationGracePeriodSeconds = 0 then []
                else [ClientOption.GracePeriodSeconds
                        st.engine.Instance.Spec.TerminationGracePeriodSeconds])) ::
          Call.DeleteAllOf ChildKind.Pod
              ([ClientOption.InNamespace request.NamespacedName.Namespace,
                ClientOption.MatchingLabels [("chaosUID", st.engine.Instance.ObjectMeta.UID)],
                ClientOption.PropagationPolicy DeletionPropagation.Background] ++
               (if st.engine.Instance.Spec.TerminationGracePeriodSeconds = 0 then []
                else [ClientOption.GracePeriodSeconds
                        st.engine.Instance.Spec.TerminationGracePeriodSeconds])) ::
          tail ∧
      ∀ c ∈ tail, ∃ eventtype reason message, c = Call.Eventf eventtype reason message := by
  rw [forceRemoveAllChaosPods_eq]
  change ∃ tail : List Call, _ = st.log ++
    Call.DeleteAllOf ChildKind.Job (forcedDeleteOptions request st) ::
    Call.DeleteAllOf ChildKind.Pod (forcedDeleteOptions request st) :: tail ∧ _
  cases w.DeleteAllOf st.log ChildKind.Job (forcedDeleteOptions request st) <;>
    cases w.DeleteAllOf
      (st.log ++ [Call.DeleteAllOf ChildKind.Job (forcedDeleteOptions request st)])
      ChildKind.Pod (forcedDeleteOptions request st)
  · exact ⟨[], rfl, by simp⟩
  · exact ⟨[_], rfl, by simp⟩
  · exact ⟨[_], rfl, by simp⟩
  · exact ⟨[_], rfl, by simp⟩

/-- C9 (as amended): forced teardown always issues both deletions, the pod deletion also
after a failed job deletion; it returns an error exactly when at least one of the two
failed; the returned error carries the texts of the failed deletions, jobs first, and
the kinds that failed (Jobs, Pods) are named in the warning event it records. -/
theorem forceRemoveAllChaosPods_outcome (w : World) (request : Request) (st : St) :
    ∃ (opts : List ClientOption) (events : List Call),
      (forceRemoveAllChaosPods w request st).2.log =
        st.log ++ Call.DeleteAllOf ChildKind.Job opts ::
          Call.DeleteAllOf ChildKind.Pod opts :: events ∧
      ((forceRemoveAllChaosPods w request st).1 = none ↔
        (w.DeleteAllOf st.log ChildKind.Job opts = none ∧
         w.DeleteAllOf (st.log ++ [Call.DeleteAllOf ChildKind.Job opts]) ChildKind.Pod opts
           = none)) ∧
      (∀ err, (forceRemoveAllChaosPods w request st).1 = some err →
        err = Errorf ("unable to delete ChaosResources due to [" ++
          " ".intercalate
            (((w.DeleteAllOf st.log ChildKind.Job opts).toList ++
              (w.DeleteAllOf (st.log ++ [Call.DeleteAllOf ChildKind.Job opts])
                ChildKind.Pod opts).toList).map (fun e => e.Msg)) ++ "]") ∧
        events = [Call.Eventf "Warning" "ChaosResourcesOperationFailed"
          ("(chaos stop) Unable to delete chaos resources: " ++
            String.join
              ((if (w.DeleteAllOf st.log ChildKind.Job opts).isSome then ["Jobs, "] else []) ++
               (if (w.DeleteAllOf (st.log ++ [Call.DeleteAllOf ChildKind.Job opts])
                  ChildKind.Pod opts).isSome then ["Pods, "] else [])) ++
            " allocated to chaosengine")]) := by
  rw [forceRemoveAllChaosPods_eq]
  refine ⟨forcedDeleteOptions request st, ?_⟩
  cases w.DeleteAllOf st.log ChildKind.Job (forcedDeleteOptions request st) <;>
    cases w.DeleteAllOf
      (st.log ++ [Call.DeleteAllOf ChildKind.Job (forcedDeleteOptions request st)])
      ChildKind.Pod (forcedDeleteOptions request st)
  · exact ⟨[], rfl, by simp, by simp⟩
  · refine ⟨[_], rfl, by simp, ?_⟩
    intro err h
    simp only [Option.some.injEq] at h
    subst h
    simp [String.intercalate, String.intercalate.go, String.join, String.append_assoc]
  · refine ⟨[_], rfl, by simp, ?_⟩
    intro err h
    simp only [Option.some.injEq] at h
    subst h
    simp [String.intercalate, String.intercalate.go, String.join, String.append_assoc]
  · refine ⟨[_], rfl, by simp, ?_⟩
    intro err h
    simp only [Option.some.injEq] at h
    subst h
    simp [String.intercalate, String.intercalate.go, String.join, String.append_assoc]

/-- C9 (counterexample): when only the job deletion fails and when only the pod deletion
fails, with the same error text, forced teardown returns the very same error, whose text
names neither kind. -/
theorem forceRemoveAllChaosPods_error_hides_kind :
    (forceRemoveAllChaosPods (deleteFails ChildKind.Job) sampleRequest
        (loaded (sampleEngine EngineStateStop EngineStatusInitialized (some [finalizer])))).1 =
      some (Errorf "unable to delete ChaosResources due to [timeout]") ∧
    (forceRemoveAllChaosPods (deleteFails ChildKind.Pod) sampleRequest
        (loaded (sampleEngine EngineStateStop EngineStatusInitialized (some [finalizer])))).1 =
      some (Errorf "unable to delete ChaosResources due to [timeout]") := by
  constructor <;> rfl

/-! ## Initialization -/

theorem initEngine_eq (w : World) (st : St) :
    initEngine w st =
      if (withDefaults st.engine.Instance).Status.EngineStatus = EngineStatusInitialized ∧
          st.engine.Instance.ObjectMeta.Finalizers = none then
        match w.Update st.log (withGuard st.engine.Instance) with
        | some err =>
          (some (Errorf ("unable to initialize ChaosEngine, because of Update Error: " ++
              err.Msg)),
            { engine := { st.engine with Instance := withGuard st.engine.Instance },
              log := st.log ++ [Call.Update (withGuard st.engine.Instance)] })
        | none =>
          (none,
            { engine := { st.engine with Instance := withGuard st.engine.Instance },
              log := st.log ++ [Call.Update (withGuard st.engine.Instance),
                Call.Eventf "Normal" "ChaosEngineInitialized"
                  ("Identifying app under test & launching " ++
                    st.engine.Instance.ObjectMeta.Name ++ "-runner")] })
      else
        (none, { engine := { st.engine with Instance := withDefaults st.engine.Instance },
                 log := st.log }) := by
  obtain ⟨⟨⟨om, sp, stt⟩, ai, ae⟩, log⟩ := st
  obtain ⟨n, ns, uid, dt, fs⟩ := om
  obtain ⟨a1, a2, state, a4, a5, a6, a7⟩ := sp
  obtain ⟨phase, exps⟩ := stt
  simp only [initEngine, withDefaults, withGuard, clientUpdate, St.setInstance, St.emit, Eventf]
  by_cases hs : state = "" <;> by_cases ha : state = EngineStateActive <;>
    by_cases hp : phase = "" <;> by_cases hi : phase = EngineStatusInitialized <;>
    cases fs <;>
    simp_all [EngineStateActive, EngineStatusInitialized]

theorem initEngine_spec_status (w : World) (st : St) :
    (initEngine w st).2.engine.Instance.Spec = (withDefaults st.engine.Instance).Spec ∧
    (initEngine w st).2.engine.Instance.Status = (withDefaults st.engine.Instance).Status := by
  rw [initEngine_eq]
  split_ifs
  · cases w.Update st.log (withGuard st.engine.Instance) <;> simp [withGuard]
  · simp

/-! ## Phase Resolver & Dispatcher -/

/-- C1 (as amended): with the campaign loaded, a set deletion timestamp sends the pass to
the teardown handler on the campaign as loaded, whatever the desired state and phase,
with no defaulting and no update. Otherwise `initEngine` runs: the campaign it leaves has
the defaulted desired state and phase; if it fails, `Reconcile` returns its error and runs
no handler; if it succeeds, on the defaulted values (Active, Initialized) runs
provisioning, (Stopped, Completed) completion-stop, (Stopped, Initialized) teardown,
(Active, Stopped) restart-after-abort, (Active, Completed) restart-after-complete, and
every other pair runs no handler and returns no error. At most one of the five conditions
holds. -/
theorem Reconcile_dispatch (w : World) (request : Request) (inst : ChaosEngine)
    (hget : w.GetEngine [] request.NamespacedName = Except.ok inst) :
    (inst.ObjectMeta.DeletionTimestamp ≠ none →
      Reconcile w request = reconcileForDelete w request (fetched request inst)) ∧
    (inst.ObjectMeta.DeletionTimestamp = none →
      (initEngine w (fetched request inst)).2.engine.Instance.Spec.EngineState =
        (withDefaults inst).Spec.EngineState ∧
      (initEngine w (fetched request inst)).2.engine.Instance.Status.EngineStatus =
        (withDefaults inst).Status.EngineStatus ∧
      (∀ err, (initEngine w (fetched request inst)).1 = some err →
        Reconcile w request = some (some err, (initEngine w (fetched request inst)).2)) ∧
      ((initEngine w (fetched request inst)).1 = none →
        (((withDefaults inst).Spec.EngineState = EngineStateActive ∧
            (withDefaults inst).Status.EngineStatus = EngineStatusInitialized) →
          Reconcile w request =
            some (reconcileForCreationAndRunning w (initEngine w (fetched request inst)).2)) ∧
        (((withDefaults inst).Spec.EngineState = EngineStateStop ∧
            (withDefaults inst).Status.EngineStatus = EngineStatusCompleted) →
          Reconcile w request =
            some (reconcileForComplete w request (initEngine w (fetched request inst)).2)) ∧
        (((withDefaults inst).Spec.EngineState = EngineStateStop ∧
            (withDefaults inst).Status.EngineStatus = EngineStatusInitialized) →
          Reconcile w request =
            reconcileForDelete w request (initEngine w (fetched request inst)).2) ∧
        (((withDefaults inst).Spec.EngineState = EngineStateActive ∧
            (withDefaults inst).Status.EngineStatus = EngineStatusStopped) →
          Reconcile w request =
            some (reconcileForRestartAfterAbort w request
              (initEngine w (fetched request inst)).2)) ∧
        (((withDefaults inst).Spec.EngineState = EngineStateActive ∧
            (withDefaults inst).Status.EngineStatus = EngineStatusCompleted) →
          Reconcile w request =
            some (reconcileForRestartAfterComplete w request
              (initEngine w (fetched request inst)).2)) ∧
        (¬ ((withDefaults inst).Spec.EngineState = EngineStateActive ∧
              (withDefaults inst).Status.EngineStatus = EngineStatusInitialized) →
          ¬ ((withDefaults inst).Spec.EngineState = EngineStateStop ∧
              (withDefaults inst).Status.EngineStatus = EngineStatusCompleted) →
          ¬ ((withDefaults inst).Spec.EngineState = EngineStateStop ∧
              (withDefaults inst).Status.EngineStatus = EngineStatusInitialized) →
          ¬ ((withDefaults inst).Spec.EngineState = EngineStateActive ∧
              (withDefaults inst).Status.EngineStatus = EngineStatusStopped) →
          ¬ ((withDefaults inst).Spec.EngineState = EngineStateActive ∧
              (withDefaults inst).Status.EngineStatus = EngineStatusCompleted) →
          Reconcile w request = some (none, (initEngine w (fetched request inst)).2))) ∧
      List.count true
        [decide ((withDefaults inst).Spec.EngineState = EngineStateActive ∧
            (withDefaults inst).Status.EngineStatus = EngineStatusInitialized),
         decide ((withDefaults inst).Spec.EngineState = EngineStateStop ∧
            (withDefaults inst).Status.EngineStatus = EngineStatusCompleted),
         decide ((withDefaults inst).Spec.EngineState = EngineStateStop ∧
            (withDefaults inst).Status.EngineStatus = EngineStatusInitialized),
         decide ((withDefaults inst).Spec.EngineState = EngineStateActive ∧
            (withDefaults inst).Status.EngineStatus = EngineStatusStopped),
         decide ((withDefaults inst).Spec.EngineState = EngineStateActive ∧
            (withDefaults inst).Status.EngineStatus = EngineStatusCompleted)] ≤ 1) := by
  have hst : (St.setInstance
      { engine := zeroEngineInfo, log := [Call.GetEngine request.NamespacedName] } inst) =
      fetched request inst := rfl
  constructor
  · intro hdel
    have : inst.ObjectMeta.DeletionTimestamp.isSome = true := by
      cases h : inst.ObjectMeta.DeletionTimestamp
      · exact absurd h hdel
      · rfl
    simp only [Reconcile, hget, hst, this, if_true]
  · intro hdel
    obtain ⟨hs, hp⟩ := initEngine_spec_status w (fetched request inst)
    have hs1 : (initEngine w (fetched request inst)).2.engine.Instance.Spec.EngineState =
        (withDefaults inst).Spec.EngineState := by rw [hs]; rfl
    have hp1 : (initEngine w (fetched request inst)).2.engine.Instance.Status.EngineStatus =
        (withDefaults inst).Status.EngineStatus := by rw [hp]; rfl
    refine ⟨hs1, hp1, ?_, ?_, ?_⟩
    · intro err herr
      simp only [Reconcile, hget, hst, hdel, Option.isSome_none, Bool.false_eq_true, if_false]
      rcases h : initEngine w (fetched request inst) with ⟨e, s1⟩
      rw [h] at herr
      simp only at herr
      subst herr
      rfl
    · intro hok
      have hR : Reconcile w request =
          if (withDefaults inst).Spec.EngineState = EngineStateActive ∧
              (withDefaults inst).Status.EngineStatus = EngineStatusInitialized then
            some (reconcileForCreationAndRunning w (initEngine w (fetched request inst)).2)
          else if (withDefaults inst).Spec.EngineState = EngineStateStop ∧
              (withDefaults inst).Status.EngineStatus = EngineStatusCompleted then
            some (reconcileForComplete w request (initEngine w (fetched request inst)).2)
          else if (withDefaults inst).Spec.EngineState = EngineStateStop ∧
              (withDefaults inst).Status.EngineStatus = EngineStatusInitialized then
            reconcileForDelete w request (initEngine w (fetched request inst)).2
          else if (withDefaults inst).Spec.EngineState = EngineStateActive ∧
              (withDefaults inst).Status.EngineStatus = EngineStatusStopped then
            some (reconcileForRestartAfterAbort w request
              (initEngine w (fetched request inst)).2)
          else if (withDefaults inst).Spec.EngineState = EngineStateActive ∧
              (withDefaults inst).Status.EngineStatus = EngineStatusCompleted then
            some (reconcileForRestartAfterComplete w request
              (initEngine w (fetched request inst)).2)
          else some (none, (initEngine w (fetched request inst)).2) := by
        simp only [Reconcile, hget, hst, hdel, Option.isSome_none, Bool.false_eq_true, if_false]
        rw [← hs1, ← hp1]
        rcases h : initEngine w (fetched request inst) with ⟨e, s1⟩
        rw [h] at hok
        simp only at hok
        subst hok
        rfl
      rw [hR]
      refine ⟨?_, ?_, ?_, ?_, ?_, ?_⟩
      · intro h
        simp [h]
      · rintro ⟨h1, h2⟩
        simp [h1, h2, EngineStateStop, EngineStateActive, EngineStatusCompleted,
          EngineStatusInitialized]
      · rintro ⟨h1, h2⟩
        simp [h1, h2, EngineStateStop, EngineStateActive, EngineStatusCompleted,
          EngineStatusInitialized]
      · rintro ⟨h1, h2⟩
        simp [h1, h2, EngineStateStop, EngineStateActive, EngineStatusCompleted,
          EngineStatusInitialized, EngineStatusStopped]
      · rintro ⟨h1, h2⟩
        simp [h1, h2, EngineStateStop, EngineStateActive, EngineStatusCompleted,
          EngineStatusInitialized, EngineStatusStopped]
      · intro h1 h2 h3 h4 h5
        simp [h1, h2, h3, h4, h5]
    · by_cases h1 : (withDefaults inst).Spec.EngineState = EngineStateActive <;>
        by_cases h2 : (withDefaults inst).Spec.EngineState = EngineStateStop <;>
        by_cases h3 : (withDefaults inst).Status.EngineStatus = EngineStatusInitialized <;>
        by_cases h4 : (withDefaults inst).Status.EngineStatus = EngineStatusCompleted <;>
        by_cases h5 : (withDefaults inst).Status.EngineStatus = EngineStatusStopped <;>
        simp_all [EngineStateStop, EngineStateActive, EngineStatusCompleted,
          EngineStatusInitialized, EngineStatusStopped]

/-- C1 (counterexample): a campaign that is Active with an empty phase and a nil guard
list, in a world that answers the guard-installing update with a conflict: the defaulted
pair is (Active, Initialized), yet `Reconcile` returns the error of `initEngine` after
the update call and does not run the provisioning handler. -/
theorem Reconcile_init_failure_skips_dispatch :
    (withDefaults (sampleEngine EngineStateActive "" none)).Spec.EngineState =
      EngineStateActive ∧
    (withDefaults (sampleEngine EngineStateActive "" none)).Status.EngineStatus =
      EngineStatusInitialized ∧
    (Reconcile (updateConflicts (sampleEngine EngineStateActive "" none)) sampleRequest).map
        (fun r => (r.1, r.2.log)) =
      some (some (Errorf "unable to initialize ChaosEngine, because of Update Error: conflict"),
        [Call.GetEngine sampleRequest.NamespacedName,
         Call.Update (withGuard (sampleEngine EngineStateActive "" none))]) ∧
    Reconcile (updateConflicts (sampleEngine EngineStateActive "" none)) sampleRequest ≠
      some (reconcileForCreationAndRunning
        (updateConflicts (sampleEngine EngineStateActive "" none))
        (initEngine (updateConflicts (sampleEngine EngineStateActive "" none))
          (fetched sampleRequest (sampleEngine EngineStateActive "" none))).2) := by
  refine ⟨rfl, rfl, rfl, by decide⟩

/-- C1 (witness): the amended statement in a world that holds a campaign that is Active
with an empty phase: the pass runs the provisioning handler on the initialized state. -/
theorem Reconcile_dispatch_witness :
    (holding (sampleEngine EngineStateActive "" none)).GetEngine []
        sampleRequest.NamespacedName =
      Except.ok (sampleEngine EngineStateActive "" none) ∧
    Reconcile (holding (sampleEngine EngineStateActive "" none)) sampleRequest =
      some (reconcileForCreationAndRunning (holding (sampleEngine EngineStateActive "" none))
        (initEngine (holding (sampleEngine EngineStateActive "" none))
          (fetched sampleRequest (sampleEngine EngineStateActive "" none))).2) :=
  ⟨rfl,
    (((Reconcile_dispatch (holding (sampleEngine EngineStateActive "" none)) sampleRequest
      (sampleEngine EngineStateActive "" none) rfl).2 rfl).2.2.2.1 rfl).1 ⟨rfl, rfl⟩⟩

/-! ## Provisioning Handler -/

theorem setChaosResourceImage_shape (w : World) (inst : ChaosEngine) :
    ∃ img, setChaosResourceImage w inst =
      { inst with Spec := { inst.Spec with RunnerImage := img } } := by
  simp only [setChaosResourceImage]
  split_ifs
  · exact ⟨_, rfl⟩
  · exact ⟨_, rfl⟩
  · exact ⟨inst.Spec.RunnerImage, rfl⟩

theorem getAnnotationCheck_shape (inst : ChaosEngine) :
    ∃ ac, (getAnnotationCheck inst).2 =
      { inst with Spec := { inst.Spec with AnnotationCheck := ac } } := by
  simp only [getAnnotationCheck]
  by_cases h : inst.Spec.AnnotationCheck = ""
  · refine ⟨DefaultAnnotationCheck, ?_⟩
    simp only [h, if_true]
    split_ifs <;> rfl
  · refine ⟨inst.Spec.AnnotationCheck, ?_⟩
    simp only [h, if_false]
    split_ifs <;> rfl

theorem validateAnnontatedApplication_frame (w : World) (st : St) :
    (validateAnnontatedApplication w st).2.engine.Instance.ObjectMeta =
      st.engine.Instance.ObjectMeta ∧
    (validateAnnontatedApplication w st).2.engine.Instance.Status =
      st.engine.Instance.Status ∧
    (validateAnnontatedApplication w st).2.engine.Instance.Spec.EngineState =
      st.engine.Instance.Spec.EngineState ∧
    ((validateAnnontatedApplication w st).1 = none →
      (validateAnnontatedApplication w st).2.engine.AppExperiments =
        st.engine.Instance.Spec.Experiments) ∧
    ∃ added, (validateAnnontatedApplication w st).2.log = st.log ++ added ∧
      ∀ c ∈ added, c.writesCampaign = false ∧ c.createsPod = false := by
  unfold validateAnnontatedApplication
  simp only [St.setInstance]
  obtain ⟨img, himg⟩ := setChaosResourceImage_shape w st.engine.Instance
  rw [himg]
  cases w.CreateClientSet with
  | some e => exact ⟨rfl, rfl, rfl, by simp, [], by simp, by simp⟩
  | none =>
    cases w.CreateDynamicClientSet with
    | some e => exact ⟨rfl, rfl, rfl, by simp, [], by simp, by simp⟩
    | none =>
      simp only
      obtain ⟨ac, hac⟩ := getAnnotationCheck_shape
        ({ st.engine.Instance with
            Spec := { st.engine.Instance.Spec with RunnerImage := img } } : ChaosEngine)
      rcases hg : getAnnotationCheck
        ({ st.engine.Instance with
            Spec := { st.engine.Instance.Spec with RunnerImage := img } } : ChaosEngine)
        with ⟨e, i⟩
      rw [hg] at hac
      simp only at hac
      subst hac
      cases e with
      | some e => exact ⟨rfl, rfl, rfl, by simp, [], by simp, by simp⟩
      | none =>
        simp only [getApplicationDetail, initializeApplicationInfo]
        split_ifs
        all_goals first
          | exact ⟨rfl, rfl, rfl, by simp, [], by simp, by simp⟩
          | (simp only [St.emit, Eventf, CheckChaosAnnotation]
             split
             · rename_i h
               simp only [Prod.mk.injEq] at h
               obtain ⟨-, h⟩ := h
               subst h
               exact ⟨rfl, rfl, rfl, by simp, _, List.append_assoc _ _ _,
                 by simp [Call.writesCampaign, Call.createsPod]⟩
             · rename_i h
               simp only [Prod.mk.injEq] at h
               obtain ⟨-, h⟩ := h
               subst h
               exact ⟨rfl, rfl, rfl, by simp, _, rfl,
                 by simp [Call.writesCampaign, Call.createsPod]⟩)

theorem Reconcile_of_initialized (w : World) (request : Request) (inst : ChaosEngine)
    (hget : w.GetEngine [] request.NamespacedName = Except.ok inst)
    (hdel : inst.ObjectMeta.DeletionTimestamp = none)
    (hinit : (initEngine w (fetched request inst)).1 = none)
    (hstate : (withDefaults inst).Spec.EngineState = EngineStateActive)
    (hphase : (withDefaults inst).Status.EngineStatus = EngineStatusInitialized) :
    Reconcile w request =
      some (reconcileForCreationAndRunning w (initEngine w (fetched request inst)).2) := by
  have hst : (St.setInstance
      { engine := zeroEngineInfo, log := [Call.GetEngine request.NamespacedName] } inst) =
      fetched request inst := rfl
  obtain ⟨hs, hp⟩ := initEngine_spec_status w (fetched request inst)
  have hs1 : (initEngine w (fetched request inst)).2.engine.Instance.Spec.EngineState =
      EngineStateActive := by rw [hs]; exact hstate
  have hp1 : (initEngine w (fetched request inst)).2.engine.Instance.Status.EngineStatus =
      EngineStatusInitialized := by rw [hp]; exact hphase
  simp only [Reconcile, hget, hst, hdel, Option.isSome_none, Bool.false_eq_true, if_false]
  rcases h : initEngine w (fetched request inst) with ⟨e, s1⟩
  rw [h] at hinit hs1 hp1
  simp only at hinit hs1 hp1
  subst hinit
  simp [hs1, hp1]

theorem engineRunnerPod_notFound (w : World) (engineRunner : Pod) (st : St) (err : GoError)
    (hnf : w.GetPod st.log { Namespace := engineRunner.Namespace, Name := engineRunner.Name } =
      Except.error err)
    (hnf2 : IsNotFound err = true) :
    (engineRunnerPod w engineRunner st).1 =
      w.CreatePod (st.log ++
        [Call.GetPod { Namespace := engineRunner.Namespace, Name := engineRunner.Name }])
        engineRunner ∧
    (engineRunnerPod w engineRunner st).2 =
      { engine := st.engine,
        log := st.log ++
          [Call.GetPod { Namespace := engineRunner.Namespace, Name := engineRunner.Name },
           Call.CreatePod engineRunner] } := by
  simp only [engineRunnerPod, hnf, hnf2, if_true, St.emit]
  cases w.CreatePod (st.log ++
    [Call.GetPod { Namespace := engineRunner.Namespace, Name := engineRunner.Name }])
    engineRunner <;> simp

theorem engineRunnerPod_found (w : World) (engineRunner : Pod) (st : St) (pod : Pod)
    (hfound : w.GetPod st.log
      { Namespace := engineRunner.Namespace, Name := engineRunner.Name } = Except.ok pod) :
    engineRunnerPod w engineRunner st =
      (none, { engine := st.engine,
               log := st.log ++
                 [Call.GetPod
                   { Namespace := engineRunner.Namespace, Name := engineRunner.Name }] }) := by
  simp only [engineRunnerPod, hfound, St.emit]

theorem updateEngineForComplete_log (w : World) (st : St) :
    ∃ post, (updateEngineForComplete w st).2.log = st.log ++ post := by
  unfold updateEngineForComplete
  split_ifs
  · simp only [clientUpdate, St.setInstance, St.emit, Eventf]
    split
    · rename_i h
      simp only [Prod.mk.injEq] at h
      obtain ⟨-, h⟩ := h
      subst h
      exact ⟨_, rfl⟩
    · rename_i h
      simp only [Prod.mk.injEq] at h
      obtain ⟨-, h⟩ := h
      subst h
      exact ⟨_, List.append_assoc _ _ _⟩
  · exact ⟨[], by simp⟩

theorem newGoRunnerPodForCR_ok (w : World) (engine : EngineInfo) (pod : Pod)
    (h : newGoRunnerPodForCR w engine = Except.ok pod) :
    pod.Name = engine.Instance.ObjectMeta.Name ++ "-runner" ∧
    pod.Namespace = engine.Instance.ObjectMeta.Namespace ∧
    pod.Labels = getChaosRunnerLabels engine.Instance := by
  simp only [newGoRunnerPodForCR] at h
  split at h
  · exact absurd h (by simp)
  · simp only [Except.ok.injEq] at h
    subst h
    exact ⟨rfl, rfl, rfl⟩

theorem reconcileForCreationAndRunning_creates (w : World) (st : St) (pod : Pod)
    (err : GoError)
    (hval : (validateAnnontatedApplication w st).1 = none)
    (hexp : st.engine.Instance.Spec.Experiments ≠ [])
    (hbuild : newGoRunnerPodForCR w (validateAnnontatedApplication w st).2.engine =
      Except.ok pod)
    (hnf : w.GetPod (validateAnnontatedApplication w st).2.log
      { Namespace := pod.Namespace, Name := pod.Name } = Except.error err)
    (hnf2 : IsNotFound err = true) :
    ∃ post, (reconcileForCreationAndRunning w st).2.log =
      (validateAnnontatedApplication w st).2.log ++
        Call.GetPod { Namespace := pod.Namespace, Name := pod.Name } ::
        Call.CreatePod pod :: post := by
  obtain ⟨-, -, -, hae, -⟩ := validateAnnontatedApplication_frame w st
  have hae := hae hval
  rcases hv : validateAnnontatedApplication w st with ⟨e, sV⟩
  rw [hv] at hval hbuild hnf hae
  simp only at hval hbuild hnf hae
  subst hval
  have hlen : ¬ sV.engine.AppExperiments.length = 0 := by
    rw [hae]
    simpa using hexp
  obtain ⟨hc1, hc2⟩ := engineRunnerPod_notFound w pod sV err hnf hnf2
  simp only [reconcileForCreationAndRunning, hv, checkEngineRunnerPod, hlen, if_false, hbuild]
  rcases hr : engineRunnerPod w pod sV with ⟨e1, s2⟩
  rw [hr] at hc1 hc2
  simp only at hc1 hc2
  subst hc2
  cases e1 with
  | some e1 =>
    exact ⟨_, by simp [Eventf, St.emit]; rfl⟩
  | none =>
    simp only [checkRunnerContainerCompletedStatus, St.emit]
    split
    · rename_i h
      simp only [Prod.mk.injEq] at h
      obtain ⟨-, h⟩ := h
      subst h
      obtain ⟨post, hpost⟩ := updateEngineForComplete_log w
        { engine := sV.engine,
          log := sV.log ++ [Call.GetPod { Namespace := pod.Namespace, Name := pod.Name },
            Call.CreatePod pod] ++
            [Call.GetPod { Name := sV.engine.Instance.ObjectMeta.Name ++ "-runner",
                           Namespace := sV.engine.Instance.ObjectMeta.Namespace }] }
      split
      · rename_i h
        have := congrArg (fun r => r.2.log) h
        simp only at this
        rw [← this, hpost]
        exact ⟨_, by simp; rfl⟩
      · rename_i h
        have := congrArg (fun r => r.2.log) h
        simp only at this
        rw [← this, hpost]
        exact ⟨_, by simp; rfl⟩
    · rename_i h
      simp only [Prod.mk.injEq] at h
      obtain ⟨-, h⟩ := h
      subst h
      exact ⟨_, by simp; rfl⟩

theorem reconcileForCreationAndRunning_finds (w : World) (st : St) (pod runner : Pod)
    (hval : (validateAnnontatedApplication w st).1 = none)
    (hexp : st.engine.Instance.Spec.Experiments ≠ [])
    (hbuild : newGoRunnerPodForCR w (validateAnnontatedApplication w st).2.engine =
      Except.ok pod)
    (hfound : ∀ log, w.GetPod log (runnerKey st.engine.Instance) = Except.ok runner)
    (hrun : ¬ ((runner.Phase = "Running" ∨ runner.Phase = "Succeeded") ∧
      runnerContainerCompleted runner.ContainerStatuses = true)) :
    reconcileForCreationAndRunning w st =
      (none, { engine := (validateAnnontatedApplication w st).2.engine,
               log := (validateAnnontatedApplication w st).2.log ++
                 [Call.GetPod (runnerKey st.engine.Instance),
                  Call.GetPod (runnerKey st.engine.Instance)] }) := by
  obtain ⟨hom, -, -, hae, -⟩ := validateAnnontatedApplication_frame w st
  have hae := hae hval
  obtain ⟨hn, hns, -⟩ := newGoRunnerPodForCR_ok w _ pod hbuild
  rcases hv : validateAnnontatedApplication w st with ⟨e, sV⟩
  rw [hv] at hval hbuild hae hom hn hns
  simp only at hval hbuild hae hom hn hns
  subst hval
  have hlen : ¬ sV.engine.AppExperiments.length = 0 := by
    rw [hae]
    simpa using hexp
  have hkey : ({ Namespace := pod.Namespace, Name := pod.Name } : NamespacedName) =
      runnerKey st.engine.Instance := by
    simp [runnerKey, hn, hns, hom]
  have hkey2 : NamespacedName.mk sV.engine.Instance.ObjectMeta.Namespace
      (sV.engine.Instance.ObjectMeta.Name ++ "-runner") = runnerKey st.engine.Instance := by
    simp [runnerKey, hom]
  have hf := engineRunnerPod_found w pod sV runner (by rw [hkey]; exact hfound _)
  simp only [reconcileForCreationAndRunning, hv, checkEngineRunnerPod, hlen, if_false, hbuild,
    hf, checkRunnerContainerCompletedStatus, hkey, hkey2, hfound, St.emit]
  by_cases hph : runner.Phase = "Running" ∨ runner.Phase = "Succeeded"
  · have hc : runnerContainerCompleted runner.ContainerStatuses = false := by
      cases h : runnerContainerCompleted runner.ContainerStatuses
      · rfl
      · exact absurd ⟨hph, h⟩ hrun
    simp [hph, hc]
  · simp [hph]

theorem withGuard_of_fresh (inst : ChaosEngine)
    (hstate : inst.Spec.EngineState = EngineStateActive)
    (hphase : inst.Status.EngineStatus = "") :
    (withGuard inst).Spec.EngineState = EngineStateActive ∧
    (withGuard inst).Status.EngineStatus = EngineStatusInitialized ∧
    (withGuard inst).ObjectMeta.Finalizers = some [finalizer] ∧
    (withDefaults inst).Spec.EngineState = EngineStateActive ∧
    (withDefaults inst).Status.EngineStatus = EngineStatusInitialized ∧
    withDefaults (withGuard inst) = withGuard inst := by
  obtain ⟨om, sp, stt⟩ := inst
  obtain ⟨a1, a2, state, a4, a5, a6, a7⟩ := sp
  obtain ⟨phase, exps⟩ := stt
  simp only at hstate hphase
  subst hstate hphase
  simp [withGuard, withDefaults, EngineStateActive, EngineStatusInitialized]

/-- C2 (counterexample): a campaign that is Active with an empty phase, a nil guard list
and one experiment, in a world where the runner does not exist yet and every write
succeeds: the single first pass installs the guard and also looks the runner up and
creates it. -/
theorem Reconcile_first_pass_creates_runner :
    (Reconcile (holding (sampleEngine EngineStateActive "" none)) sampleRequest).map
        (fun r => (r.1, r.2.log)) =
      some (none,
        [Call.GetEngine sampleRequest.NamespacedName,
         Call.Update (withGuard (sampleEngine EngineStateActive "" none)),
         Call.Eventf "Normal" "ChaosEngineInitialized"
           "Identifying app under test & launching engine-nginx-runner",
         Call.GetPod { Namespace := "default", Name := "engine-nginx-runner" },
         Call.CreatePod
           { Name := "engine-nginx-runner", Namespace := "default",
             Labels := [("app", "engine-nginx"), ("chaosUID", "uid-1"),
               ("app.kubernetes.io/component", "chaos-runner"),
               ("app.kubernetes.io/part-of", "litmus")],
             Phase := "", ContainerStatuses := [] },
         Call.GetPod { Namespace := "default", Name := "engine-nginx-runner" }]) := by
  rfl

/-- C2 (as amended): for a campaign that is Active with an empty phase, no deletion
timestamp, a nil guard list and one experiment, when the guard-installing update succeeds
the first pass submits the campaign with the guard and phase Initialized and runs
provisioning in the same pass: with validation and the runner build succeeding and the
runner lookup answering NotFound, it issues the creation of the runner. A second pass on
the stored campaign that finds the runner, not completed, returns no error, issues no
update, patch or creation, and leaves the phase Initialized and the guard in place. -/
theorem Reconcile_two_passes (w w2 : World) (request : Request) (inst : ChaosEngine)
    (pod runner : Pod) (err : GoError)
    (hget : w.GetEngine [] request.NamespacedName = Except.ok inst)
    (hdel : inst.ObjectMeta.DeletionTimestamp = none)
    (hstate : inst.Spec.EngineState = EngineStateActive)
    (hphase : inst.Status.EngineStatus = "")
    (hguard : inst.ObjectMeta.Finalizers = none)
    (hexp : inst.Spec.Experiments.length = 1)
    (hupd : w.Update [Call.GetEngine request.NamespacedName] (withGuard inst) = none)
    (hval : (validateAnnontatedApplication w (initEngine w (fetched request inst)).2).1 = none)
    (hbuild : newGoRunnerPodForCR w
      (validateAnnontatedApplication w (initEngine w (fetched request inst)).2).2.engine =
        Except.ok pod)
    (hnf : w.GetPod (validateAnnontatedApplication w (initEngine w (fetched request inst)).2).2.log
      (runnerKey inst) = Except.error err)
    (hnf2 : IsNotFound err = true)
    (hget2 : w2.GetEngine [] request.NamespacedName = Except.ok (withGuard inst))
    (hval2 : (validateAnnontatedApplication w2 (fetched request (withGuard inst))).1 = none)
    (hbuild2 : ∀ p, w2.Build p = none)
    (hfound : ∀ log, w2.GetPod log (runnerKey inst) = Except.ok runner)
    (hrun : ¬ ((runner.Phase = "Running" ∨ runner.Phase = "Succeeded") ∧
      runnerContainerCompleted runner.ContainerStatuses = true)) :
    (∃ r pre post, Reconcile w request = some r ∧
      r.2.log = Call.GetEngine request.NamespacedName :: Call.Update (withGuard inst) ::
        pre ++ Call.GetPod (runnerKey inst) :: Call.CreatePod pod :: post ∧
      (∀ c ∈ pre, c.writesCampaign = false ∧ c.createsPod = false) ∧
      (withGuard inst).Spec.EngineState = EngineStateActive ∧
      (withGuard inst).Status.EngineStatus = EngineStatusInitialized ∧
      (withGuard inst).ObjectMeta.Finalizers = some [finalizer] ∧
      pod.Name = inst.ObjectMeta.Name ++ "-runner" ∧
      pod.Namespace = inst.ObjectMeta.Namespace) ∧
    (∃ st2, Reconcile w2 request = some (none, st2) ∧
      (∀ c ∈ st2.log, c.writesCampaign = false ∧ c.createsPod = false) ∧
      st2.engine.Instance.Status.EngineStatus = EngineStatusInitialized ∧
      st2.engine.Instance.ObjectMeta.Finalizers = some [finalizer]) := by
  obtain ⟨hg1, hg2, hg3, hd1, hd2, hidem⟩ := withGuard_of_fresh inst hstate hphase
  have hne : inst.Spec.Experiments ≠ [] := by
    intro h
    rw [h] at hexp
    exact absurd hexp (by simp)
  -- the state the first pass is in after `initEngine`
  have hinit : initEngine w (fetched request inst) =
      (none, { engine := { zeroEngineInfo with Instance := withGuard inst },
               log := [Call.GetEngine request.NamespacedName, Call.Update (withGuard inst),
                 Call.Eventf "Normal" "ChaosEngineInitialized"
                   ("Identifying app under test & launching " ++ inst.ObjectMeta.Name ++
                     "-runner")] }) := by
    rw [initEngine_eq]
    simp [fetched, hd2, hguard, hupd]
  constructor
  · have hR := Reconcile_of_initialized w request inst hget hdel
      (by rw [hinit]) hd1 hd2
    obtain ⟨hom, -, -, -, added, hadded, hframe⟩ :=
      validateAnnontatedApplication_frame w (initEngine w (fetched request inst)).2
    obtain ⟨hn, hns, -⟩ := newGoRunnerPodForCR_ok w _ pod hbuild
    have hkey : ({ Namespace := pod.Namespace, Name := pod.Name } : NamespacedName) =
        runnerKey inst := by
      rw [hn, hns, hom, hinit]
      rfl
    obtain ⟨post, hpost⟩ := reconcileForCreationAndRunning_creates w
      (initEngine w (fetched request inst)).2 pod err hval
      (by rw [hinit]; exact hne) hbuild (by rw [hkey]; exact hnf) hnf2
    refine ⟨_, Call.Eventf "Normal" "ChaosEngineInitialized"
        ("Identifying app under test & launching " ++ inst.ObjectMeta.Name ++ "-runner") ::
        added, post, hR, ?_, ?_, hg1, hg2, hg3, ?_, ?_⟩
    · rw [hpost, hadded, hkey, hinit]
      simp
    · intro c hc
      rcases List.mem_cons.mp hc with h | h
      · subst h
        exact ⟨rfl, rfl⟩
      · exact hframe c h
    · rw [hn, hom, hinit]
      rfl
    · rw [hns, hom, hinit]
      rfl
  · have hinit2 : initEngine w2 (fetched request (withGuard inst)) =
        (none, fetched request (withGuard inst)) := by
      rw [initEngine_eq]
      simp [fetched, hg3, hidem]
    have hR := Reconcile_of_initialized w2 request (withGuard inst) hget2 (by
        simpa [withGuard] using hdel)
      (by rw [hinit2]) (by rw [hidem]; exact hg1) (by rw [hidem]; exact hg2)
    rw [hinit2] at hR
    obtain ⟨hom, hst, -, -, added, hadded, hframe⟩ :=
      validateAnnontatedApplication_frame w2 (fetched request (withGuard inst))
    have hb : newGoRunnerPodForCR w2
        (validateAnnontatedApplication w2 (fetched request (withGuard inst))).2.engine =
        Except.ok
          { Name := (validateAnnontatedApplication w2
                (fetched request (withGuard inst))).2.engine.Instance.ObjectMeta.Name ++
              "-runner",
            Namespace := (validateAnnontatedApplication w2
                (fetched request (withGuard inst))).2.engine.Instance.ObjectMeta.Namespace,
            Labels := getChaosRunnerLabels (validateAnnontatedApplication w2
                (fetched request (withGuard inst))).2.engine.Instance,
            Phase := "", ContainerStatuses := [] } := by
      simp [newGoRunnerPodForCR, hbuild2]
    have hfin := reconcileForCreationAndRunning_finds w2 (fetched request (withGuard inst))
      _ runner hval2 (by simpa [fetched, withGuard, withDefaults] using hne) hb
      (by simpa [fetched, withGuard, runnerKey] using hfound) hrun
    rw [hfin] at hR
    refine ⟨_, hR, ?_, ?_, ?_⟩
    · intro c hc
      simp only [hadded, List.mem_append, List.mem_cons, List.mem_singleton,
        List.not_mem_nil, or_false] at hc
      rcases hc with (hc | hc) | hc | hc
      · simp only [fetched, List.mem_singleton] at hc
        subst hc
        exact ⟨rfl, rfl⟩
      · exact hframe c hc
      · subst hc
        exact ⟨rfl, rfl⟩
      · subst hc
        exact ⟨rfl, rfl⟩
    · simp only [hst]
      exact hg2
    · simp only [hom]
      exact hg3

/-- C2 (witness): the amended statement for the sample campaign: the first pass runs in a
world without the runner, the second in a world that holds the stored campaign and the
running runner. -/
theorem Reconcile_two_passes_witness :
    (∃ r pre post,
      Reconcile (holding (sampleEngine EngineStateActive "" none)) sampleRequest = some r ∧
      r.2.log = Call.GetEngine sampleRequest.NamespacedName ::
        Call.Update (withGuard (sampleEngine EngineStateActive "" none)) ::
        pre ++ Call.GetPod (runnerKey (sampleEngine EngineStateActive "" none)) ::
        Call.CreatePod
          { Name := "engine-nginx-runner", Namespace := "default",
            Labels := getChaosRunnerLabels (sampleEngine EngineStateActive "" none),
            Phase := "", ContainerStatuses := [] } :: post ∧
      (∀ c ∈ pre, c.writesCampaign = false ∧ c.createsPod = false) ∧
      (withGuard (sampleEngine EngineStateActive "" none)).Spec.EngineState =
        EngineStateActive ∧
      (withGuard (sampleEngine EngineStateActive "" none)).Status.EngineStatus =
        EngineStatusInitialized ∧
      (withGuard (sampleEngine EngineStateActive "" none)).ObjectMeta.Finalizers =
        some [finalizer] ∧
      (Pod.mk "engine-nginx-runner" "default"
          (getChaosRunnerLabels (sampleEngine EngineStateActive "" none)) "" []).Name =
        (sampleEngine EngineStateActive "" none).ObjectMeta.Name ++ "-runner" ∧
      (Pod.mk "engine-nginx-runner" "default"
          (getChaosRunnerLabels (sampleEngine EngineStateActive "" none)) "" []).Namespace =
        (sampleEngine EngineStateActive "" none).ObjectMeta.Namespace) ∧
    (∃ st2,
      Reconcile (holdingRunner (withGuard (sampleEngine EngineStateActive "" none)))
        sampleRequest = some (none, st2) ∧
      (∀ c ∈ st2.log, c.writesCampaign = false ∧ c.createsPod = false) ∧
      st2.engine.Instance.Status.EngineStatus = EngineStatusInitialized ∧
      st2.engine.Instance.ObjectMeta.Finalizers = some [finalizer]) :=
  Reconcile_two_passes (holding (sampleEngine EngineStateActive "" none))
    (holdingRunner (withGuard (sampleEngine EngineStateActive "" none))) sampleRequest
    (sampleEngine EngineStateActive "" none)
    { Name := "engine-nginx-runner", Namespace := "default",
      Labels := getChaosRunnerLabels (sampleEngine EngineStateActive "" none),
      Phase := "", ContainerStatuses := [] }
    runningRunner (apiError StatusReason.NotFound "not found")
    rfl rfl rfl rfl rfl rfl rfl rfl rfl rfl rfl rfl rfl (fun _ => rfl) (fun _ => rfl)
    (by decide)

/-! ## Teardown handler -/

theorem St.quietlyExtends_refl (st : St) : st.quietlyExtends st :=
  ⟨rfl, [], by simp, by simp⟩

theorem St.quietlyExtends_trans {st2 st1 st : St} (h2 : st2.quietlyExtends st1)
    (h1 : st1.quietlyExtends st) : st2.quietlyExtends st := by
  obtain ⟨he2, a2, hl2, hw2⟩ := h2
  obtain ⟨he1, a1, hl1, hw1⟩ := h1
  refine ⟨he2.trans he1, a1 ++ a2, by rw [hl2, hl1, List.append_assoc], ?_⟩
  intro c hc
  rcases List.mem_append.mp hc with h | h
  · exact hw1 c h
  · exact hw2 c h

theorem St.quietlyExtends_emit (st : St) (c : Call) (hc : c.writesCampaign = false) :
    (st.emit c).quietlyExtends st :=
  ⟨rfl, [c], rfl, by simpa using hc⟩

theorem forceRemoveChaosResources_quiet (w : World) (request : Request) (st : St) :
    (forceRemoveChaosResources w request st).2.quietlyExtends st := by
  have h : (forceRemoveChaosResources w request st).2 =
      (forceRemoveAllChaosPods w request st).2 := by
    unfold forceRemoveChaosResources
    split <;> rfl
  rw [h, forceRemoveAllChaosPods_eq]
  cases w.DeleteAllOf st.log ChildKind.Job (forcedDeleteOptions request st) <;>
    cases w.DeleteAllOf
      (st.log ++ [Call.DeleteAllOf ChildKind.Job (forcedDeleteOptions request st)])
      ChildKind.Pod (forcedDeleteOptions request st) <;>
    exact ⟨rfl, _, rfl, by simp [Call.writesCampaign]⟩

theorem retryLoop_quiet (retry : Nat) (action : Nat → St → Option GoError × St)
    (haction : ∀ n s, (action n s).2.quietlyExtends s) :
    ∀ (remaining attempt : Nat) (err : Option GoError) (st : St),
      (retryLoop retry action remaining attempt err st).2.quietlyExtends st := by
  intro remaining
  induction remaining with
  | zero =>
    intro attempt err st
    exact St.quietlyExtends_refl st
  | succ n ih =>
    intro attempt err st
    unfold retryLoop
    split_ifs
    · exact St.quietlyExtends_trans (ih _ _ _) (haction attempt st)
    · exact St.quietlyExtends_refl st

theorem waitForChaosPodTermination_quiet (w : World) (request : Request) (st : St) :
    (waitForChaosPodTermination w request st).2.quietlyExtends st := by
  unfold waitForChaosPodTermination Try
  apply retryLoop_quiet
  intro n s
  simp only [clientListPods]
  split
  · rename_i h
    simp only [Prod.mk.injEq] at h
    obtain ⟨-, h⟩ := h
    subst h
    exact St.quietlyExtends_emit _ _ rfl
  · rename_i h
    simp only [Prod.mk.injEq] at h
    obtain ⟨-, h⟩ := h
    subst h
    split_ifs <;> exact St.quietlyExtends_emit _ _ rfl

theorem isResultCRDAvailable_quiet (w : World) (st : St) :
    (isResultCRDAvailable w st).2.quietlyExtends st := by
  unfold isResultCRDAvailable
  split
  · exact St.quietlyExtends_refl st
  · split
    · exact St.quietlyExtends_emit _ _ rfl
    · split_ifs <;> exact St.quietlyExtends_emit _ _ rfl

theorem updatChaosResult_quiet (w : World) (request : Request) (st : St)
    (r : Option GoError × St) (h : updatChaosResult w request st = some r) :
    r.2.quietlyExtends st := by
  unfold updatChaosResult at h
  simp only at h
  split at h
  · simp only [Option.some.injEq] at h
    subst h
    exact St.quietlyExtends_emit _ _ rfl
  · split at h
    · simp only [Option.some.injEq] at h
      subst h
      exact St.quietlyExtends_emit _ _ rfl
    · split at h
      · exact absurd h (by simp)
      · simp only [Option.some.injEq] at h
        subst h
        exact St.quietlyExtends_trans (St.quietlyExtends_emit _ _ rfl)
          (St.quietlyExtends_emit _ _ rfl)

theorem updateChaosStatus_quiet (w : World) (request : Request) (st : St)
    (r : Option GoError × St) (h : updateChaosStatus w request st = some r) :
    r.2.quietlyExtends st := by
  unfold updateChaosStatus at h
  have hw := waitForChaosPodTermination_quiet w request st
  split at h
  · rename_i e s1 hwait
    rw [hwait] at hw
    simp only [Option.some.injEq] at h
    subst h
    exact hw
  · rename_i s1 hwait
    rw [hwait] at hw
    split_ifs at h
    · have hc := isResultCRDAvailable_quiet w s1
      split at h
      · rename_i e s2 hcrd
        rw [hcrd] at hc
        simp only [Option.some.injEq] at h
        subst h
        exact St.quietlyExtends_trans hc hw
      · rename_i found s2 hcrd
        rw [hcrd] at hc
        split_ifs at h
        · simp only [Option.some.injEq] at h
          subst h
          exact St.quietlyExtends_trans hc hw
        · exact St.quietlyExtends_trans (updatChaosResult_quiet w request s2 r h)
            (St.quietlyExtends_trans hc hw)
    · exact St.quietlyExtends_trans (updatChaosResult_quiet w request s1 r h) hw

theorem updateExperimentStatusesForStop_none_in_flight (now : Nat)
    (es : List ExperimentStatuses) :
    ∀ e ∈ updateExperimentStatusesForStop now es,
      e.Status ≠ ExperimentStatusRunning ∧ e.Status ≠ ExperimentStatusWaiting := by
  induction es with
  | nil => simp [updateExperimentStatusesForStop]
  | cons a as ih =>
    intro e he
    simp only [updateExperimentStatusesForStop, List.mem_cons] at he
    rcases he with he | he
    · by_cases h : a.Status = ExperimentStatusRunning ∨ a.Status = ExperimentStatusWaiting
      · simp only [h, if_true] at he
        subst he
        simp [ExperimentStatusAborted, ExperimentStatusRunning, ExperimentStatusWaiting]
      · simp only [h, if_false] at he
        subst he
        exact ⟨fun h1 => h (Or.inl h1), fun h2 => h (Or.inr h2)⟩
    · exact ih e he

/-- C4: whenever `reconcileForDelete` returns without error, the pass has issued, as its
only write of the campaign and as its last client call, a merge-patch (against the
campaign as the handler received it) of a campaign whose phase is Stopped, whose guard
list is the received one without the known token (every other token kept, in order) and
which has no experiment entry that is Running or Waiting. -/
theorem reconcileForDelete_patch (w : World) (request : Request) (st r : St)
    (h : reconcileForDelete w request st = some (none, r)) :
    ∃ (obj : ChaosEngine) (mid : List Call) (eventtype reason message : String),
      r.log = st.log ++ mid ++
        [Call.Patch obj st.engine.Instance, Call.Eventf eventtype reason message] ∧
      (∀ c ∈ mid, c.writesCampaign = false) ∧
      r.engine.Instance = obj ∧
      obj.Status.EngineStatus = EngineStatusStopped ∧
      (∀ fs, obj.ObjectMeta.Finalizers = some fs → finalizer ∉ fs) ∧
      (∀ fs0, st.engine.Instance.ObjectMeta.Finalizers = some fs0 →
        ∃ fs, obj.ObjectMeta.Finalizers = some fs ∧
          fs = fs0.filter (fun g => g ≠ finalizer) ∧
          ∀ g, g ≠ finalizer → (g ∈ fs ↔ g ∈ fs0)) ∧
      (st.engine.Instance.ObjectMeta.Finalizers = none → obj.ObjectMeta.Finalizers = none) ∧
      (∀ e ∈ obj.Status.Experiments,
        e.Status ≠ ExperimentStatusRunning ∧ e.Status ≠ ExperimentStatusWaiting) := by
  unfold reconcileForDelete at h
  simp only [clientListPods] at h
  split at h
  · exact absurd h (by simp)
  · rename_i items st1 hlist
    simp only [Prod.mk.injEq] at hlist
    obtain ⟨-, hst1⟩ := hlist
    have hq1 : st1.quietlyExtends st := by
      rw [← hst1]
      exact St.quietlyExtends_emit _ _ rfl
    split at h
    · exact absurd h (by simp)
    · rename_i st2 hforced
      have hq2 : st2.quietlyExtends st1 := by
        split_ifs at hforced
        · have := forceRemoveChaosResources_quiet w request st1
          rw [hforced] at this
          exact this
        · simp only [Prod.mk.injEq] at hforced
          rw [← hforced.2]
          exact St.quietlyExtends_refl st1
      split at h
      · exact absurd h (by simp)
      · simp only [Option.some.injEq, Prod.mk.injEq] at h
        exact absurd h.1 (by simp)
      · rename_i st3 hstatus
        have hq3 : st3.quietlyExtends st := by
          have := updateChaosStatus_quiet w request st2 _ hstatus
          exact St.quietlyExtends_trans this (St.quietlyExtends_trans hq2 hq1)
        obtain ⟨heng, mid, hmid, hquiet⟩ := hq3
        simp only [clientPatch, St.setInstance, St.emit, Eventf, heng] at h
        have hexps := updateExperimentStatusesForStop_none_in_flight (w.Now st3.log)
          st.engine.Instance.Status.Experiments
        cases hf : st.engine.Instance.ObjectMeta.Finalizers with
        | none =>
          simp only [hf] at h
          split at h <;>
            (rename_i heq
             simp only [Prod.mk.injEq] at heq
             obtain ⟨-, hs4⟩ := heq
             subst hs4
             split_ifs at h <;>
               first
                 | (simp at h; done)
                 | (simp only [Option.some.injEq, Prod.mk.injEq, true_and] at h
                    subst h
                    refine ⟨_, mid, _, _, _,
                      (by rw [hmid]; exact List.append_assoc _ _ _),
                      hquiet, rfl, rfl, ?_, ?_, ?_, hexps⟩
                    · intro fs hfs
                      rw [hf] at hfs
                      exact absurd hfs (by simp)
                    · intro fs0 hfs0
                      exact absurd hfs0 (by simp)
                    · intro _
                      exact hf))
        | some fs0 =>
          simp only [hf] at h
          split at h <;>
            (rename_i heq
             simp only [Prod.mk.injEq] at heq
             obtain ⟨-, hs4⟩ := heq
             subst hs4
             split_ifs at h <;>
               first
                 | (simp at h; done)
                 | (simp only [Option.some.injEq, Prod.mk.injEq, true_and] at h
                    subst h
                    refine ⟨_, mid, _, _, _,
                      (by rw [hmid]; exact List.append_assoc _ _ _),
                      hquiet, rfl, rfl, ?_, ?_, ?_, hexps⟩
                    · intro fs hfs
                      simp only [Option.some.injEq] at hfs
                      subst hfs
                      simp [RemoveString]
                    · intro fs1 hfs1
                      simp only [Option.some.injEq] at hfs1
                      subst hfs1
                      refine ⟨_, rfl, rfl, ?_⟩
                      intro g hg
                      simp [RemoveString, hg]
                    · intro hn
                      exact absurd hn (by simp)))

/-- C4 (witness): the teardown of the stopping sample campaign in a world without chaos
pods succeeds, and the statement holds of the state it ends in. -/
theorem reconcileForDelete_patch_witness :
    ∃ r, reconcileForDelete quietWorld sampleRequest (loaded stoppingEngine) =
        some (none, r) ∧
      ∃ (obj : ChaosEngine) (mid : List Call) (eventtype reason message : String),
        r.log = (loaded stoppingEngine).log ++ mid ++
          [Call.Patch obj (loaded stoppingEngine).engine.Instance,
           Call.Eventf eventtype reason message] ∧
        (∀ c ∈ mid, c.writesCampaign = false) ∧
        r.engine.Instance = obj ∧
        obj.Status.EngineStatus = EngineStatusStopped ∧
        (∀ fs, obj.ObjectMeta.Finalizers = some fs → finalizer ∉ fs) ∧
        (∀ fs0, (loaded stoppingEngine).engine.Instance.ObjectMeta.Finalizers = some fs0 →
          ∃ fs, obj.ObjectMeta.Finalizers = some fs ∧
            fs = fs0.filter (fun g => g ≠ finalizer) ∧
            ∀ g, g ≠ finalizer → (g ∈ fs ↔ g ∈ fs0)) ∧
        ((loaded stoppingEngine).engine.Instance.ObjectMeta.Finalizers = none →
          obj.ObjectMeta.Finalizers = none) ∧
        (∀ e ∈ obj.Status.Experiments,
          e.Status ≠ ExperimentStatusRunning ∧ e.Status ≠ ExperimentStatusWaiting) :=
  ⟨_, rfl, reconcileForDelete_patch quietWorld sampleRequest (loaded stoppingEngine) _ rfl⟩

/-! ## Status Synchronizer -/

theorem getChaosStatusLoop_eq (ToLower : String → String) :
    ∀ (rest : List (String × String)) (targetsList : List TargetDetails)
      (annotations : List (String × String)),
      (∀ kv ∈ rest, isOutcome (ToLower kv.2) = true → 2 ≤ (Split kv.1 '/').length) →
      getChaosStatusLoop ToLower rest targetsList annotations =
        some ((outcomes ToLower rest).foldl mergeTarget targetsList,
          (outcomes ToLower rest).foldl (fun a kv => deleteKey a kv.1) annotations) := by
  intro rest
  induction rest with
  | nil => intro T A _; rfl
  | cons kv rest ih =>
    intro T A hwf
    obtain ⟨k, v⟩ := kv
    have hrest : ∀ kv ∈ rest, isOutcome (ToLower kv.2) = true → 2 ≤ (Split kv.1 '/').length :=
      fun kv h => hwf kv (List.mem_cons_of_mem _ h)
    by_cases hv : isOutcome (ToLower v) = true
    · have hlen := hwf (k, v) (List.mem_cons_self _ _) hv
      simp only at hlen
      obtain ⟨kind0, h0⟩ : ∃ x, (Split k '/')[0]? = some x :=
        ⟨(Split k '/')[0], List.getElem?_eq_getElem (by omega)⟩
      obtain ⟨name1, h1⟩ : ∃ x, (Split k '/')[1]? = some x :=
        ⟨(Split k '/')[1], List.getElem?_eq_getElem (by omega)⟩
      simp only [getChaosStatusLoop, hv, if_true, h0, h1, outcomes, List.filter_cons,
        List.foldl_cons]
      rw [ih _ _ hrest]
      simp [outcomes, mergeTarget, targetName, targetKind, newTarget, h0, h1]
    · simp only [getChaosStatusLoop, hv, outcomes, List.filter_cons, Bool.false_eq_true,
        if_false]
      exact ih _ _ hrest

theorem updateTargets_found (name status : String) (T : List TargetDetails) :
    (updateTargets name status T).1 = true ↔ name ∈ T.map (fun t => t.Name) := by
  induction T with
  | nil => simp [updateTargets]
  | cons t ts ih =>
    by_cases h : t.Name = name
    · simp [updateTargets, h]
    · have h2 : ¬ name = t.Name := fun e => h e.symm
      simp [updateTargets, h, h2, ih]

theorem updateTargets_names (name status : String) (T : List TargetDetails) :
    (updateTargets name status T).2.map (fun t => t.Name) = T.map (fun t => t.Name) ∧
    (updateTargets name status T).2.map (fun t => t.Kind) = T.map (fun t => t.Kind) ∧
    (updateTargets name status T).2.length = T.length := by
  induction T with
  | nil => simp [updateTargets]
  | cons t ts ih =>
    by_cases h : t.Name = name
    · simp [updateTargets, h]
    · simp [updateTargets, h, ih.1, ih.2.1, ih.2.2]

theorem updateTargets_absent (name status : String) (T : List TargetDetails)
    (h : name ∉ T.map (fun t => t.Name)) : (updateTargets name status T).2 = T := by
  induction T with
  | nil => simp [updateTargets]
  | cons t ts ih =>
    simp only [List.map_cons, List.mem_cons, not_or] at h
    have h1 : ¬ t.Name = name := fun e => h.1 e.symm
    simp [updateTargets, h1, ih h.2]

theorem updateTargets_other (name status : String) :
    ∀ (T : List TargetDetails) (i : Nat) (t : TargetDetails),
      T[i]? = some t → t.Name ≠ name → (updateTargets name status T).2[i]? = some t := by
  intro T
  induction T with
  | nil => intro i t h; simp at h
  | cons a as ih =>
    intro i t h hne
    cases i with
    | zero =>
      simp only [List.getElem?_cons_zero, Option.some.injEq] at h
      subst h
      simp [updateTargets, hne]
    | succ j =>
      simp only [List.getElem?_cons_succ] at h
      by_cases ha : a.Name = name
      · simp [updateTargets, ha, h]
      · simp [updateTargets, ha, ih j t h hne]

theorem updateTargets_first (name status : String) (t : TargetDetails)
    (post : List TargetDetails) (ht : t.Name = name) :
    ∀ pre : List TargetDetails, (∀ p ∈ pre, p.Name ≠ name) →
      (updateTargets name status (pre ++ t :: post)).2 =
        pre ++ { t with ChaosStatus := status } :: post := by
  intro pre
  induction pre with
  | nil => intro _; simp [updateTargets, ht]
  | cons a as ih =>
    intro hpre
    have ha : ¬ a.Name = name := hpre a (List.mem_cons_self _ _)
    simp [updateTargets, ha, ih (fun p hp => hpre p (List.mem_cons_of_mem _ hp))]

theorem mergeTarget_names (T : List TargetDetails) (kv : String × String) :
    (mergeTarget T kv).map (fun t => t.Name) =
      T.map (fun t => t.Name) ++
        (if targetName kv.1 ∈ T.map (fun t => t.Name) then [] else [targetName kv.1]) := by
  unfold mergeTarget
  by_cases h : targetName kv.1 ∈ T.map (fun t => t.Name)
  · have hf := (updateTargets_found (targetName kv.1) kv.2 T).mpr h
    simp only [hf, Bool.not_true, Bool.false_eq_true, if_false, h, if_true, List.append_nil]
    exact (updateTargets_names _ _ T).1
  · have hf : (updateTargets (targetName kv.1) kv.2 T).1 = false := by
      cases hb : (updateTargets (targetName kv.1) kv.2 T).1
      · rfl
      · exact absurd ((updateTargets_found _ _ T).mp hb) h
    simp only [hf, Bool.not_false, if_true, h, if_false, List.map_append, List.map_cons,
      List.map_nil]
    rw [(updateTargets_names _ _ T).1]
    rfl

theorem mergeTarget_present (T : List TargetDetails) (kv : String × String)
    (h : targetName kv.1 ∈ T.map (fun t => t.Name)) :
    mergeTarget T kv = (updateTargets (targetName kv.1) kv.2 T).2 := by
  unfold mergeTarget
  simp [(updateTargets_found (targetName kv.1) kv.2 T).mpr h]

theorem mergeTarget_absent (T : List TargetDetails) (kv : String × String)
    (h : targetName kv.1 ∉ T.map (fun t => t.Name)) :
    mergeTarget T kv = T ++ [newTarget kv] := by
  have hf : (updateTargets (targetName kv.1) kv.2 T).1 = false := by
    cases hb : (updateTargets (targetName kv.1) kv.2 T).1
    · rfl
    · exact absurd ((updateTargets_found _ _ T).mp hb) h
  unfold mergeTarget
  simp [hf, updateTargets_absent _ _ T h]

theorem mergeTarget_other (T : List TargetDetails) (kv : String × String) (i : Nat)
    (t : TargetDetails) (hi : T[i]? = some t) (hne : t.Name ≠ targetName kv.1) :
    (mergeTarget T kv)[i]? = some t := by
  by_cases h : targetName kv.1 ∈ T.map (fun t => t.Name)
  · rw [mergeTarget_present T kv h]
    exact updateTargets_other _ _ T i t hi hne
  · rw [mergeTarget_absent T kv h]
    have hlt : i < T.length := by
      by_contra hge
      rw [List.getElem?_eq_none (by omega)] at hi
      exact absurd hi (by simp)
    rw [List.getElem?_append_left hlt]
    exact hi

theorem foldl_mergeTarget_other :
    ∀ (R : List (String × String)) (T : List TargetDetails) (i : Nat) (t : TargetDetails),
      T[i]? = some t → (∀ kv ∈ R, targetName kv.1 ≠ t.Name) →
      (R.foldl mergeTarget T)[i]? = some t := by
  intro R
  induction R with
  | nil => intro T i t h _; exact h
  | cons kv R ih =>
    intro T i t h hne
    simp only [List.foldl_cons]
    apply ih
    · exact mergeTarget_other T kv i t h (fun e => hne kv (List.mem_cons_self _ _) e.symm)
    · exact fun kv2 h2 => hne kv2 (List.mem_cons_of_mem _ h2)

theorem drop_of_getElem? {α : Type} (l : List α) (n : Nat) (a : α) (h : l[n]? = some a) :
    l.drop n = a :: l.drop (n + 1) := by
  obtain ⟨hlt, ha⟩ := List.getElem?_eq_some.mp h
  rw [List.drop_eq_getElem_cons hlt, ha]

theorem updateTargets_first_at (name status : String) :
    ∀ (T : List TargetDetails) (i : Nat) (t : TargetDetails),
      T[i]? = some t → t.Name = name → name ∉ (T.map (fun t => t.Name)).take i →
      (updateTargets name status T).2[i]? = some { t with ChaosStatus := status } := by
  intro T
  induction T with
  | nil => intro i t h; simp at h
  | cons a as ih =>
    intro i t h hn hfirst
    cases i with
    | zero =>
      simp only [List.getElem?_cons_zero, Option.some.injEq] at h
      subst h
      simp [updateTargets, hn]
    | succ j =>
      simp only [List.getElem?_cons_succ] at h
      simp only [List.map_cons, List.take_succ_cons, List.mem_cons, not_or] at hfirst
      have ha : ¬ a.Name = name := fun e => hfirst.1 e.symm
      simp [updateTargets, ha, ih j t h hn hfirst.2]

theorem mergeTarget_length_le (T : List TargetDetails) (kv : String × String) :
    T.length ≤ (mergeTarget T kv).length := by
  have h := congrArg List.length (mergeTarget_names T kv)
  simp only [List.length_map, List.length_append] at h
  omega

theorem mergeTarget_take_names (T : List TargetDetails) (kv : String × String) (i : Nat)
    (hi : i ≤ T.length) :
    ((mergeTarget T kv).map (fun t => t.Name)).take i = (T.map (fun t => t.Name)).take i := by
  rw [mergeTarget_names, List.take_append_of_le_length (by simpa using hi)]

theorem foldl_mergeTarget_first :
    ∀ (R : List (String × String)) (T : List TargetDetails) (kv : String × String) (i : Nat)
      (t : TargetDetails),
      (R.map (fun kv => targetName kv.1)).Nodup → kv ∈ R →
      T[i]? = some t → t.Name = targetName kv.1 →
      targetName kv.1 ∉ (T.map (fun t => t.Name)).take i →
      (R.foldl mergeTarget T)[i]? = some { t with ChaosStatus := kv.2 } := by
  intro R
  induction R with
  | nil => intro T kv i t _ hmem; simp at hmem
  | cons kv0 R ih =>
    intro T kv i t hnd hmem hi hn hfirst
    simp only [List.map_cons, List.nodup_cons] at hnd
    obtain ⟨hnot, hnd⟩ := hnd
    have hlt : i < T.length := (List.getElem?_eq_some.mp hi).1
    simp only [List.foldl_cons]
    rcases List.mem_cons.mp hmem with hkv | hkv
    · subst hkv
      have hpres : targetName kv.1 ∈ T.map (fun t => t.Name) := by
        rw [← hn]
        exact List.mem_map.mpr ⟨t, List.getElem?_mem hi, rfl⟩
      apply foldl_mergeTarget_other
      · rw [mergeTarget_present T kv hpres]
        exact updateTargets_first_at _ _ T i t hi hn hfirst
      · intro kv2 h2 e
        apply hnot
        have e2 : targetName kv2.1 = targetName kv.1 := e.trans hn
        rw [← e2]
        exact List.mem_map.mpr ⟨kv2, h2, rfl⟩
    · have hne : targetName kv0.1 ≠ targetName kv.1 := by
        intro e
        apply hnot
        rw [e]
        exact List.mem_map.mpr ⟨kv, hkv, rfl⟩
      apply ih (mergeTarget T kv0) kv i t hnd hkv
      · exact mergeTarget_other T kv0 i t hi (by rw [hn]; exact fun e => hne e.symm)
      · exact hn
      · rw [mergeTarget_take_names T kv0 i (by omega)]
        exact hfirst

theorem foldl_mergeTarget_appended :
    ∀ (R : List (String × String)) (T : List TargetDetails),
      (R.map (fun kv => targetName kv.1)).Nodup →
      (R.foldl mergeTarget T).drop T.length =
        (R.filter (fun kv => decide (targetName kv.1 ∉ T.map (fun t => t.Name)))).map
          newTarget := by
  intro R
  induction R with
  | nil => intro T _; simp
  | cons kv0 R ih =>
    intro T hnd
    simp only [List.map_cons, List.nodup_cons] at hnd
    obtain ⟨hnot, hnd⟩ := hnd
    simp only [List.foldl_cons]
    by_cases h : targetName kv0.1 ∈ T.map (fun t => t.Name)
    · have hlen : (mergeTarget T kv0).length = T.length := by
        rw [mergeTarget_present T kv0 h]
        exact (updateTargets_names _ _ T).2.2
      have hnames : (mergeTarget T kv0).map (fun t => t.Name) = T.map (fun t => t.Name) := by
        rw [mergeTarget_names]
        simp [h]
      have := ih (mergeTarget T kv0) hnd
      rw [hlen, hnames] at this
      rw [this, List.filter_cons]
      have hd : decide (targetName kv0.1 ∉ T.map (fun t => t.Name)) = false :=
        decide_eq_false (not_not.mpr h)
      simp only [hd, Bool.false_eq_true, if_false]
    · have hT : mergeTarget T kv0 = T ++ [newTarget kv0] := mergeTarget_absent T kv0 h
      have hat : (R.foldl mergeTarget (mergeTarget T kv0))[T.length]? = some (newTarget kv0) := by
        apply foldl_mergeTarget_other
        · rw [hT]
          simp
        · intro kv2 h2 e
          apply hnot
          have : targetName kv2.1 = targetName kv0.1 := e
          rw [← this]
          exact List.mem_map.mpr ⟨kv2, h2, rfl⟩
      rw [drop_of_getElem? _ _ _ hat]
      have := ih (mergeTarget T kv0) hnd
      rw [hT] at this
      simp only [List.length_append, List.length_singleton] at this
      rw [hT, this]
      have hd : decide (targetName kv0.1 ∉ T.map (fun t => t.Name)) = true :=
        decide_eq_true h
      rw [List.filter_cons]
      simp only [hd, if_true, List.map_cons, List.cons.injEq, true_and]
      congr 1
      apply List.filter_congr
      intro kv2 h2
      have hne : targetName kv2.1 ≠ targetName kv0.1 := by
        intro e
        apply hnot
        rw [← e]
        exact List.mem_map.mpr ⟨kv2, h2, rfl⟩
      simp [newTarget, hne]

theorem mergeTarget_name_kind (T : List TargetDetails) (kv : String × String) :
    ∃ extra, (mergeTarget T kv).map (fun t => (t.Name, t.Kind)) =
      T.map (fun t => (t.Name, t.Kind)) ++ extra := by
  have hz : ∀ (n v : String) (T : List TargetDetails),
      (updateTargets n v T).2.map (fun t => (t.Name, t.Kind)) =
        T.map (fun t => (t.Name, t.Kind)) := by
    intro n v T
    induction T with
    | nil => simp [updateTargets]
    | cons a as iha =>
      by_cases ha : a.Name = n
      · simp [updateTargets, ha]
      · simp [updateTargets, ha, iha]
  unfold mergeTarget
  split_ifs
  · exact ⟨_, by rw [List.map_append, hz]⟩
  · exact ⟨[], by rw [hz, List.append_nil]⟩

theorem foldl_mergeTarget_name_kind :
    ∀ (R : List (String × String)) (T : List TargetDetails),
      ∃ extra, (R.foldl mergeTarget T).map (fun t => (t.Name, t.Kind)) =
        T.map (fun t => (t.Name, t.Kind)) ++ extra := by
  intro R
  induction R with
  | nil => intro T; exact ⟨[], by simp⟩
  | cons kv R ih =>
    intro T
    obtain ⟨e1, h1⟩ := mergeTarget_name_kind T kv
    obtain ⟨e2, h2⟩ := ih (mergeTarget T kv)
    exact ⟨e1 ++ e2, by simp only [List.foldl_cons]; rw [h2, h1, List.append_assoc]⟩

theorem appended_unique (P : String × String → Bool) :
    ∀ (R : List (String × String)) (kv : String × String),
      (R.map (fun kv => targetName kv.1)).Nodup → kv ∈ R → P kv = true →
      ((R.filter P).map newTarget).filter (fun a => decide (a.Name = targetName kv.1)) =
        [newTarget kv] := by
  intro R
  induction R with
  | nil => intro kv _ h; simp at h
  | cons x R ih =>
    intro kv hnd hmem hP
    simp only [List.map_cons, List.nodup_cons] at hnd
    obtain ⟨hnot, hnd⟩ := hnd
    have hrest : ∀ y ∈ R, targetName y.1 ≠ targetName x.1 := by
      intro y hy e
      apply hnot
      rw [← e]
      exact List.mem_map.mpr ⟨y, hy, rfl⟩
    rcases List.mem_cons.mp hmem with h | h
    · subst h
      rw [List.filter_cons]
      simp only [hP, if_true, List.map_cons]
      rw [List.filter_cons]
      have hd : decide ((newTarget kv).Name = targetName kv.1) = true := decide_eq_true rfl
      simp only [hd, if_true, List.cons.injEq, true_and]
      rw [List.filter_eq_nil_iff]
      intro a ha
      obtain ⟨y, hy, rfl⟩ := List.mem_map.mp ha
      have hy2 : y ∈ R := (List.mem_filter.mp hy).1
      simpa [newTarget] using hrest y hy2
    · have hne : targetName x.1 ≠ targetName kv.1 := fun e => hrest kv h e.symm
      rw [List.filter_cons]
      by_cases hx : P x = true
      · simp only [hx, if_true, List.map_cons]
        rw [List.filter_cons]
        have hd : decide ((newTarget x).Name = targetName kv.1) = false :=
          decide_eq_false hne
        simp only [hd, Bool.false_eq_true, if_false]
        exact ih kv hnd h hP
      · simp only [hx, if_false]
        exact ih kv hnd h hP

/-- C6: for a history and an annotation map whose recognized keys split into at least a
kind and a name, with pairwise distinct names, `getChaosStatus` returns a history in
which, for each recognized annotation: if the history has an entry of that name, the first
such entry has the value as status with name and kind unchanged and no appended entry
bears the name; otherwise exactly one appended entry bears the name, built from the
trimmed name, the trimmed kind and the value as given. The appended entries follow the
history in visiting order; an entry whose name matches no recognized annotation is
unchanged; every position of the history keeps its name and kind. -/
theorem getChaosStatus_merge (ToLower : String → String) (result : ChaosResult)
    (hform : ∀ kv ∈ result.Annotations, isOutcome (ToLower kv.2) = true →
      2 ≤ (Split kv.1 '/').length)
    (hnames : ((outcomes ToLower result.Annotations).map
      (fun kv => targetName kv.1)).Nodup) :
    ∃ T A1, getChaosStatus ToLower result = some (T, A1) ∧
      (∀ kv ∈ outcomes ToLower result.Annotations, ∀ pre t post,
        result.Targets = pre ++ t :: post → t.Name = targetName kv.1 →
        (∀ p ∈ pre, p.Name ≠ targetName kv.1) →
        T[pre.length]? = some { Name := t.Name, Kind := t.Kind, ChaosStatus := kv.2 } ∧
        ∀ a ∈ T.drop result.Targets.length, a.Name ≠ targetName kv.1) ∧
      (∀ kv ∈ outcomes ToLower result.Annotations,
        targetName kv.1 ∉ result.Targets.map (fun t => t.Name) →
        (T.drop result.Targets.length).filter (fun a => decide (a.Name = targetName kv.1)) =
          [{ Name := targetName kv.1, Kind := targetKind kv.1, ChaosStatus := kv.2 }]) ∧
      T.drop result.Targets.length =
        ((outcomes ToLower result.Annotations).filter
          (fun kv => decide (targetName kv.1 ∉ result.Targets.map (fun t => t.Name)))).map
          (fun kv => { Name := targetName kv.1, Kind := targetKind kv.1, ChaosStatus := kv.2 }) ∧
      (∀ (i : Nat) (t : TargetDetails), result.Targets[i]? = some t →
        (∀ kv ∈ outcomes ToLower result.Annotations, targetName kv.1 ≠ t.Name) →
        T[i]? = some t) ∧
      (T.take result.Targets.length).map (fun t => (t.Name, t.Kind)) =
        result.Targets.map (fun t => (t.Name, t.Kind)) := by
  have happ := foldl_mergeTarget_appended (outcomes ToLower result.Annotations)
    result.Targets hnames
  refine ⟨_, _, getChaosStatusLoop_eq ToLower _ _ _ hform, ?_, ?_, happ, ?_, ?_⟩
  · intro kv hkv pre t post hsplit hn hpre
    constructor
    · apply foldl_mergeTarget_first _ _ kv _ t hnames hkv
      · rw [hsplit, List.getElem?_append_right (le_refl _)]
        simp
      · exact hn
      · rw [hsplit]
        simp only [List.map_append, List.map_cons]
        rw [List.take_left' (by simp)]
        intro hmem
        obtain ⟨p, hp, hpn⟩ := List.mem_map.mp hmem
        exact hpre p hp hpn
    · intro a ha
      rw [happ] at ha
      obtain ⟨kv2, hkv2, rfl⟩ := List.mem_map.mp ha
      have hout := (List.mem_filter.mp hkv2).2
      have hout : targetName kv2.1 ∉ result.Targets.map (fun t => t.Name) :=
        of_decide_eq_true hout
      intro e
      apply hout
      have e2 : targetName kv2.1 = targetName kv.1 := e
      rw [e2, ← hn, hsplit]
      simp
  · intro kv hkv habs
    rw [happ]
    exact appended_unique _ _ kv hnames hkv (decide_eq_true habs)
  · intro i t hi hne
    exact foldl_mergeTarget_other _ _ i t hi hne
  · obtain ⟨extra, hextra⟩ := foldl_mergeTarget_name_kind
      (outcomes ToLower result.Annotations) result.Targets
    rw [List.map_take, hextra, List.take_left' (by simp)]

theorem foldl_deleteKey (R : List (String × String)) :
    ∀ A : List (String × String),
      R.foldl (fun a kv => deleteKey a kv.1) A =
        A.filter (fun p => decide (p.1 ∉ R.map Prod.fst)) := by
  induction R with
  | nil => intro A; simp
  | cons kv R ih =>
    intro A
    simp only [List.foldl_cons]
    rw [ih, deleteKey, List.filter_filter]
    apply List.filter_congr
    intro p _
    by_cases h1 : p.1 = kv.1 <;> by_cases h2 : p.1 ∈ R.map Prod.fst <;> simp [h1, h2]

theorem mergeTarget_nodup (T : List TargetDetails) (kv : String × String)
    (h : (T.map (fun t => t.Name)).Nodup) :
    ((mergeTarget T kv).map (fun t => t.Name)).Nodup := by
  rw [mergeTarget_names]
  by_cases hm : targetName kv.1 ∈ T.map (fun t => t.Name)
  · simpa [hm] using h
  · simp only [hm, if_false]
    rw [List.nodup_append]
    refine ⟨h, by simp, ?_⟩
    intro a ha hb
    simp only [List.mem_singleton] at hb
    subst hb
    exact hm ha

theorem foldl_mergeTarget_nodup :
    ∀ (R : List (String × String)) (T : List TargetDetails),
      (T.map (fun t => t.Name)).Nodup →
      ((R.foldl mergeTarget T).map (fun t => t.Name)).Nodup := by
  intro R
  induction R with
  | nil => intro T h; exact h
  | cons kv R ih => intro T h; exact ih _ (mergeTarget_nodup T kv h)

theorem foldl_mergeTarget_mono :
    ∀ (R : List (String × String)) (T : List TargetDetails) (n : String),
      n ∈ T.map (fun t => t.Name) → n ∈ (R.foldl mergeTarget T).map (fun t => t.Name) := by
  intro R
  induction R with
  | nil => intro T n h; exact h
  | cons kv R ih =>
    intro T n h
    apply ih
    rw [mergeTarget_names]
    exact List.mem_append_left _ h

theorem foldl_mergeTarget_mem :
    ∀ (R : List (String × String)) (T : List TargetDetails) (kv : String × String),
      kv ∈ R → targetName kv.1 ∈ (R.foldl mergeTarget T).map (fun t => t.Name) := by
  intro R
  induction R with
  | nil => intro T kv h; simp at h
  | cons kv0 R ih =>
    intro T kv h
    rcases List.mem_cons.mp h with h | h
    · subst h
      simp only [List.foldl_cons]
      apply foldl_mergeTarget_mono
      rw [mergeTarget_names]
      by_cases hm : targetName kv.1 ∈ T.map (fun t => t.Name)
      · exact List.mem_append_left _ hm
      · simp [hm]
    · exact ih _ kv h

theorem foldl_mergeTarget_replay :
    ∀ (R : List (String × String)) (T : List TargetDetails),
      (∀ kv ∈ R, targetName kv.1 ∈ T.map (fun t => t.Name)) →
      (R.foldl mergeTarget T).map (fun t => t.Name) = T.map (fun t => t.Name) := by
  intro R
  induction R with
  | nil => intro T _; rfl
  | cons kv R ih =>
    intro T h
    have hkv := h kv (List.mem_cons_self _ _)
    have hn : (mergeTarget T kv).map (fun t => t.Name) = T.map (fun t => t.Name) := by
      rw [mergeTarget_names]
      simp [hkv]
    simp only [List.foldl_cons]
    rw [ih (mergeTarget T kv) (by
      intro kv2 h2
      rw [hn]
      exact h kv2 (List.mem_cons_of_mem _ h2)), hn]

/-- C7: for an annotation map (distinct keys) whose recognized keys split into at least a
kind and a name, `getChaosStatus` returns without failing, and the annotations it returns
are exactly the entries whose value lower-cased is not injected, reverted or targeted, in
their order: every recognized entry is gone, every other entry is kept as it was; and the
returned history is the one computed from the recognized entries alone. -/
theorem getChaosStatus_consumes (ToLower : String → String) (result : ChaosResult)
    (hkeys : (result.Annotations.map Prod.fst).Nodup)
    (hform : ∀ kv ∈ result.Annotations, isOutcome (ToLower kv.2) = true →
      2 ≤ (Split kv.1 '/').length) :
    ∃ T A1, getChaosStatus ToLower result = some (T, A1) ∧
      A1 = result.Annotations.filter (fun kv => !isOutcome (ToLower kv.2)) ∧
      (∀ kv ∈ result.Annotations, isOutcome (ToLower kv.2) = true →
        kv ∉ A1 ∧ kv.1 ∉ A1.map Prod.fst) ∧
      (∀ kv ∈ result.Annotations, isOutcome (ToLower kv.2) = false → kv ∈ A1) ∧
      getChaosStatus ToLower
        { result with Annotations := outcomes ToLower result.Annotations } = some (T, []) := by
  have hmemkey : ∀ p ∈ result.Annotations,
      (p.1 ∈ (outcomes ToLower result.Annotations).map Prod.fst ↔
        isOutcome (ToLower p.2) = true) := by
    intro p hp
    constructor
    · intro h
      obtain ⟨q, hq, hqp⟩ := List.mem_map.mp h
      obtain ⟨hqA, hqo⟩ := List.mem_filter.mp hq
      have : q = p := List.inj_on_of_nodup_map hkeys hqA hp hqp
      rw [← this]
      exact hqo
    · intro h
      exact List.mem_map.mpr ⟨p, List.mem_filter.mpr ⟨hp, h⟩, rfl⟩
  have hA : (outcomes ToLower result.Annotations).foldl (fun a kv => deleteKey a kv.1)
      result.Annotations =
      result.Annotations.filter (fun kv => !isOutcome (ToLower kv.2)) := by
    rw [foldl_deleteKey]
    apply List.filter_congr
    intro p hp
    by_cases h : isOutcome (ToLower p.2) = true
    · simp [(hmemkey p hp).mpr h, h]
    · have h2 : p.1 ∉ (outcomes ToLower result.Annotations).map Prod.fst :=
        fun hm => h ((hmemkey p hp).mp hm)
      simp only [Bool.not_eq_true] at h
      simp [h2, h]
  refine ⟨_, _, getChaosStatusLoop_eq ToLower _ _ _ hform, hA, ?_, ?_, ?_⟩
  · intro kv hkv hout
    rw [hA]
    constructor
    · intro hmem
      have := (List.mem_filter.mp hmem).2
      simp [hout] at this
    · intro hmem
      obtain ⟨q, hq, hqk⟩ := List.mem_map.mp hmem
      obtain ⟨hqA, hqo⟩ := List.mem_filter.mp hq
      have : q = kv := List.inj_on_of_nodup_map hkeys hqA hkv hqk
      subst this
      simp [hout] at hqo
  · intro kv hkv hout
    rw [hA]
    exact List.mem_filter.mpr ⟨hkv, by simp [hout]⟩
  · have hidem : outcomes ToLower (outcomes ToLower result.Annotations) =
        outcomes ToLower result.Annotations := by
      simp [outcomes, List.filter_filter]
    have hform2 : ∀ kv ∈ outcomes ToLower result.Annotations,
        isOutcome (ToLower kv.2) = true → 2 ≤ (Split kv.1 '/').length :=
      fun kv hkv => hform kv (List.mem_filter.mp hkv).1
    have := getChaosStatusLoop_eq ToLower (outcomes ToLower result.Annotations)
      result.Targets (outcomes ToLower result.Annotations) hform2
    rw [hidem] at this
    simp only [getChaosStatus]
    rw [this, foldl_deleteKey]
    simp only [Option.some.injEq, Prod.mk.injEq, true_and]
    rw [List.filter_eq_nil_iff]
    intro p hp
    have : p.1 ∈ (outcomes ToLower result.Annotations).map Prod.fst :=
      List.mem_map.mpr ⟨p, hp, rfl⟩
    simp [this]

/-- C8: for a history with pairwise distinct names and an annotation map whose recognized
keys split into at least a kind and a name, after one `getChaosStatus` pass every target
named by a recognized annotation occurs exactly once in the returned history; a second
pass with the same annotations over the returned history returns a history of the same
length, with the same names at the same positions, in which each such name again occurs
exactly once. -/
theorem getChaosStatus_replay (ToLower : String → String) (result : ChaosResult)
    (hdistinct : (result.Targets.map (fun t => t.Name)).Nodup)
    (hform : ∀ kv ∈ result.Annotations, isOutcome (ToLower kv.2) = true →
      2 ≤ (Split kv.1 '/').length) :
    ∃ T A1, getChaosStatus ToLower result = some (T, A1) ∧
      (∀ kv ∈ result.Annotations, isOutcome (ToLower kv.2) = true →
        (T.map (fun t => t.Name)).count (targetName kv.1) = 1) ∧
      ∃ T2 A2, getChaosStatus ToLower { result with Targets := T } = some (T2, A2) ∧
        T2.length = T.length ∧
        T2.map (fun t => t.Name) = T.map (fun t => t.Name) ∧
        (∀ kv ∈ result.Annotations, isOutcome (ToLower kv.2) = true →
          (T2.map (fun t => t.Name)).count (targetName kv.1) = 1) := by
  have hnd := foldl_mergeTarget_nodup (outcomes ToLower result.Annotations) result.Targets
    hdistinct
  have hmem : ∀ kv ∈ result.Annotations, isOutcome (ToLower kv.2) = true →
      targetName kv.1 ∈ ((outcomes ToLower result.Annotations).foldl mergeTarget
        result.Targets).map (fun t => t.Name) :=
    fun kv hkv hout => foldl_mergeTarget_mem _ _ kv (List.mem_filter.mpr ⟨hkv, hout⟩)
  have hrep := foldl_mergeTarget_replay (outcomes ToLower result.Annotations)
    ((outcomes ToLower result.Annotations).foldl mergeTarget result.Targets)
    (fun kv hkv => hmem kv (List.mem_filter.mp hkv).1 (List.mem_filter.mp hkv).2)
  refine ⟨_, _, getChaosStatusLoop_eq ToLower _ _ _ hform, ?_, _, _,
    getChaosStatusLoop_eq ToLower _ _ _ hform, ?_, hrep, ?_⟩
  · intro kv hkv hout
    exact List.count_eq_one_of_mem hnd (hmem kv hkv hout)
  · have := congrArg List.length hrep
    simpa using this
  · intro kv hkv hout
    rw [hrep]
    exact List.count_eq_one_of_mem hnd (hmem kv hkv hout)

/-- C6 (witness): the statement at the sample result: its history ends with the entry
appended for `pod/nginx-1`. -/
theorem getChaosStatus_merge_witness :
    (∀ kv ∈ sampleResult.Annotations, isOutcome (asciiLower kv.2) = true →
      2 ≤ (Split kv.1 '/').length) ∧
    ((outcomes asciiLower sampleResult.Annotations).map (fun kv => targetName kv.1)).Nodup ∧
    ∃ T A1, getChaosStatus asciiLower sampleResult = some (T, A1) ∧
      T.drop sampleResult.Targets.length =
        ((outcomes asciiLower sampleResult.Annotations).filter
          (fun kv => decide (targetName kv.1 ∉ sampleResult.Targets.map (fun t => t.Name)))).map
          (fun kv => { Name := targetName kv.1, Kind := targetKind kv.1, ChaosStatus := kv.2 }) ∧
      (T.take sampleResult.Targets.length).map (fun t => (t.Name, t.Kind)) =
        sampleResult.Targets.map (fun t => (t.Name, t.Kind)) := by
  have h1 : ∀ kv ∈ sampleResult.Annotations, isOutcome (asciiLower kv.2) = true →
      2 ≤ (Split kv.1 '/').length := by decide
  have h2 : ((outcomes asciiLower sampleResult.Annotations).map
      (fun kv => targetName kv.1)).Nodup := by decide
  obtain ⟨T, A1, hT, -, -, happ, -, hkeep⟩ := getChaosStatus_merge asciiLower sampleResult h1 h2
  exact ⟨h1, h2, T, A1, hT, happ, hkeep⟩

/-- C7 (witness): the statement at the sample result: the one annotation that is not an
outcome is what remains. -/
theorem getChaosStatus_consumes_witness :
    (sampleResult.Annotations.map Prod.fst).Nodup ∧
    ∃ T A1, getChaosStatus asciiLower sampleResult = some (T, A1) ∧
      A1 = sampleResult.Annotations.filter (fun kv => !isOutcome (asciiLower kv.2)) ∧
      getChaosStatus asciiLower
        { sampleResult with Annotations := outcomes asciiLower sampleResult.Annotations } =
          some (T, []) := by
  have h1 : (sampleResult.Annotations.map Prod.fst).Nodup := by decide
  have h2 : ∀ kv ∈ sampleResult.Annotations, isOutcome (asciiLower kv.2) = true →
      2 ≤ (Split kv.1 '/').length := by decide
  obtain ⟨T, A1, hT, hA, -, -, hsame⟩ := getChaosStatus_consumes asciiLower sampleResult h1 h2
  exact ⟨h1, T, A1, hT, hA, hsame⟩

/-- C8 (witness): the statement at the sample result: the replay appends nothing. -/
theorem getChaosStatus_replay_witness :
    (sampleResult.Targets.map (fun t => t.Name)).Nodup ∧
    ∃ T A1, getChaosStatus asciiLower sampleResult = some (T, A1) ∧
      ∃ T2 A2, getChaosStatus asciiLower { sampleResult with Targets := T } = some (T2, A2) ∧
        T2.length = T.length ∧
        (∀ kv ∈ sampleResult.Annotations, isOutcome (asciiLower kv.2) = true →
          (T2.map (fun t => t.Name)).count (targetName kv.1) = 1) := by
  have h1 : (sampleResult.Targets.map (fun t => t.Name)).Nodup := by decide
  have h2 : ∀ kv ∈ sampleResult.Annotations, isOutcome (asciiLower kv.2) = true →
      2 ≤ (Split kv.1 '/').length := by decide
  obtain ⟨T, A1, hT, -, T2, A2, hT2, hlen, -, hcount⟩ :=
    getChaosStatus_replay asciiLower sampleResult h1 h2
  exact ⟨h1, T, A1, hT, T2, A2, hT2, hlen, hcount⟩

/-! ## Restart Handlers -/

/-- C18 (failing input): a campaign that is Active in phase Stopped, in a world where the
forced teardown succeeds and the update that persists the reset is answered with a
conflict: `reconcileForRestartAfterAbort` issues the update and returns no error. -/
theorem reconcileForRestartAfterAbort_swallows_update_error :
    (reconcileForRestartAfterAbort
        (updateConflicts (sampleEngine EngineStateActive EngineStatusStopped (some [finalizer])))
        sampleRequest
        (loaded (sampleEngine EngineStateActive EngineStatusStopped (some [finalizer])))).1 =
      none ∧
    (updateConflicts (sampleEngine EngineStateActive EngineStatusStopped (some [finalizer]))).Update
        [Call.DeleteAllOf ChildKind.Job
           [ClientOption.InNamespace "default", ClientOption.MatchingLabels [("chaosUID", "uid-1")],
            ClientOption.PropagationPolicy DeletionPropagation.Background],
         Call.DeleteAllOf ChildKind.Pod
           [ClientOption.InNamespace "default", ClientOption.MatchingLabels [("chaosUID", "uid-1")],
            ClientOption.PropagationPolicy DeletionPropagation.Background],
         Call.Eventf "Normal" "RestartInProgress" "ChaosEngine is restarted"]
        { sampleEngine EngineStateActive EngineStatusStopped (some [finalizer]) with
          Status := { EngineStatus := EngineStatusInitialized, Experiments := [] } } =
      some (apiError StatusReason.Conflict "conflict") ∧
    (reconcileForRestartAfterAbort
        (updateConflicts (sampleEngine EngineStateActive EngineStatusStopped (some [finalizer])))
        sampleRequest
        (loaded (sampleEngine EngineStateActive EngineStatusStopped (some [finalizer])))).2.log =
      [Call.DeleteAllOf ChildKind.Job
         [ClientOption.InNamespace "default", ClientOption.MatchingLabels [("chaosUID", "uid-1")],
          ClientOption.PropagationPolicy DeletionPropagation.Background],
       Call.DeleteAllOf ChildKind.Pod
         [ClientOption.InNamespace "default", ClientOption.MatchingLabels [("chaosUID", "uid-1")],
          ClientOption.PropagationPolicy DeletionPropagation.Background],
       Call.Eventf "Normal" "RestartInProgress" "ChaosEngine is restarted",
       Call.Update
         { sampleEngine EngineStateActive EngineStatusStopped (some [finalizer]) with
           Status := { EngineStatus := EngineStatusInitialized, Experiments := [] } }] := by
  refine ⟨rfl, rfl, rfl⟩

theorem forceRemoveChaosResources_eq (w : World) (request : Request) (st : St) :
    forceRemoveChaosResources w request st = forceRemoveAllChaosPods w request st := by
  unfold forceRemoveChaosResources
  split
  · rename_i err h
    rw [← h]
  · rename_i h
    rw [← h]

theorem updateEngineForRestart_eq (w : World) (st : St) :
    updateEngineForRestart w st =
      ((w.Update (st.log ++ [Call.Eventf "Normal" "RestartInProgress" "ChaosEngine is restarted"])
          (resetForRestart st.engine.Instance)).map
          (fun err => Errorf ("unable to restart ChaosEngine, due to update error: " ++ err.Msg)),
        { engine := { st.engine with Instance := resetForRestart st.engine.Instance },
          log := st.log ++ [Call.Eventf "Normal" "RestartInProgress" "ChaosEngine is restarted",
            Call.Update (resetForRestart st.engine.Instance)] }) := by
  simp only [updateEngineForRestart, clientUpdate, St.setInstance, St.emit, Eventf,
    resetForRestart]
  cases hu : w.Update
      (st.log ++ [Call.Eventf "Normal" "RestartInProgress" "ChaosEngine is restarted"])
      { ObjectMeta := st.engine.Instance.ObjectMeta, Spec := st.engine.Instance.Spec,
        Status := { EngineStatus := EngineStatusInitialized, Experiments := [] } } <;>
    simp

theorem reconcileForRestartAfterAbort_eq (w : World) (request : Request) (st : St) :
    reconcileForRestartAfterAbort w request st =
      match (forceRemoveAllChaosPods w request st).1 with
      | some err => (some err, (forceRemoveAllChaosPods w request st).2)
      | none => (none, (updateEngineForRestart w (forceRemoveAllChaosPods w request st).2).2) := by
  simp only [reconcileForRestartAfterAbort, forceRemoveChaosResources_eq]
  rcases hf : forceRemoveAllChaosPods w request st with ⟨e, s1⟩
  cases e with
  | some e => rfl
  | none =>
    simp only
    rcases hu : updateEngineForRestart w s1 with ⟨e2, s2⟩
    cases e2 <;> rfl

theorem forceRemoveAllChaosPods_cases (w : World) (request : Request) (st : St) :
    ((forceRemoveAllChaosPods w request st).1 = none ∧
      (forceRemoveAllChaosPods w request st).2 =
        { engine := st.engine,
          log := st.log ++
            [Call.DeleteAllOf ChildKind.Job (forcedDeleteOptions request st),
             Call.DeleteAllOf ChildKind.Pod (forcedDeleteOptions request st)] }) ∨
    (∃ err message, (forceRemoveAllChaosPods w request st).1 = some err ∧
      (forceRemoveAllChaosPods w request st).2 =
        { engine := st.engine,
          log := st.log ++
            [Call.DeleteAllOf ChildKind.Job (forcedDeleteOptions request st),
             Call.DeleteAllOf ChildKind.Pod (forcedDeleteOptions request st),
             Call.Eventf "Warning" "ChaosResourcesOperationFailed" message] }) := by
  rw [forceRemoveAllChaosPods_eq]
  cases w.DeleteAllOf st.log ChildKind.Job (forcedDeleteOptions request st) <;>
    cases w.DeleteAllOf
      (st.log ++ [Call.DeleteAllOf ChildKind.Job (forcedDeleteOptions request st)])
      ChildKind.Pod (forcedDeleteOptions request st)
  · exact Or.inl ⟨rfl, rfl⟩
  · exact Or.inr ⟨_, _, rfl, rfl⟩
  · exact Or.inr ⟨_, _, rfl, rfl⟩
  · exact Or.inr ⟨_, _, rfl, rfl⟩

theorem reconcileForRestartAfterComplete_eq (w : World) (request : Request) (st : St) :
    reconcileForRestartAfterComplete w request st =
      match (forceRemoveAllChaosPods w request st).1 with
      | some err => (some err, (forceRemoveAllChaosPods w request st).2)
      | none =>
        match w.Patch (forceRemoveAllChaosPods w request st).2.log
            (resetWithoutGuard (forceRemoveAllChaosPods w request st).2.engine.Instance)
            st.engine.Instance with
        | some err =>
          (some (Errorf
              ("unable to patch state & remove stale finalizer in chaosEngine Resource, due to error: "
                ++ err.Msg)),
            { engine := { (forceRemoveAllChaosPods w request st).2.engine with
                Instance :=
                  resetWithoutGuard (forceRemoveAllChaosPods w request st).2.engine.Instance },
              log := (forceRemoveAllChaosPods w request st).2.log ++
                [Call.Patch
                  (resetWithoutGuard (forceRemoveAllChaosPods w request st).2.engine.Instance)
                  st.engine.Instance,
                 Call.Eventf "Warning" "ChaosResourcesOperationFailed"
                   "(chaos restart) Unable to update chaosengine"] })
        | none =>
          (none,
            { engine := { (forceRemoveAllChaosPods w request st).2.engine with
                Instance :=
                  resetWithoutGuard (forceRemoveAllChaosPods w request st).2.engine.Instance },
              log := (forceRemoveAllChaosPods w request st).2.log ++
                [Call.Patch
                  (resetWithoutGuard (forceRemoveAllChaosPods w request st).2.engine.Instance)
                  st.engine.Instance] }) := by
  simp only [reconcileForRestartAfterComplete, forceRemoveChaosResources_eq]
  rcases hf : forceRemoveAllChaosPods w request st with ⟨e, s1⟩
  cases e with
  | some e => rfl
  | none =>
    obtain ⟨⟨⟨om, sp, stt⟩, ai, ae⟩, log⟩ := s1
    obtain ⟨n, ns, uid, dt, fs⟩ := om
    cases fs <;>
      simp only [clientPatch, St.setInstance, St.emit, Eventf, resetWithoutGuard,
        resetForRestart, Option.map] <;>
      (split <;>
        (rename_i heq
         simp only [Prod.mk.injEq] at heq
         obtain ⟨hp, rfl⟩ := heq
         simp [hp]))

/-- C17: both restart handlers first issue the two deletions of forced teardown; when
forced teardown fails they return its error and write nothing on the campaign. When it
succeeds, restart-after-abort submits by update, and restart-after-complete by
merge-patch, a campaign with phase Initialized, no experiment statuses and the spec
(desired state included) unchanged; restart-after-abort leaves the guard list as it was,
restart-after-complete submits it without the known token, the other tokens kept. -/
theorem restart_handlers_reset (w : World) (request : Request) (st : St) :
    (∃ (opts : List ClientOption) (tail : List Call),
      (reconcileForRestartAfterAbort w request st).2.log =
        st.log ++ Call.DeleteAllOf ChildKind.Job opts ::
          Call.DeleteAllOf ChildKind.Pod opts :: tail ∧
      ((forceRemoveChaosResources w request st).1 ≠ none →
        (reconcileForRestartAfterAbort w request st).1 =
          (forceRemoveChaosResources w request st).1 ∧
        ∀ c ∈ tail, c.writesCampaign = false) ∧
      ((forceRemoveChaosResources w request st).1 = none →
        ∃ obj : ChaosEngine,
          tail = [Call.Eventf "Normal" "RestartInProgress" "ChaosEngine is restarted",
            Call.Update obj] ∧
          obj.Status.EngineStatus = EngineStatusInitialized ∧
          obj.Status.Experiments = [] ∧
          obj.Spec = st.engine.Instance.Spec ∧
          obj.ObjectMeta = st.engine.Instance.ObjectMeta)) ∧
    (∃ (opts : List ClientOption) (tail : List Call),
      (reconcileForRestartAfterComplete w request st).2.log =
        st.log ++ Call.DeleteAllOf ChildKind.Job opts ::
          Call.DeleteAllOf ChildKind.Pod opts :: tail ∧
      ((forceRemoveChaosResources w request st).1 ≠ none →
        (reconcileForRestartAfterComplete w request st).1 =
          (forceRemoveChaosResources w request st).1 ∧
        ∀ c ∈ tail, c.writesCampaign = false) ∧
      ((forceRemoveChaosResources w request st).1 = none →
        ∃ (obj : ChaosEngine) (events : List Call),
          tail = Call.Patch obj st.engine.Instance :: events ∧
          (∀ c ∈ events, c.writesCampaign = false) ∧
          ((reconcileForRestartAfterComplete w request st).1 = none ↔
            w.Patch (st.log ++ [Call.DeleteAllOf ChildKind.Job opts,
              Call.DeleteAllOf ChildKind.Pod opts]) obj st.engine.Instance = none) ∧
          obj.Status.EngineStatus = EngineStatusInitialized ∧
          obj.Status.Experiments = [] ∧
          obj.Spec = st.engine.Instance.Spec ∧
          (∀ fs, obj.ObjectMeta.Finalizers = some fs → finalizer ∉ fs) ∧
          obj.ObjectMeta.Finalizers =
            st.engine.Instance.ObjectMeta.Finalizers.map
              (fun fs => fs.filter (fun g => g ≠ finalizer)))) := by
  constructor
  · refine ⟨forcedDeleteOptions request st, ?_⟩
    rw [reconcileForRestartAfterAbort_eq, forceRemoveChaosResources_eq]
    rcases forceRemoveAllChaosPods_cases w request st with ⟨h1, h2⟩ | ⟨err, message, h1, h2⟩
    · rw [h1]
      simp only [updateEngineForRestart_eq, h2]
      exact ⟨_, by simp, by simp, fun _ => ⟨resetForRestart st.engine.Instance, rfl, rfl, rfl,
        rfl, rfl⟩⟩
    · rw [h1]
      simp only [h2]
      exact ⟨[_], rfl, by simp [Call.writesCampaign], by simp⟩
  · refine ⟨forcedDeleteOptions request st, ?_⟩
    rw [reconcileForRestartAfterComplete_eq, forceRemoveChaosResources_eq]
    rcases forceRemoveAllChaosPods_cases w request st with ⟨h1, h2⟩ | ⟨err, message, h1, h2⟩
    · rw [h1]
      simp only [h2]
      have hfin : ∀ fs, (resetWithoutGuard st.engine.Instance).ObjectMeta.Finalizers = some fs →
          finalizer ∉ fs := by
        intro fs hfs
        simp only [resetWithoutGuard, Option.map_eq_some'] at hfs
        obtain ⟨fs0, -, rfl⟩ := hfs
        simp [RemoveString]
      cases hp : w.Patch
          (st.log ++ [Call.DeleteAllOf ChildKind.Job (forcedDeleteOptions request st),
            Call.DeleteAllOf ChildKind.Pod (forcedDeleteOptions request st)])
          (resetWithoutGuard st.engine.Instance) st.engine.Instance
      · refine ⟨[Call.Patch (resetWithoutGuard st.engine.Instance) st.engine.Instance],
          by simp, by simp, fun _ => ⟨resetWithoutGuard st.engine.Instance, [], rfl,
            by simp, by simp [hp], rfl, rfl, rfl, hfin, ?_⟩⟩
        simp [resetWithoutGuard, RemoveString]
      · refine ⟨[Call.Patch (resetWithoutGuard st.engine.Instance) st.engine.Instance,
            Call.Eventf "Warning" "ChaosResourcesOperationFailed"
              "(chaos restart) Unable to update chaosengine"],
          by simp, by simp, fun _ => ⟨resetWithoutGuard st.engine.Instance, [_], rfl,
            by simp [Call.writesCampaign], by simp [hp], rfl, rfl, rfl, hfin, ?_⟩⟩
        simp [resetWithoutGuard, RemoveString]
    · rw [h1]
      simp only [h2]
      exact ⟨[_], rfl, by simp [Call.writesCampaign], by simp⟩

/-! ## Graceful teardown -/

theorem deletePodsInOrder_spec (w : World) :
    ∀ (items : List Pod) (st : St),
      ∃ k, k ≤ items.length ∧
        (deletePodsInOrder w items st).2.log =
          st.log ++ (items.take k).map Call.DeletePod ∧
        (deletePodsInOrder w items st).2.engine = st.engine ∧
        ((deletePodsInOrder w items st).1 = none →
          k = items.length ∧
          ∀ (i : Nat) (pod : Pod), items[i]? = some pod →
            w.DeletePod (st.log ++ (items.take i).map Call.DeletePod) pod = none) ∧
        (∀ err, (deletePodsInOrder w items st).1 = some err →
          ∃ j pod, k = j + 1 ∧ items[j]? = some pod ∧
            w.DeletePod (st.log ++ (items.take j).map Call.DeletePod) pod = some err ∧
            ∀ (i : Nat) (p : Pod), i < j → items[i]? = some p →
              w.DeletePod (st.log ++ (items.take i).map Call.DeletePod) p = none) := by
  intro items
  induction items with
  | nil =>
    intro st
    exact ⟨0, by simp, by simp [deletePodsInOrder], rfl, by simp [deletePodsInOrder],
      by simp [deletePodsInOrder]⟩
  | cons v rest ih =>
    intro st
    cases hd : w.DeletePod st.log v with
    | some e =>
      refine ⟨1, by simp, by simp [deletePodsInOrder, hd, St.emit],
        by simp [deletePodsInOrder, hd, St.emit], by simp [deletePodsInOrder, hd], ?_⟩
      intro err herr
      simp only [deletePodsInOrder, hd, Option.some.injEq] at herr
      subst herr
      exact ⟨0, v, rfl, by simp, by simpa using hd, by simp⟩
    | none =>
      obtain ⟨k, hk, hlog, heng, hok, herr⟩ := ih (st.emit (Call.DeletePod v))
      have hshift : ∀ i : Nat, (st.emit (Call.DeletePod v)).log ++
          (rest.take i).map Call.DeletePod =
          st.log ++ ((v :: rest).take (i + 1)).map Call.DeletePod := by
        intro i
        simp [St.emit]
      refine ⟨k + 1, by simpa using hk, ?_, ?_, ?_, ?_⟩
      · simp only [deletePodsInOrder, hd]
        rw [hlog, hshift]
      · simp only [deletePodsInOrder, hd]
        rw [heng]
        rfl
      · intro hnone
        simp only [deletePodsInOrder, hd] at hnone
        obtain ⟨hk2, hall⟩ := hok hnone
        refine ⟨by simp [hk2], ?_⟩
        intro i pod hi
        cases i with
        | zero =>
          simp only [List.getElem?_cons_zero, Option.some.injEq] at hi
          subst hi
          simpa using hd
        | succ i =>
          simp only [List.getElem?_cons_succ] at hi
          rw [← hshift]
          exact hall i pod hi
      · intro err he
        simp only [deletePodsInOrder, hd] at he
        obtain ⟨j, pod, hkj, hj, hfail, hbefore⟩ := herr err he
        refine ⟨j + 1, pod, by omega, by simpa using hj, by rw [← hshift]; exact hfail, ?_⟩
        intro i p hi hp
        cases i with
        | zero =>
          simp only [List.getElem?_cons_zero, Option.some.injEq] at hp
          subst hp
          simpa using hd
        | succ i =>
          simp only [List.getElem?_cons_succ] at hp
          rw [← hshift]
          exact hbefore i p (by omega) hp

/-- C11: graceful teardown issues no call and returns success when the cleanup policy is
not Delete. When it is Delete, it lists the pods of the request namespace labelled
app = the name and chaosUID = the UID of the campaign; a failed listing is returned with no
deletion issued; otherwise the pods are deleted one at a time in list order up to and
including the first deletion that fails, whose error is returned; it returns success
exactly when every deletion of the list succeeds, and then all pods have been deleted. -/
theorem gracefullyRemoveDefaultChaosResources_spec (w : World) (request : Request) (st : St) :
    (st.engine.Instance.Spec.JobCleanUpPolicy ≠ CleanUpPolicyDelete →
      gracefullyRemoveDefaultChaosResources w request st = (none, st)) ∧
    (st.engine.Instance.Spec.JobCleanUpPolicy = CleanUpPolicyDelete →
      (∀ err,
        w.ListPods st.log
            [ClientOption.InNamespace request.NamespacedName.Namespace,
             ClientOption.MatchingLabels
               [("app", st.engine.Instance.ObjectMeta.Name),
                ("chaosUID", st.engine.Instance.ObjectMeta.UID)]] = Except.error err →
        gracefullyRemoveDefaultChaosResources w request st =
          (some err,
            { engine := st.engine,
              log := st.log ++
                [Call.ListPods
                  [ClientOption.InNamespace request.NamespacedName.Namespace,
                   ClientOption.MatchingLabels
                     [("app", st.engine.Instance.ObjectMeta.Name),
                      ("chaosUID", st.engine.Instance.ObjectMeta.UID)]]] })) ∧
      (∀ items,
        w.ListPods st.log
            [ClientOption.InNamespace request.NamespacedName.Namespace,
             ClientOption.MatchingLabels
               [("app", st.engine.Instance.ObjectMeta.Name),
                ("chaosUID", st.engine.Instance.ObjectMeta.UID)]] = Except.ok items →
        ∃ k, k ≤ items.length ∧
          (gracefullyRemoveDefaultChaosResources w request st).2.log =
            st.log ++
              Call.ListPods
                [ClientOption.InNamespace request.NamespacedName.Namespace,
                 ClientOption.MatchingLabels
                   [("app", st.engine.Instance.ObjectMeta.Name),
                    ("chaosUID", st.engine.Instance.ObjectMeta.UID)]] ::
              (items.take k).map Call.DeletePod ∧
          ((gracefullyRemoveDefaultChaosResources w request st).1 = none ↔
            ∀ (i : Nat) (pod : Pod), items[i]? = some pod →
              w.DeletePod
                (st.log ++
                  Call.ListPods
                    [ClientOption.InNamespace request.NamespacedName.Namespace,
                     ClientOption.MatchingLabels
                       [("app", st.engine.Instance.ObjectMeta.Name),
                        ("chaosUID", st.engine.Instance.ObjectMeta.UID)]] ::
                  (items.take i).map Call.DeletePod) pod = none) ∧
          ((gracefullyRemoveDefaultChaosResources w request st).1 = none → k = items.length) ∧
          (∀ err, (gracefullyRemoveDefaultChaosResources w request st).1 = some err →
            ∃ j pod, k = j + 1 ∧ items[j]? = some pod ∧
              w.DeletePod
                (st.log ++
                  Call.ListPods
                    [ClientOption.InNamespace request.NamespacedName.Namespace,
                     ClientOption.MatchingLabels
                       [("app", st.engine.Instance.ObjectMeta.Name),
                        ("chaosUID", st.engine.Instance.ObjectMeta.UID)]] ::
                  (items.take j).map Call.DeletePod) pod = some err ∧
              ∀ (i : Nat) (p : Pod), i < j → items[i]? = some p →
                w.DeletePod
                  (st.log ++
                    Call.ListPods
                      [ClientOption.InNamespace request.NamespacedName.Namespace,
                       ClientOption.MatchingLabels
                         [("app", st.engine.Instance.ObjectMeta.Name),
                          ("chaosUID", st.engine.Instance.ObjectMeta.UID)]] ::
                    (items.take i).map Call.DeletePod) p = none))) := by
  constructor
  · intro h
    simp [gracefullyRemoveDefaultChaosResources, h]
  · intro h
    have hres : gracefullyRemoveDefaultChaosResources w request st =
        gracefullyRemoveChaosPods w request st := by
      simp only [gracefullyRemoveDefaultChaosResources, h, if_true]
      rcases gracefullyRemoveChaosPods w request st with ⟨e, s⟩
      cases e <;> rfl
    rw [hres]
    constructor
    · intro err hl
      simp [gracefullyRemoveChaosPods, clientListPods, hl, St.emit]
    · intro items hl
      simp only [gracefullyRemoveChaosPods, clientListPods, hl]
      obtain ⟨k, hk, hlog, -, hok, herr⟩ := deletePodsInOrder_spec w items
        (st.emit (Call.ListPods
          [ClientOption.InNamespace request.NamespacedName.Namespace,
           ClientOption.MatchingLabels
             [("app", st.engine.Instance.ObjectMeta.Name),
              ("chaosUID", st.engine.Instance.ObjectMeta.UID)]]))
      simp only [St.emit, List.append_assoc, List.singleton_append] at hlog hok herr
      refine ⟨k, hk, hlog, ⟨fun hn => (hok hn).2, ?_⟩, fun hn => (hok hn).1, herr⟩
      intro hall
      cases hr : (deletePodsInOrder w items
        (st.emit (Call.ListPods
          [ClientOption.InNamespace request.NamespacedName.Namespace,
           ClientOption.MatchingLabels
             [("app", st.engine.Instance.ObjectMeta.Name),
              ("chaosUID", st.engine.Instance.ObjectMeta.UID)]]))).1 with
      | none => rfl
      | some err =>
        obtain ⟨j, pod, -, hj, hfail, -⟩ := herr err hr
        rw [hall j pod hj] at hfail
        exact absurd hfail (by simp)

/-! ## Runner ensure-exists -/

/-- C13 (counterexample): the runner lookup reports NotFound and the creation is answered
with AlreadyExists: `engineRunnerPod` returns that error. -/
theorem engineRunnerPod_returns_already_exists :
    (engineRunnerPod createRaces
        { Name := "engine-nginx-runner", Namespace := "default",
          Labels := getChaosRunnerLabels (sampleEngine EngineStateActive EngineStatusInitialized
            (some [finalizer])),
          Phase := "", ContainerStatuses := [] }
        (loaded (sampleEngine EngineStateActive EngineStatusInitialized (some [finalizer])))).1 =
      some (apiError StatusReason.AlreadyExists "already exists") := by
  rfl

/-- C13 (as amended): with a non-empty experiment list and a runner descriptor that
builds, the ensure-exists step looks the runner up under the campaign's namespace and the
name "<campaign-name>-runner". It issues a creation exactly when the lookup reports
NotFound and issues nothing else; it returns success when the runner is found and when the
creation succeeds, and returns the error of a failed lookup or of a failed creation,
AlreadyExists included. After a successful creation, a second call whose lookup finds the
runner issues no creation, so the two calls create one runner. -/
theorem checkEngineRunnerPod_ensure (w : World) (st : St)
    (hexp : st.engine.AppExperiments ≠ [])
    (hbuild : ∀ p, w.Build p = none) :
    ∃ pod : Pod,
      pod.Name = st.engine.Instance.ObjectMeta.Name ++ "-runner" ∧
      pod.Namespace = st.engine.Instance.ObjectMeta.Namespace ∧
      (∀ found, w.GetPod st.log (runnerKey st.engine.Instance) = Except.ok found →
        checkEngineRunnerPod w st =
          (none, { engine := st.engine,
                   log := st.log ++ [Call.GetPod (runnerKey st.engine.Instance)] })) ∧
      (∀ err, w.GetPod st.log (runnerKey st.engine.Instance) = Except.error err →
        IsNotFound err = false →
        checkEngineRunnerPod w st =
          (some err, { engine := st.engine,
                       log := st.log ++ [Call.GetPod (runnerKey st.engine.Instance)] })) ∧
      (∀ err, w.GetPod st.log (runnerKey st.engine.Instance) = Except.error err →
        IsNotFound err = true →
        checkEngineRunnerPod w st =
          (w.CreatePod (st.log ++ [Call.GetPod (runnerKey st.engine.Instance)]) pod,
            { engine := st.engine,
              log := st.log ++ [Call.GetPod (runnerKey st.engine.Instance),
                Call.CreatePod pod] }) ∧
        (w.CreatePod (st.log ++ [Call.GetPod (runnerKey st.engine.Instance)]) pod = none →
          ∀ found,
            w.GetPod (st.log ++ [Call.GetPod (runnerKey st.engine.Instance),
              Call.CreatePod pod]) (runnerKey st.engine.Instance) = Except.ok found →
            (checkEngineRunnerPod w (checkEngineRunnerPod w st).2).1 = none ∧
            (checkEngineRunnerPod w (checkEngineRunnerPod w st).2).2.log =
              st.log ++ [Call.GetPod (runnerKey st.engine.Instance), Call.CreatePod pod,
                Call.GetPod (runnerKey st.engine.Instance)])) := by
  have hlen : ¬ st.engine.AppExperiments.length = 0 := by simpa using hexp
  have hgen : ∀ log : List Call,
      checkEngineRunnerPod w { engine := st.engine, log := log } =
        engineRunnerPod w
          { Name := st.engine.Instance.ObjectMeta.Name ++ "-runner",
            Namespace := st.engine.Instance.ObjectMeta.Namespace,
            Labels := getChaosRunnerLabels st.engine.Instance,
            Phase := "", ContainerStatuses := [] } { engine := st.engine, log := log } := by
    intro log
    simp only [checkEngineRunnerPod, hlen, if_false, newGoRunnerPodForCR, hbuild]
    rcases engineRunnerPod w _ _ with ⟨e, s1⟩
    cases e <;> rfl
  have hgen0 := hgen st.log
  refine ⟨{ Name := st.engine.Instance.ObjectMeta.Name ++ "-runner",
            Namespace := st.engine.Instance.ObjectMeta.Namespace,
            Labels := getChaosRunnerLabels st.engine.Instance,
            Phase := "", ContainerStatuses := [] }, rfl, rfl, ?_, ?_, ?_⟩
  · intro found hf
    rw [show checkEngineRunnerPod w st = _ from hgen0]
    exact engineRunnerPod_found w _ st found hf
  · intro err he hnf
    rw [show checkEngineRunnerPod w st = _ from hgen0]
    have he2 : w.GetPod st.log
        { Name := st.engine.Instance.ObjectMeta.Name ++ "-runner",
          Namespace := st.engine.Instance.ObjectMeta.Namespace } = Except.error err := he
    simp only [engineRunnerPod, he2, hnf, Bool.false_eq_true, if_false, St.emit]
    rfl
  · intro err he hnf
    obtain ⟨h1, h2⟩ := engineRunnerPod_notFound w
      { Name := st.engine.Instance.ObjectMeta.Name ++ "-runner",
        Namespace := st.engine.Instance.ObjectMeta.Namespace,
        Labels := getChaosRunnerLabels st.engine.Instance,
        Phase := "", ContainerStatuses := [] } st err he hnf
    have hfirst : checkEngineRunnerPod w st = (_, _) :=
      hgen0.trans (Prod.ext h1 h2)
    refine ⟨hfirst, ?_⟩
    intro hc found hfound
    have hst2 : (checkEngineRunnerPod w st).2 =
        { engine := st.engine,
          log := st.log ++ [Call.GetPod (runnerKey st.engine.Instance),
            Call.CreatePod
              { Name := st.engine.Instance.ObjectMeta.Name ++ "-runner",
                Namespace := st.engine.Instance.ObjectMeta.Namespace,
                Labels := getChaosRunnerLabels st.engine.Instance,
                Phase := "", ContainerStatuses := [] }] } := by
      rw [hfirst]
      rfl
    rw [hst2, hgen, engineRunnerPod_found w _ _ found hfound]
    exact ⟨rfl, by simp [runnerKey]⟩

/-- C13 (witness): the amended statement for the sample campaign in a world without the
runner: the step looks it up and issues its creation. -/
theorem checkEngineRunnerPod_ensure_witness :
    (prepared (sampleEngine EngineStateActive EngineStatusInitialized
      (some [finalizer]))).engine.AppExperiments ≠ [] ∧
    ∃ pod : Pod,
      pod.Name = "engine-nginx" ++ "-runner" ∧
      checkEngineRunnerPod quietWorld
          (prepared (sampleEngine EngineStateActive EngineStatusInitialized (some [finalizer]))) =
        (none,
          { engine := (prepared (sampleEngine EngineStateActive EngineStatusInitialized
              (some [finalizer]))).engine,
            log := [Call.GetPod (runnerKey (sampleEngine EngineStateActive
                EngineStatusInitialized (some [finalizer]))),
              Call.CreatePod pod] }) := by
  obtain ⟨pod, hn, -, -, -, h3⟩ := checkEngineRunnerPod_ensure quietWorld
    (prepared (sampleEngine EngineStateActive EngineStatusInitialized (some [finalizer])))
    (by decide) (fun _ => rfl)
  exact ⟨by decide, pod, hn, (h3 _ rfl rfl).1⟩

/-! ## Validation failure in the provisioning handler -/

theorem validateAnnontatedApplication_calls (w : World) (st : St) :
    ∃ added, (validateAnnontatedApplication w st).2.log = st.log ++ added ∧
      ∀ c ∈ added, c.touchesRunner = false ∧ c.writesCampaign = false := by
  unfold validateAnnontatedApplication
  simp only [St.setInstance]
  cases w.CreateClientSet with
  | some e => exact ⟨[], by simp, by simp⟩
  | none =>
    cases w.CreateDynamicClientSet with
    | some e => exact ⟨[], by simp, by simp⟩
    | none =>
      simp only
      rcases getAnnotationCheck (setChaosResourceImage w st.engine.Instance) with ⟨e, i⟩
      cases e with
      | some e => exact ⟨[], by simp, by simp⟩
      | none =>
        simp only [getApplicationDetail, initializeApplicationInfo]
        split_ifs
        all_goals first
          | exact ⟨[], (List.append_nil _).symm, by simp⟩
          | (simp only [St.emit, Eventf, CheckChaosAnnotation]
             split
             · rename_i h
               simp only [Prod.mk.injEq] at h
               obtain ⟨-, h⟩ := h
               subst h
               exact ⟨_, List.append_assoc _ _ _,
                 by simp [Call.writesCampaign, Call.touchesRunner]⟩
             · rename_i h
               simp only [Prod.mk.injEq] at h
               obtain ⟨-, h⟩ := h
               subst h
               exact ⟨_, rfl, by simp [Call.writesCampaign, Call.touchesRunner]⟩)

theorem getAnnotationCheck_eq (inst : ChaosEngine) :
    getAnnotationCheck inst =
      (if (if inst.Spec.AnnotationCheck = "" then DefaultAnnotationCheck
            else inst.Spec.AnnotationCheck) ≠ "true" ∧
          (if inst.Spec.AnnotationCheck = "" then DefaultAnnotationCheck
            else inst.Spec.AnnotationCheck) ≠ "false" then
          some (Errorf ("annotationCheck \x27" ++
            (if inst.Spec.AnnotationCheck = "" then DefaultAnnotationCheck
              else inst.Spec.AnnotationCheck) ++
            "\x27, is not supported it should be true or false"))
        else none,
       { inst with Spec := { inst.Spec with AnnotationCheck :=
          if inst.Spec.AnnotationCheck = "" then DefaultAnnotationCheck
          else inst.Spec.AnnotationCheck } }) := by
  simp only [getAnnotationCheck]
  by_cases h : inst.Spec.AnnotationCheck = ""
  · simp only [h, if_true]
    split_ifs <;> rfl
  · simp only [h, if_false]
    split_ifs <;> rfl

theorem validateAnnontatedApplication_fails (w : World) (st : St)
    (h : ((if st.engine.Instance.Spec.AnnotationCheck = "" then DefaultAnnotationCheck
            else st.engine.Instance.Spec.AnnotationCheck) ≠ "true" ∧
          (if st.engine.Instance.Spec.AnnotationCheck = "" then DefaultAnnotationCheck
            else st.engine.Instance.Spec.AnnotationCheck) ≠ "false") ∨
        ((if st.engine.Instance.Spec.AnnotationCheck = "" then DefaultAnnotationCheck
            else st.engine.Instance.Spec.AnnotationCheck) = "true" ∧
          (st.engine.Instance.Spec.Appinfo.Applabel = "" ∨
            (if st.engine.Instance.Spec.Appinfo.Appns ≠ "" then
                st.engine.Instance.Spec.Appinfo.Appns
              else st.engine.Instance.ObjectMeta.Namespace) = "" ∨
            st.engine.Instance.Spec.Appinfo.AppKind = "")) ∨
        ((if st.engine.Instance.Spec.AnnotationCheck = "" then DefaultAnnotationCheck
            else st.engine.Instance.Spec.AnnotationCheck) = "true" ∧
          ∀ log e, ( World.CheckChaosAnnotation w log e).2 ≠ none)) :
    (validateAnnontatedApplication w st).1 ≠ none := by
  unfold validateAnnontatedApplication
  simp only [St.setInstance]
  obtain ⟨img2, himg⟩ := setChaosResourceImage_shape w st.engine.Instance
  rw [himg]
  cases w.CreateClientSet with
  | some e => simp
  | none =>
    cases w.CreateDynamicClientSet with
    | some e => simp
    | none =>
      simp only [getAnnotationCheck_eq]
      generalize hAC : (if st.engine.Instance.Spec.AnnotationCheck = "" then
        DefaultAnnotationCheck else st.engine.Instance.Spec.AnnotationCheck) = AC at h ⊢
      by_cases hbad : AC ≠ "true" ∧ AC ≠ "false"
      · rw [if_pos hbad]
        simp
      · rw [if_neg hbad]
        rcases h with h | h | h
        · exact absurd h hbad
        · simp only [getApplicationDetail, initializeApplicationInfo, h.1, if_true]
          rw [if_pos h.2]
          simp
        · simp only [getApplicationDetail, initializeApplicationInfo, h.1, if_true]
          split_ifs
          all_goals first
            | (simp; done)
            | (split
               · simp
               · rename_i heq
                 simp only [Prod.mk.injEq, CheckChaosAnnotation] at heq
                 exact absurd heq.1 (h.2 _ _))

/-- C12: in `reconcileForCreationAndRunning`, each of the listed conditions makes
`validateAnnontatedApplication` fail (the annotation check, after the default replaced an
empty value, is neither "true" nor "false"; or it is "true" and the label, the namespace
after defaulting to the campaign's namespace, or the kind of the target is empty; or it is
"true" and the annotation validator answers with an error), and whenever the validation
fails the handler returns a non-nil error, issues right after the calls of the validation
one patch of the campaign whose `Spec.EngineState` is `EngineStateStop` and that otherwise
is the instance the validation left, and issues no lookup and no creation of a pod. -/
theorem reconcileForCreationAndRunning_validation_failure (w : World) (st : St) :
    ((((if st.engine.Instance.Spec.AnnotationCheck = "" then DefaultAnnotationCheck
            else st.engine.Instance.Spec.AnnotationCheck) ≠ "true" ∧
          (if st.engine.Instance.Spec.AnnotationCheck = "" then DefaultAnnotationCheck
            else st.engine.Instance.Spec.AnnotationCheck) ≠ "false") ∨
        ((if st.engine.Instance.Spec.AnnotationCheck = "" then DefaultAnnotationCheck
            else st.engine.Instance.Spec.AnnotationCheck) = "true" ∧
          (st.engine.Instance.Spec.Appinfo.Applabel = "" ∨
            (if st.engine.Instance.Spec.Appinfo.Appns ≠ "" then
                st.engine.Instance.Spec.Appinfo.Appns
              else st.engine.Instance.ObjectMeta.Namespace) = "" ∨
            st.engine.Instance.Spec.Appinfo.AppKind = "")) ∨
        ((if st.engine.Instance.Spec.AnnotationCheck = "" then DefaultAnnotationCheck
            else st.engine.Instance.Spec.AnnotationCheck) = "true" ∧
          ∀ log e, ( World.CheckChaosAnnotation w log e).2 ≠ none)) →
      (validateAnnontatedApplication w st).1 ≠ none) ∧
    ((validateAnnontatedApplication w st).1 ≠ none →
      (reconcileForCreationAndRunning w st).1 ≠ none ∧
      ∃ added tail,
        (validateAnnontatedApplication w st).2.log = st.log ++ added ∧
        (reconcileForCreationAndRunning w st).2.log =
          st.log ++ (added ++
            Call.Patch
              { (validateAnnontatedApplication w st).2.engine.Instance with
                Spec := { (validateAnnontatedApplication w st).2.engine.Instance.Spec with
                  EngineState := EngineStateStop } }
              (validateAnnontatedApplication w st).2.engine.Instance :: tail) ∧
        (∀ c ∈ tail, c.writesCampaign = false) ∧
        ∀ c ∈ added ++
            Call.Patch
              { (validateAnnontatedApplication w st).2.engine.Instance with
                Spec := { (validateAnnontatedApplication w st).2.engine.Instance.Spec with
                  EngineState := EngineStateStop } }
              (validateAnnontatedApplication w st).2.engine.Instance :: tail,
          c.touchesRunner = false) := by
  refine ⟨validateAnnontatedApplication_fails w st, ?_⟩
  intro hv
  obtain ⟨added, hlog, hadded⟩ := validateAnnontatedApplication_calls w st
  unfold reconcileForCreationAndRunning
  rcases hval : validateAnnontatedApplication w st with ⟨e, st1⟩
  rw [hval] at hv hlog
  cases e with
  | none => exact absurd rfl hv
  | some err =>
    simp only at hlog
    simp only [updateEngineState, clientPatch, St.setInstance, St.emit, Eventf]
    cases w.Patch st1.log _ st1.engine.Instance with
    | none =>
      refine ⟨by simp, added, [], hlog, ?_, by simp, ?_⟩
      · simp [hlog]
      · intro c hc
        simp only [List.mem_append, List.mem_cons, List.mem_singleton, List.not_mem_nil,
          or_false] at hc
        rcases hc with hc | hc
        · exact (hadded c hc).1
        · subst hc; rfl
    | some e2 =>
      refine ⟨by simp, added, [Call.Eventf "Warning" "ChaosResourcesOperationFailed"
        "(chaos stop) Unable to update chaosengine"], hlog, ?_, by simp [Call.writesCampaign], ?_⟩
      · simp [hlog]
      · intro c hc
        simp only [List.mem_append, List.mem_cons, List.mem_singleton, List.not_mem_nil,
          or_false] at hc
        rcases hc with hc | hc | hc
        · exact (hadded c hc).1
        · subst hc; rfl
        · subst hc; rfl

/-! ## Convergence wait -/

theorem retryLoop_attempts (retry : Nat) (action : Nat → St → Option GoError × St)
    (c : Call) (good : List Call → Bool)
    (hstate : ∀ a s, (action a s).2 = s.emit c)
    (hgood : ∀ a s, (action a s).1 = none ↔ good s.log = true) :
    ∀ (remaining attempt : Nat) (err : Option GoError) (s : St),
      (attempt = 0 ∨ err.isSome) → attempt + remaining = retry →
      ∃ k, k ≤ remaining + 1 ∧ 1 ≤ k ∧
        (retryLoop retry action (remaining + 1) attempt err s).2 =
          { engine := s.engine, log := s.log ++ List.replicate k c } ∧
        (∀ i, i + 1 < k → good (s.log ++ List.replicate i c) = false) ∧
        ((retryLoop retry action (remaining + 1) attempt err s).1 = none ↔
          good (s.log ++ List.replicate (k - 1) c) = true) ∧
        ((retryLoop retry action (remaining + 1) attempt err s).1 ≠ none →
          k = remaining + 1) := by
  intro remaining
  induction remaining with
  | zero =>
    intro attempt err s h hfuel
    have hle : attempt ≤ retry := by omega
    refine ⟨1, le_refl _, le_refl _, ?_, ?_, ?_, fun _ => rfl⟩
    · rw [retryLoop, if_pos ⟨h, hle⟩, retryLoop, hstate]
      simp [St.emit]
    · intro i hi
      omega
    · rw [retryLoop, if_pos ⟨h, hle⟩, retryLoop]
      simp [hgood]
  | succ n ih =>
    intro attempt err s h hfuel
    have hle : attempt ≤ retry := by omega
    rw [retryLoop, if_pos ⟨h, hle⟩]
    by_cases hg : good s.log = true
    · have hnone : (action attempt s).1 = none := (hgood attempt s).2 hg
      refine ⟨1, by omega, le_refl _, ?_, ?_, ?_, ?_⟩
      · rw [retryLoop, if_neg (by simp [hnone]), hstate]
        simp [St.emit]
      · intro i hi
        omega
      · rw [retryLoop, if_neg (by simp [hnone])]
        simp [hnone, hg]
      · rw [retryLoop, if_neg (by simp [hnone])]
        intro hne
        exact absurd hnone hne
    · have hsome : (action attempt s).1.isSome = true := by
        cases hact : (action attempt s).1 with
        | none => exact absurd ((hgood attempt s).1 hact) hg
        | some e => rfl
      obtain ⟨k, hk1, hk2, hst, hbefore, hres, hlast⟩ :=
        ih (attempt + 1) (action attempt s).1 (action attempt s).2 (Or.inr hsome) (by omega)
      have hlog : ∀ i, (action attempt s).2.log ++ List.replicate i c =
          s.log ++ List.replicate (i + 1) c := by
        intro i
        rw [hstate]
        simp [St.emit, List.replicate_succ]
      refine ⟨k + 1, by omega, by omega, ?_, ?_, ?_, ?_⟩
      · rw [hst, hlog, hstate]
        rfl
      · intro i hi
        cases i with
        | zero => simpa using hg
        | succ j =>
          rw [← hlog]
          exact hbefore j (by omega)
      · rw [hres, hlog]
        have : k - 1 + 1 = k + 1 - 1 := by omega
        rw [this]
      · intro hne
        have := hlast hne
        omega

set_option maxRecDepth 100000 in
/-- C15 (counterexample): in a world where the first 180 listings find a pod and the next
one is empty, `waitForChaosPodTermination` lists 181 times and returns `nil`, although
none of the first 180 attempts observed a successful empty listing. -/
theorem waitForChaosPodTermination_lists_181_times :
    (waitForChaosPodTermination (drainsAfter 180) sampleRequest (loaded stoppingEngine)).1 =
      none ∧
    (waitForChaosPodTermination (drainsAfter 180) sampleRequest
        (loaded stoppingEngine)).2.log =
      List.replicate 181
        (Call.ListPods (waitOptions sampleRequest (loaded stoppingEngine))) ∧
    ∀ i, i < 180 →
      observesNoPods ((drainsAfter 180).ListPods
        ((loaded stoppingEngine).log ++
          List.replicate i (Call.ListPods (waitOptions sampleRequest (loaded stoppingEngine))))
        (waitOptions sampleRequest (loaded stoppingEngine))) = false := by
  refine ⟨rfl, rfl, ?_⟩
  intro i hi
  simp [drainsAfter, loaded, observesNoPods, hi]

/-- C15 (as amended): `waitForChaosPodTermination` lists the pods labelled `chaosUID` = the
campaign's UID in the request namespace some `k` times with `1 ≤ k ≤ 181` (one try and up
to 180 retries) and issues nothing else; every attempt before the last did not observe a
successful empty listing; the wait returns `nil` exactly when the last attempt observed
one, so it stops at the first such attempt; and it returns an error exactly when none of
the 181 attempts observed a successful empty listing. The attempt `i` is the listing
answered after `i` earlier listings. -/
theorem waitForChaosPodTermination_attempts (w : World) (request : Request) (st : St) :
    ∃ k, 1 ≤ k ∧ k ≤ 181 ∧
      (waitForChaosPodTermination w request st).2 =
        { engine := st.engine,
          log := st.log ++ List.replicate k (Call.ListPods (waitOptions request st)) } ∧
      (∀ i, i + 1 < k →
        observesNoPods (w.ListPods
          (st.log ++ List.replicate i (Call.ListPods (waitOptions request st)))
          (waitOptions request st)) = false) ∧
      ((waitForChaosPodTermination w request st).1 = none ↔
        observesNoPods (w.ListPods
          (st.log ++ List.replicate (k - 1) (Call.ListPods (waitOptions request st)))
          (waitOptions request st)) = true) ∧
      ((waitForChaosPodTermination w request st).1 ≠ none ↔
        ∀ i, i < 181 →
          observesNoPods (w.ListPods
            (st.log ++ List.replicate i (Call.ListPods (waitOptions request st)))
            (waitOptions request st)) = false) := by
  obtain ⟨k, hk1, hk2, hst, hbefore, hres, hlast⟩ :=
    retryLoop_attempts 180
      (fun _ s =>
        match clientListPods w (waitOptions request st) s with
        | (Except.error err, s1) => (some err, s1)
        | (Except.ok items, s1) =>
          if items.length ≠ 0 then (some (Errorf "chaos pods are not deleted yet"), s1)
          else (none, s1))
      (Call.ListPods (waitOptions request st))
      (fun log => observesNoPods (w.ListPods log (waitOptions request st)))
      (by
        intro a s
        simp only [clientListPods]
        cases w.ListPods s.log (waitOptions request st) with
        | error e => rfl
        | ok items => simp only; split_ifs <;> rfl)
      (by
        intro a s
        simp only [clientListPods]
        cases w.ListPods s.log (waitOptions request st) with
        | error e => simp [observesNoPods]
        | ok items =>
          simp only [observesNoPods]
          split_ifs with h <;> simp_all)
      180 0 none st (Or.inl rfl) rfl
  have hw : waitForChaosPodTermination w request st =
      retryLoop 180
        (fun _ s =>
          match clientListPods w (waitOptions request st) s with
          | (Except.error err, s1) => (some err, s1)
          | (Except.ok items, s1) =>
            if items.length ≠ 0 then (some (Errorf "chaos pods are not deleted yet"), s1)
            else (none, s1))
        (180 + 1) 0 none st := rfl
  rw [hw]
  refine ⟨k, hk2, hk1, hst, hbefore, hres, ?_⟩
  constructor
  · intro hne i hi
    have hk : k = 181 := hlast hne
    by_cases hik : i + 1 < k
    · exact hbefore i hik
    · have hi2 : i = k - 1 := by omega
      subst hi2
      cases hv : observesNoPods (w.ListPods
          (st.log ++ List.replicate (k - 1) (Call.ListPods (waitOptions request st)))
          (waitOptions request st)) with
      | false => rfl
      | true => exact absurd (hres.2 hv) hne
  · intro hall hnone
    have := hres.1 hnone
    rw [hall (k - 1) (by omega)] at this
    exact absurd this (by simp)

/-! ## Failures of the teardown handler -/

theorem runnerContainerCompleted_foldl_other (statuses : List ContainerStatus) (acc : Bool)
    (h : ∀ c ∈ statuses, c.Name ≠ "chaos-runner") :
    statuses.foldl (fun isCompleted container =>
      if container.Name = "chaos-runner" then
        match container.Terminated with
        | some reason => if reason = "Completed" then !container.Ready else isCompleted
        | none => isCompleted
      else isCompleted) acc = acc := by
  induction statuses generalizing acc with
  | nil => rfl
  | cons a l ih =>
    simp only [List.foldl_cons]
    rw [if_neg (h a (List.mem_cons_self _ _))]
    exact ih acc (fun c hc => h c (List.mem_cons_of_mem _ hc))

theorem runnerContainerCompleted_iff (statuses : List ContainerStatus)
    (hone : (statuses.filter (fun c => c.Name = "chaos-runner")).length ≤ 1) :
    runnerContainerCompleted statuses = true ↔
      ∃ c ∈ statuses, c.Name = "chaos-runner" ∧ c.Terminated = some "Completed" ∧
        c.Ready = false := by
  unfold runnerContainerCompleted
  induction statuses with
  | nil => simp
  | cons a l ih =>
    simp only [List.foldl_cons]
    by_cases ha : a.Name = "chaos-runner"
    · have hl : ∀ c ∈ l, c.Name ≠ "chaos-runner" := by
        intro c hc hn
        have hmem : c ∈ l.filter (fun c => c.Name = "chaos-runner") :=
          List.mem_filter.mpr ⟨hc, by simpa using hn⟩
        have hpos : 0 < (l.filter (fun c => c.Name = "chaos-runner")).length :=
          List.length_pos_of_mem hmem
        simp only [List.filter_cons, ha, decide_True, if_true, List.length_cons] at hone
        omega
      rw [runnerContainerCompleted_foldl_other l _ hl]
      simp only [ha, if_true]
      constructor
      · intro h
        refine ⟨a, List.mem_cons_self _ _, ha, ?_⟩
        cases ht : a.Terminated with
        | none => rw [ht] at h; exact absurd h (by simp)
        | some reason =>
          rw [ht] at h
          simp only at h
          by_cases hr : reason = "Completed"
          · subst hr
            simpa using h
          · rw [if_neg hr] at h
            exact absurd h (by simp)
      · rintro ⟨c, hc, hn, ht, hr⟩
        rcases List.mem_cons.mp hc with hc | hc
        · subst hc
          simp [ht, hr]
        · exact absurd hn (hl c hc)
    · rw [if_neg ha]
      have hone2 : (l.filter (fun c => c.Name = "chaos-runner")).length ≤ 1 := by
        simpa [List.filter_cons, ha] using hone
      rw [ih hone2]
      constructor
      · rintro ⟨c, hc, h⟩
        exact ⟨c, List.mem_cons_of_mem _ hc, h⟩
      · rintro ⟨c, hc, hn, h⟩
        rcases List.mem_cons.mp hc with hc | hc
        · subst hc
          exact absurd hn ha
        · exact ⟨c, hc, hn, h⟩

theorem checkEngineRunnerPod_frame (w : World) (st : St) :
    (checkEngineRunnerPod w st).2.engine = st.engine ∧
    ∃ added, (checkEngineRunnerPod w st).2.log = st.log ++ added ∧
      ∀ c ∈ added, c.writesCampaign = false := by
  unfold checkEngineRunnerPod
  split_ifs
  · exact ⟨rfl, [], by simp, by simp⟩
  · cases newGoRunnerPodForCR w st.engine with
    | error e => exact ⟨rfl, [], by simp, by simp⟩
    | ok pod =>
      simp only [engineRunnerPod, St.emit]
      cases w.GetPod st.log { Namespace := pod.Namespace, Name := pod.Name } with
      | ok p =>
        exact ⟨rfl, [Call.GetPod { Namespace := pod.Namespace, Name := pod.Name }], rfl,
          by simp [Call.writesCampaign]⟩
      | error e =>
        simp only
        split_ifs
        · cases w.CreatePod
              (st.log ++ [Call.GetPod { Namespace := pod.Namespace, Name := pod.Name }]) pod <;>
            exact ⟨rfl, [Call.GetPod { Namespace := pod.Namespace, Name := pod.Name },
              Call.CreatePod pod], by simp, by simp [Call.writesCampaign]⟩
        · exact ⟨rfl, [Call.GetPod { Namespace := pod.Namespace, Name := pod.Name }], rfl,
            by simp [Call.writesCampaign]⟩

/-- C14: in a pass of `reconcileForCreationAndRunning` whose validation and ensure-exists
steps succeed, on a campaign whose phase is not yet Completed and whose runner pod reports
at most one container status named "chaos-runner": the two steps leave the status and the
desired state of the campaign as they were and write nothing to it; if the lookup of the
runner finds a pod whose phase is Running or Succeeded and whose "chaos-runner" container
status is terminated with reason "Completed" and not ready, the handler issues, right after
the lookup, an update of the campaign with phase Completed and desired state Stop, and that
is its only write; in every other case, a failed lookup included, the handler returns
without error after the lookup alone, with the campaign as the two steps left it. -/
theorem reconcileForCreationAndRunning_completion (w : World) (st st1 st2 : St)
    (hval : validateAnnontatedApplication w st = (none, st1))
    (hens : checkEngineRunnerPod w st1 = (none, st2))
    (hphase : st.engine.Instance.Status.EngineStatus ≠ EngineStatusCompleted)
    (hone : ∀ pod, w.GetPod st2.log (runnerKey st2.engine.Instance) = Except.ok pod →
      (pod.ContainerStatuses.filter (fun c => c.Name = "chaos-runner")).length ≤ 1) :
    st2.engine.Instance.Status = st.engine.Instance.Status ∧
    st2.engine.Instance.Spec.EngineState = st.engine.Instance.Spec.EngineState ∧
    (∃ pre, st2.log = st.log ++ pre ∧ ∀ c ∈ pre, c.writesCampaign = false) ∧
    ((∃ pod, w.GetPod st2.log (runnerKey st2.engine.Instance) = Except.ok pod ∧
        (pod.Phase = "Running" ∨ pod.Phase = "Succeeded") ∧
        ∃ c ∈ pod.ContainerStatuses, c.Name = "chaos-runner" ∧
          c.Terminated = some "Completed" ∧ c.Ready = false) →
      (markedComplete st2.engine.Instance).Status.EngineStatus = EngineStatusCompleted ∧
      (markedComplete st2.engine.Instance).Spec.EngineState = EngineStateStop ∧
      ∃ tail, (reconcileForCreationAndRunning w st).2.log =
          st2.log ++ Call.GetPod (runnerKey st2.engine.Instance) ::
            Call.Update (markedComplete st2.engine.Instance) :: tail ∧
        (∀ c ∈ tail, c.writesCampaign = false) ∧
        (reconcileForCreationAndRunning w st).2.engine.Instance =
          markedComplete st2.engine.Instance) ∧
    ((¬ ∃ pod, w.GetPod st2.log (runnerKey st2.engine.Instance) = Except.ok pod ∧
        (pod.Phase = "Running" ∨ pod.Phase = "Succeeded") ∧
        ∃ c ∈ pod.ContainerStatuses, c.Name = "chaos-runner" ∧
          c.Terminated = some "Completed" ∧ c.Ready = false) →
      reconcileForCreationAndRunning w st =
        (none, { engine := st2.engine,
                 log := st2.log ++ [Call.GetPod (runnerKey st2.engine.Instance)] })) := by
  obtain ⟨-, hst, hes, -, pre1, hlog1, hpre1⟩ := validateAnnontatedApplication_frame w st
  obtain ⟨heng2, pre2, hlog2, hpre2⟩ := checkEngineRunnerPod_frame w st1
  rw [hval] at hst hes hlog1
  rw [hens] at heng2 hlog2
  simp only at hst hes hlog1 heng2 hlog2
  have hph2 : st2.engine.Instance.Status.EngineStatus ≠ EngineStatusCompleted := by
    rw [heng2, hst]
    exact hphase
  refine ⟨by rw [heng2, hst], by rw [heng2, hes], ⟨pre1 ++ pre2, ?_, ?_⟩, ?_, ?_⟩
  · rw [hlog2, hlog1, List.append_assoc]
  · intro c hc
    rcases List.mem_append.mp hc with hc | hc
    · exact (hpre1 c hc).1
    · exact hpre2 c hc
  · rintro ⟨pod, hg, hph, hc⟩
    have hdone : runnerContainerCompleted pod.ContainerStatuses = true :=
      (runnerContainerCompleted_iff _ (hone pod hg)).2 hc
    simp only [runnerKey] at hg
    refine ⟨rfl, rfl, ?_⟩
    simp only [reconcileForCreationAndRunning, hval, hens, checkRunnerContainerCompletedStatus,
      hg, hph, hdone, if_true, updateEngineForComplete, St.emit, hph2, ne_eq,
      not_false_eq_true, clientUpdate, St.setInstance, Eventf, runnerKey, markedComplete]
    cases w.Update _ _ with
    | none =>
      exact ⟨[Call.Eventf "Normal" "ChaosEngineCompleted"
        "ChaosEngine completed, will delete or retain the resources according to jobCleanUpPolicy"],
        by simp, by simp [Call.writesCampaign], rfl⟩
    | some e => exact ⟨[], by simp, by simp, rfl⟩
  · intro hno
    simp only [reconcileForCreationAndRunning, hval, hens, checkRunnerContainerCompletedStatus,
      St.emit, runnerKey]
    simp only [runnerKey] at hno hone
    cases hg : w.GetPod st2.log
        { Namespace := st2.engine.Instance.ObjectMeta.Namespace,
          Name := st2.engine.Instance.ObjectMeta.Name ++ "-runner" } with
    | error e => simp
    | ok pod =>
      have hfalse : (if pod.Phase = "Running" ∨ pod.Phase = "Succeeded" then
          runnerContainerCompleted pod.ContainerStatuses else false) = false := by
        by_cases hph : pod.Phase = "Running" ∨ pod.Phase = "Succeeded"
        · rw [if_pos hph]
          cases hr : runnerContainerCompleted pod.ContainerStatuses with
          | false => rfl
          | true =>
            exact absurd ⟨pod, hg, hph,
              (runnerContainerCompleted_iff _ (hone pod hg)).1 hr⟩ hno
        · rw [if_neg hph]
      simp only [hfalse]

/-- C14 (witness): the provisioning pass on the initialized sample campaign, in a world
whose store holds the completed runner pod, satisfies the hypotheses, and the statement
holds of it. -/
theorem reconcileForCreationAndRunning_completion_witness :
    ensuredSample.engine.Instance.Status =
      (loaded (sampleEngine EngineStateActive EngineStatusInitialized
        (some [finalizer]))).engine.Instance.Status ∧
    ensuredSample.engine.Instance.Spec.EngineState =
      (loaded (sampleEngine EngineStateActive EngineStatusInitialized
        (some [finalizer]))).engine.Instance.Spec.EngineState ∧
    (∃ pre, ensuredSample.log =
        (loaded (sampleEngine EngineStateActive EngineStatusInitialized
          (some [finalizer]))).log ++ pre ∧
      ∀ c ∈ pre, c.writesCampaign = false) ∧
    ((∃ pod, holdingCompletedRunner.GetPod ensuredSample.log
          (runnerKey ensuredSample.engine.Instance) = Except.ok pod ∧
        (pod.Phase = "Running" ∨ pod.Phase = "Succeeded") ∧
        ∃ c ∈ pod.ContainerStatuses, c.Name = "chaos-runner" ∧
          c.Terminated = some "Completed" ∧ c.Ready = false) →
      (markedComplete ensuredSample.engine.Instance).Status.EngineStatus =
        EngineStatusCompleted ∧
      (markedComplete ensuredSample.engine.Instance).Spec.EngineState = EngineStateStop ∧
      ∃ tail, (reconcileForCreationAndRunning holdingCompletedRunner
          (loaded (sampleEngine EngineStateActive EngineStatusInitialized
            (some [finalizer])))).2.log =
          ensuredSample.log ++ Call.GetPod (runnerKey ensuredSample.engine.Instance) ::
            Call.Update (markedComplete ensuredSample.engine.Instance) :: tail ∧
        (∀ c ∈ tail, c.writesCampaign = false) ∧
        (reconcileForCreationAndRunning holdingCompletedRunner
          (loaded (sampleEngine EngineStateActive EngineStatusInitialized
            (some [finalizer])))).2.engine.Instance =
          markedComplete ensuredSample.engine.Instance) ∧
    ((¬ ∃ pod, holdingCompletedRunner.GetPod ensuredSample.log
          (runnerKey ensuredSample.engine.Instance) = Except.ok pod ∧
        (pod.Phase = "Running" ∨ pod.Phase = "Succeeded") ∧
        ∃ c ∈ pod.ContainerStatuses, c.Name = "chaos-runner" ∧
          c.Terminated = some "Completed" ∧ c.Ready = false) →
      reconcileForCreationAndRunning holdingCompletedRunner
          (loaded (sampleEngine EngineStateActive EngineStatusInitialized
            (some [finalizer]))) =
        (none, { engine := ensuredSample.engine,
                 log := ensuredSample.log ++
                   [Call.GetPod (runnerKey ensuredSample.engine.Instance)] })) :=
  reconcileForCreationAndRunning_completion holdingCompletedRunner
    (loaded (sampleEngine EngineStateActive EngineStatusInitialized (some [finalizer])))
    validatedSample ensuredSample rfl rfl (by decide)
    (fun pod h => Except.ok.inj h ▸ by decide)

/-! ## Splitting annotation keys -/

theorem splitChars_eq (sep : Char) (cs : List Char) :
    splitChars sep cs =
      cs.takeWhile (fun c => decide (c ≠ sep)) ::
        (if sep ∈ cs then
          splitChars sep ((cs.dropWhile (fun c => decide (c ≠ sep))).drop 1)
        else []) := by
  induction cs with
  | nil => simp [splitChars]
  | cons c cs ih =>
    by_cases hc : c = sep
    · subst hc
      have h1 : List.takeWhile (fun x => decide (x ≠ c)) (c :: cs) = [] := by simp
      have h2 : (List.dropWhile (fun x => decide (x ≠ c)) (c :: cs)).drop 1 = cs := by simp
      rw [h1, h2, if_pos (List.mem_cons_self _ _), splitChars, ih]
      simp
    · have hc2 : ¬ sep = c := fun e => hc e.symm
      have h1 : List.takeWhile (fun x => decide (x ≠ sep)) (c :: cs) =
          c :: List.takeWhile (fun x => decide (x ≠ sep)) cs := by simp [hc]
      have h2 : List.dropWhile (fun x => decide (x ≠ sep)) (c :: cs) =
          List.dropWhile (fun x => decide (x ≠ sep)) cs := by simp [hc]
      rw [h1, h2, splitChars, ih]
      by_cases hm : sep ∈ cs
      · have hm2 : sep ∈ c :: cs := List.mem_cons_of_mem _ hm
        simp [hm, hm2, hc]
      · have hm2 : ¬ sep ∈ c :: cs := by simp [hc2, hm]
        simp [hm, hm2, hc]

theorem Split_segments (k : String) (h : '/' ∈ k.data) :
    2 ≤ (Split k '/').length ∧
    (Split k '/')[0]? = some (String.mk (k.data.takeWhile (fun c => decide (c ≠ '/')))) ∧
    (Split k '/')[1]? =
      some (String.mk
        (((k.data.dropWhile (fun c => decide (c ≠ '/'))).drop 1).takeWhile
          (fun c => decide (c ≠ '/')))) := by
  unfold Split
  rw [splitChars_eq, if_pos h,
    splitChars_eq '/' ((k.data.dropWhile (fun c => decide (c ≠ '/'))).drop 1)]
  refine ⟨by simp, by simp, by simp⟩

/-- C19: for every history and every annotation map in which each key of a recognized
entry (value lower-cased injected, reverted or targeted) contains a "/", both indices
`getChaosStatus` reads of the split key are in range: index 0 holds the text before the
first "/" and index 1 the text between the first "/" and the second, or the end of the
key; the kind and the name are these two texts trimmed; and `getChaosStatus` returns a
result, which is computed from the recognized entries alone, so the key of an entry with
any other value is not split and need not contain a "/". -/
theorem getChaosStatus_in_range (ToLower : String → String) (result : ChaosResult)
    (hslash : ∀ kv ∈ result.Annotations, isOutcome (ToLower kv.2) = true → '/' ∈ kv.1.data) :
    (∀ kv ∈ result.Annotations, isOutcome (ToLower kv.2) = true →
      2 ≤ (Split kv.1 '/').length ∧
      (Split kv.1 '/')[0]? =
        some (String.mk (kv.1.data.takeWhile (fun c => decide (c ≠ '/')))) ∧
      (Split kv.1 '/')[1]? =
        some (String.mk
          (((kv.1.data.dropWhile (fun c => decide (c ≠ '/'))).drop 1).takeWhile
            (fun c => decide (c ≠ '/')))) ∧
      targetKind kv.1 =
        TrimSpace (String.mk (kv.1.data.takeWhile (fun c => decide (c ≠ '/')))) ∧
      targetName kv.1 =
        TrimSpace (String.mk
          (((kv.1.data.dropWhile (fun c => decide (c ≠ '/'))).drop 1).takeWhile
            (fun c => decide (c ≠ '/'))))) ∧
    getChaosStatus ToLower result =
      some ((outcomes ToLower result.Annotations).foldl mergeTarget result.Targets,
        (outcomes ToLower result.Annotations).foldl (fun a kv => deleteKey a kv.1)
          result.Annotations) := by
  constructor
  · intro kv hkv hv
    obtain ⟨h2, h0, h1⟩ := Split_segments kv.1 (hslash kv hkv hv)
    exact ⟨h2, h0, h1, by simp [targetKind, h0], by simp [targetName, h1]⟩
  · exact getChaosStatusLoop_eq ToLower _ _ _
      (fun kv hkv hv => (Split_segments kv.1 (hslash kv hkv hv)).1)

/-- C19 (witness): the statement at the sample result, whose annotation "note" is not
recognized and has no "/" in its key. -/
theorem getChaosStatus_in_range_witness :
    (∀ kv ∈ sampleResult.Annotations, isOutcome (asciiLower kv.2) = true →
      2 ≤ (Split kv.1 '/').length ∧
      (Split kv.1 '/')[0]? =
        some (String.mk (kv.1.data.takeWhile (fun c => decide (c ≠ '/')))) ∧
      (Split kv.1 '/')[1]? =
        some (String.mk
          (((kv.1.data.dropWhile (fun c => decide (c ≠ '/'))).drop 1).takeWhile
            (fun c => decide (c ≠ '/')))) ∧
      targetKind kv.1 =
        TrimSpace (String.mk (kv.1.data.takeWhile (fun c => decide (c ≠ '/')))) ∧
      targetName kv.1 =
        TrimSpace (String.mk
          (((kv.1.data.dropWhile (fun c => decide (c ≠ '/'))).drop 1).takeWhile
            (fun c => decide (c ≠ '/'))))) ∧
    getChaosStatus asciiLower sampleResult =
      some ((outcomes asciiLower sampleResult.Annotations).foldl mergeTarget
          sampleResult.Targets,
        (outcomes asciiLower sampleResult.Annotations).foldl (fun a kv => deleteKey a kv.1)
          sampleResult.Annotations) :=
  getChaosStatus_in_range asciiLower sampleResult (by decide)

end ChaosOperator
